import Mathlib

/-!
# ribangpi_clib: driver registry, native backend, expander backend

A shallow embedding of `gpi.c`, `rpigpi.c`, `mcp23017gpi.c` and `i2c.c`.

The C globals (`gpiDrivers`, `gpimap`, `zynGpiCount`, `gpiMmap`, `i2cFd`), the
`malloc`ed pin arrays and the hardware the code talks to are gathered in one
`State` that every function takes and returns.  A function returns `none`
where the C program has no defined behaviour: an array index outside its
array, a read or write through a null, freed or unmapped pointer, a call
through a null function pointer, a second `free` of the same block, a shift
by at least the width of the shifted type.  What `malloc` returns holds
whatever the memory held before: the state carries that content (`fresh`), and
it can be anything.  Machine integers are `Nat` with
explicit reduction (`% U32`, `% 256`, `% 2` for the one-bit fields).
-/

namespace RibanGpi

/-! ## Constants of gpi.h, rpigpi.c and mcp23017gpi.h -/

abbrev MAX_GPI_DRIVERS : Nat := 8
abbrev MAX_GPI : Nat := 256
abbrev GPI_DRIVER_NONE : Nat := 0
abbrev GPI_DRIVER_RPI : Nat := 1
abbrev GPI_DRIVER_MCP23017 : Nat := 3
abbrev INPUT : Nat := 0
abbrev OUTPUT : Nat := 1
abbrev PUD_OFF : Nat := 0
abbrev PUD_DOWN : Nat := 1
abbrev PUD_UP : Nat := 2
abbrev MAX_RPI_GPI : Nat := 32
abbrev BCM2835_GPSET0 : Nat := 7
abbrev BCM2835_GPCLR0 : Nat := 10
abbrev BCM2835_GPLEV0 : Nat := 13
abbrev BCM2835_GPPUD : Nat := 37
abbrev BCM2835_GPPUDCLK0 : Nat := 38
abbrev MCP23017_REG_IODIR : Nat := 0
abbrev MCP23017_REG_IOCON : Nat := 5
abbrev MCP23017_REG_GPPU : Nat := 6
abbrev MCP23017_REG_GPIO : Nat := 9

/-- Number of values of a `uint32_t`. -/
abbrev U32 : Nat := 4294967296

/-- Subtraction of `uint32_t` values (`a -= b`). -/
def sub32 (a b : Nat) : Nat := (a + (U32 - b % U32)) % U32

/-- Addition of `uint32_t` values. -/
def add32 (a b : Nat) : Nat := (a + b) % U32

/-- Replace the value of a function at one index (a store into an array). -/
def upd {α : Type} (f : Nat → α) (i : Nat) (v : α) : Nat → α :=
  fun j => if j = i then v else f j

/-! ## Data model (gpi.h) -/

/-- The `gpi_t` record: three one-bit fields. -/
structure gpi_t where
  value : Nat
  enabled : Nat
  dir : Nat
  deriving DecidableEq, Repr

/-- The function a capability pointer of a driver slot points to: the native
backend's (`setRpiGpi...`, `pollRpiGpi`, `destroyRpiGpiDevice`) or the
expander's (`setMcp23017Gpi...`). -/
inductive Backend where
  | rpi
  | mcp
  deriving DecidableEq, Repr

/-- The `mcp23017gpidata_t` record behind the `config` pointer of a slot. -/
structure mcp23017gpidata_t where
  address : Nat
  interrupt : Nat
  deriving DecidableEq, Repr

/-- The `gpi_driver_t` record.  `config` is `none` for the null pointer (the
block is written once when it is allocated and never freed); `gpis` is the
address of the pin array in `State.heap`, `0` for the null pointer; a
capability is `none` for a null function pointer. -/
structure gpi_driver_t where
  type : Nat
  size : Nat
  offset : Nat
  config : Option mcp23017gpidata_t
  gpis : Nat
  setPull : Option Backend
  setState : Option Backend
  destroy : Option Backend
  setDirection : Option Backend
  poll : Option Backend
  deriving DecidableEq, Repr

/-- The `gpi_map_t` record: driver slot and offset within the driver. -/
structure gpi_map_t where
  driver : Nat
  offset : Nat
  deriving DecidableEq, Repr

/-- What the code does to the hardware, in order: accesses to the words of the
mapped register block, `usleep` calls, and transactions on the I2C device. -/
inductive Event where
  | regRead (word : Nat)
  | regWrite (word : Nat) (val : Nat)
  | delay
  | busSelect (address : Nat)
  | busWrite (byte : Nat)
  | busRead
  deriving DecidableEq, Repr

/-- The globals of the library together with the heap and the hardware.
`gpiMmap` says whether the pointer `gpiMmap` is a live mapping; `regs` is the
content of the register block; `busIn` are the bytes the I2C device delivers
to the coming reads; `log` records the hardware accesses made so far;
`fresh i` is what element `i` of the next block obtained from `malloc` holds
before the program has written to it. -/
structure State where
  gpiDrivers : Nat → gpi_driver_t
  gpimap : Nat → gpi_map_t
  zynGpiCount : Nat
  heap : Nat → Option (List gpi_t)
  nextPtr : Nat
  gpiMmap : Bool
  regs : Nat → Nat
  i2cFd : Int
  busIn : List Nat
  log : List Event
  fresh : Nat → gpi_t

/-- A slot as `resetDriver` leaves a zero-initialised one. -/
def emptyDriver : gpi_driver_t :=
  { type := GPI_DRIVER_NONE, size := 0, offset := 0, config := none, gpis := 0,
    setPull := none, setState := none, destroy := none, setDirection := none, poll := none }

/-- The `resetDriver` function: every field except `gpis` and `setDirection` is cleared. -/
def resetDriver (driver : Nat) (d : Nat → gpi_driver_t) : Nat → gpi_driver_t :=
  upd d driver { d driver with
    type := GPI_DRIVER_NONE, size := 0, offset := 0, config := none,
    destroy := none, setState := none, setPull := none, poll := none }

/-- The state after `init`: zero-initialised globals, every slot reset, the
register block not mapped, the bus closed; unallocated memory with all bits set. -/
def init : State :=
  { gpiDrivers := fun _ => emptyDriver
    gpimap := fun _ => { driver := 0, offset := 0 }
    zynGpiCount := 0
    heap := fun _ => none
    nextPtr := 1
    gpiMmap := false
    regs := fun _ => 0
    i2cFd := -1
    busIn := []
    log := []
    fresh := fun _ => { value := 1, enabled := 1, dir := 1 } }

/-! ## Memory and hardware primitives -/

/-- Append an event to the hardware log. -/
def emit (e : Event) (st : State) : State := { st with log := st.log ++ [e] }

/-- Read `gpimap[index]`; the array has `MAX_GPI` entries. -/
def readMap (st : State) (index : Nat) : Option gpi_map_t :=
  if index < MAX_GPI then some (st.gpimap index) else none

/-- Read `gpiDrivers[driver]`; the array has `MAX_GPI_DRIVERS` entries. -/
def readDriver (st : State) (driver : Nat) : Option gpi_driver_t :=
  if driver < MAX_GPI_DRIVERS then some (st.gpiDrivers driver) else none

/-- The `malloc` of an array of `n` pins.  It succeeds and gives a block at an
address no pointer in the program holds yet (the next unused address); the
block is not initialised: its elements hold `fresh`. -/
def malloc (n : Nat) (st : State) : Nat × State :=
  (st.nextPtr, { st with
    heap := upd st.heap st.nextPtr (some ((List.range n).map st.fresh)),
    nextPtr := st.nextPtr + 1 })

/-- The `free` of a pin array: nothing for the null pointer, undefined for a block that is not live. -/
def free (p : Nat) (st : State) : Option State :=
  if p = 0 then some st
  else match st.heap p with
    | some _ => some { st with heap := upd st.heap p none }
    | none => none

/-- Read element `off` of the pin array at address `p`. -/
def readPin (st : State) (p off : Nat) : Option gpi_t :=
  match st.heap p with
  | some blk => blk[off]?
  | none => none

/-- Store into element `off` of the pin array at address `p`. -/
def writePin (p off : Nat) (f : gpi_t → gpi_t) (st : State) : Option State :=
  match st.heap p with
  | some blk =>
    match blk[off]? with
    | some g => some { st with heap := upd st.heap p (some (blk.set off (f g))) }
    | none => none
  | none => none

/-- The macro `getGpi(index)` as an address: the pin array of slot
`gpimap[index].driver` and the element `gpimap[index].offset`. -/
def gpiAddr (st : State) (index : Nat) : Option (Nat × Nat) :=
  match readMap st index with
  | some m =>
    match readDriver st m.driver with
    | some d => some (d.gpis, m.offset)
    | none => none
  | none => none

/-- Read `getGpi(index)`. -/
def getGpi (st : State) (index : Nat) : Option gpi_t :=
  match gpiAddr st index with
  | some (p, off) => readPin st p off
  | none => none

/-- Assign to a field of `getGpi(index)`. -/
def setGpi (index : Nat) (f : gpi_t → gpi_t) (st : State) : Option State :=
  match gpiAddr st index with
  | some (p, off) => writePin p off f st
  | none => none

/-- Read word `w` of the mapped register block. -/
def regRead (w : Nat) (st : State) : Option (Nat × State) :=
  if st.gpiMmap then some (st.regs w, emit (.regRead w) st) else none

/-- Write word `w` of the mapped register block. -/
def regWrite (w v : Nat) (st : State) : Option State :=
  if st.gpiMmap then some (emit (.regWrite w (v % U32)) { st with regs := upd st.regs w (v % U32) })
  else none

/-- The `usleep` call. -/
def usleep (st : State) : State := emit .delay st

/-! ## i2c.c -/

/-- The `i2cGetFd` function. -/
def i2cGetFd (st : State) : Int := st.i2cFd

/-- The `i2cOpen` function; `openResult` is what `open` returns when it is called. -/
def i2cOpen (openResult : Int) (st : State) : Int × State :=
  if st.i2cFd ≥ 0 then (st.i2cFd, st)
  else (openResult, { st with i2cFd := openResult })

/-- The `i2cClose` function. -/
def i2cClose (st : State) : State :=
  if st.i2cFd < 0 then st else { st with i2cFd := -1 }

/-- The `i2cSelectDevice` function (its result is never used). -/
def i2cSelectDevice (address : Nat) (st : State) : State :=
  if st.i2cFd < 0 then st else emit (.busSelect address) st

/-- The `i2cWriteByte` function; the parameter is a `uint8_t`. -/
def i2cWriteByte (value : Nat) (st : State) : State :=
  if st.i2cFd < 0 then st else emit (.busWrite (value % 256)) st

/-- The `i2cReadByte` function: the next byte the device delivers, `0` when it delivers none. -/
def i2cReadByte (st : State) : Nat × State :=
  if st.i2cFd < 0 then (0, st)
  else match st.busIn with
    | [] => (0, emit .busRead st)
    | b :: rest => (b % 256, emit .busRead { st with busIn := rest })

/-! ## rpigpi.c -/

/-- The table `unavailableGpi` of the native backend. -/
def unavailableGpi : List Nat :=
  [1,1,0,0,0,0,0,0,0,0,0,0,0,0,0,0,0,0,0,0,0,0,0,0,0,0,0,0,1,1,1,1]

/-- Bitwise complement of a `uint32_t`. -/
def not32 (x : Nat) : Nat := (U32 - 1) - x % U32

/-- The `destroyRpiGpiDevice` function: the register block is unmapped. -/
def destroyRpiGpiDevice (st : State) : State := { st with gpiMmap := false }

/-- The `setRpiGpiState` function.  The guard `offset > 31 | unavailableGpi[offset]`
uses the bitwise or, so the table is read also when `offset > 31`. -/
def setRpiGpiState (gpi state : Nat) (st : State) : Option State :=
  match readMap st gpi with
  | none => none
  | some m =>
    match unavailableGpi[m.offset]? with
    | none => none
    | some u =>
      if m.offset > 31 ∨ u ≠ 0 then some st
      else if state ≠ 0 then regWrite BCM2835_GPSET0 (1 <<< m.offset) st
      else regWrite BCM2835_GPCLR0 (1 <<< m.offset) st

/-- The `getRpiGpiState` function. -/
def getRpiGpiState (gpi : Nat) (st : State) : Option (Nat × State) :=
  match readMap st gpi with
  | none => none
  | some m =>
    match unavailableGpi[m.offset]? with
    | none => none
    | some u =>
      if m.offset > 31 ∨ u ≠ 0 then some (0, st)
      else match regRead BCM2835_GPLEV0 st with
        | none => none
        | some (lev, st1) => some (if lev &&& (1 <<< m.offset) ≠ 0 then 1 else 0, st1)

/-- The `setRpiGpiDirection` function: two read-modify-write accesses to the
function-select word, then the cached direction of `getGpi(gpi)`. -/
def setRpiGpiDirection (gpi dir : Nat) (st : State) : Option State :=
  match readMap st gpi with
  | none => none
  | some m =>
    match unavailableGpi[m.offset]? with
    | none => none
    | some u =>
      if m.offset > 31 ∨ u ≠ 0 then some st
      else
        match regRead (m.offset / 10) st with
        | none => none
        | some (v1, st1) =>
          match regWrite (m.offset / 10) (v1 &&& not32 (7 <<< ((m.offset % 10) * 3))) st1 with
          | none => none
          | some st2 =>
            match regRead (m.offset / 10) st2 with
            | none => none
            | some (v2, st3) =>
              match regWrite (m.offset / 10) (v2 ||| ((dir &&& 1) <<< ((m.offset % 10) * 3))) st3 with
              | none => none
              | some st4 => setGpi gpi (fun g => { g with dir := if dir ≠ 0 then 1 else 0 }) st4

/-- The `setRpiGpiPull` function; here the guard uses the short-circuit or. -/
def setRpiGpiPull (gpi mode : Nat) (st : State) : Option State :=
  match readMap st gpi with
  | none => none
  | some m =>
    if m.offset > 31 then some st
    else match unavailableGpi[m.offset]? with
      | none => none
      | some u =>
        if u ≠ 0 then some st
        else
          match regWrite BCM2835_GPPUD (mode &&& 3) st with
          | none => none
          | some st1 =>
            match regWrite BCM2835_GPPUDCLK0 (1 <<< m.offset) (usleep st1) with
            | none => none
            | some st2 =>
              match regWrite BCM2835_GPPUD 0 (usleep st2) with
              | none => none
              | some st3 => regWrite BCM2835_GPPUDCLK0 0 st3

/-- The loop of `pollRpiGpi` from `offset` on, `fuel` iterations; `gpis` is `pDriver->gpis`. -/
def pollRpiLoop (gpis : Nat) : Nat → Nat → Nat → State → Option (Nat × State)
  | 0, _, changed, st => some (changed, st)
  | fuel + 1, offset, changed, st =>
    match readPin st gpis offset with
    | none => none
    | some g =>
      if g.enabled ≠ 0 then
        match getRpiGpiState offset st with
        | none => none
        | some (value, st1) =>
          if g.value = value then pollRpiLoop gpis fuel (offset + 1) changed st1
          else match writePin gpis offset (fun x => { x with value := value }) st1 with
            | none => none
            | some st2 => pollRpiLoop gpis fuel (offset + 1) 1 st2
      else pollRpiLoop gpis fuel (offset + 1) changed st

/-- The `pollRpiGpi` function: offsets 2 to 27. -/
def pollRpiGpi (driver : Nat) (st : State) : Option (Nat × State) :=
  match readDriver st driver with
  | none => none
  | some d => pollRpiLoop d.gpis 26 2 0 st

/-- How a slot search loop ends: with `return driverCount` inside the loop,
or by leaving the loop with `driverCount` at the given value. -/
inductive Scan where
  | found (driverCount : Nat)
  | stop (driverCount : Nat)
  deriving DecidableEq, Repr

/-- The slot search loop of `addRpiGpiDevice`. -/
def rpiScan (d : Nat → gpi_driver_t) : Nat → Nat → Scan
  | 0, driverCount => .stop driverCount
  | fuel + 1, driverCount =>
    if (d driverCount).type = GPI_DRIVER_RPI then .found driverCount
    else if (d driverCount).type = GPI_DRIVER_NONE then .stop driverCount
    else rpiScan d fuel (driverCount + 1)

/-- The pin loop of `addRpiGpiDevice` from `i` on, `fuel` iterations. -/
def rpiAddLoop (driverCount gpis : Nat) : Nat → Nat → State → Option State
  | 0, _, st => some st
  | fuel + 1, i, st =>
    match writePin gpis i (fun _ => { value := 0, enabled := 0, dir := 0 }) st with
    | none => none
    | some st1 =>
      if st1.zynGpiCount < MAX_GPI then
        match setRpiGpiDirection i INPUT
            { st1 with
              gpimap := upd st1.gpimap st1.zynGpiCount { driver := driverCount, offset := i },
              zynGpiCount := add32 st1.zynGpiCount 1 } with
        | none => none
        | some st2 => rpiAddLoop driverCount gpis fuel (i + 1) st2
      else none

/-- The `addRpiGpiDevice` function.  `fd` is what `open("/dev/gpiomem")` returns
and `mapOk` whether `mmap` succeeds, when they are called. -/
def addRpiGpiDevice (fd : Int) (mapOk : Bool) (st : State) : Option (Int × State) :=
  match rpiScan st.gpiDrivers MAX_GPI_DRIVERS 0 with
  | .found driverCount => some (driverCount, st)
  | .stop driverCount =>
    if driverCount ≥ MAX_GPI_DRIVERS then some (-1, st)
    else if fd < 0 then some (-1, st)
    else if mapOk = false then some (-1, { st with gpiMmap := false })
    else
      let (gpis, st1) := malloc MAX_RPI_GPI { st with gpiMmap := true }
      let driver : gpi_driver_t :=
        { st1.gpiDrivers driverCount with
          type := GPI_DRIVER_RPI, size := MAX_RPI_GPI, offset := st1.zynGpiCount,
          setState := some .rpi, setDirection := some .rpi, setPull := some .rpi,
          poll := some .rpi, destroy := some .rpi, gpis := gpis }
      match rpiAddLoop driverCount gpis MAX_RPI_GPI 0
          { st1 with gpiDrivers := upd st1.gpiDrivers driverCount driver } with
      | none => none
      | some st2 => some (driverCount, st2)

/-! ## mcp23017gpi.c -/

/-- Width of `unsigned long`, the type of `1UL`, on the 32-bit target. -/
abbrev ULONG_BITS : Nat := 32

/-- The macro `bitSet(value, bit)` on a `uint8_t` variable: the value of the
assignment expression.  The shift is undefined from `ULONG_BITS` on. -/
def bitSet (value bit : Nat) : Option Nat :=
  if bit < ULONG_BITS then some ((value ||| (1 <<< bit)) % 256) else none

/-- The macro `bitClear(value, bit)` on a `uint8_t` variable. -/
def bitClear (value bit : Nat) : Option Nat :=
  if bit < ULONG_BITS then some ((value &&& not32 (1 <<< bit)) % 256) else none

/-- The `readMcp23017Register` function. -/
def readMcp23017Register (address reg : Nat) (st : State) : Nat × State :=
  if i2cGetFd st < 0 then (0, st)
  else i2cReadByte (i2cWriteByte reg (i2cWriteByte (0x40 ||| (address <<< 1)) (i2cSelectDevice address st)))

/-- The `writeMcp23017Register` function. -/
def writeMcp23017Register (address reg val : Nat) (st : State) : State :=
  if i2cGetFd st < 0 then st
  else i2cWriteByte val (i2cWriteByte reg (i2cWriteByte (0x40 ||| (address <<< 1)) (i2cSelectDevice address st)))

/-- The `getMcp23017Config` function; `none` is the null pointer.  The parameter is a `uint8_t`. -/
def getMcp23017Config (st : State) (driver : Nat) : Option mcp23017gpidata_t :=
  if driver % 256 ≥ MAX_GPI_DRIVERS ∨ (st.gpiDrivers (driver % 256)).type ≠ GPI_DRIVER_MCP23017 then none
  else (st.gpiDrivers (driver % 256)).config

/-- The register and the bit the three expander operations compute from the
offset: `(offset | 0x08) ? base | 0x10 : base` and `(uint8_t)(offset | 0x07)`. -/
def mcpReg (base offset : Nat) : Nat := if offset ||| 0x08 ≠ 0 then base ||| 0x10 else base

/-- The bit number `(uint8_t)(offset | 0x07)`. -/
def mcpBit (offset : Nat) : Nat := (offset ||| 0x07) % 256

/-- The `setMcp23017GpiState` function. -/
def setMcp23017GpiState (gpi state : Nat) (st : State) : Option State :=
  match readMap st gpi with
  | none => none
  | some m =>
    match getMcp23017Config st m.driver with
    | none => none
    | some c =>
      let reg := mcpReg MCP23017_REG_GPIO m.offset
      let (value, st1) := readMcp23017Register c.address reg st
      match (if state ≠ 0 then bitClear value (mcpBit m.offset) else bitSet value (mcpBit m.offset)) with
      | none => none
      | some v =>
        setGpi gpi (fun g => { g with value := if state ≠ 0 then 1 else 0 })
          (writeMcp23017Register c.address reg v st1)

/-- The `setMcp23017GpiDirection` function. -/
def setMcp23017GpiDirection (gpi dir : Nat) (st : State) : Option State :=
  match readMap st gpi with
  | none => none
  | some m =>
    match getMcp23017Config st m.driver with
    | none => none
    | some c =>
      let reg := mcpReg MCP23017_REG_IODIR m.offset
      let (value, st1) := readMcp23017Register c.address reg st
      match (if dir ≠ 0 then bitClear value (mcpBit m.offset) else bitSet value (mcpBit m.offset)) with
      | none => none
      | some v =>
        setGpi gpi (fun g => { g with dir := if dir ≠ 0 then 1 else 0 })
          (writeMcp23017Register c.address reg v st1)

/-- The `setMcp23017GpiPull` function. -/
def setMcp23017GpiPull (gpi mode : Nat) (st : State) : Option State :=
  if mode = PUD_DOWN then some st
  else
    match readMap st gpi with
    | none => none
    | some m =>
      match getMcp23017Config st m.driver with
      | none => none
      | some c =>
        let reg := mcpReg MCP23017_REG_GPPU m.offset
        let (value, st1) := readMcp23017Register c.address reg st
        match (if mode ≠ 0 then bitSet value (mcpBit m.offset) else bitClear value (mcpBit m.offset)) with
        | none => none
        | some v => some (writeMcp23017Register c.address reg v st1)

/-- The slot search loop of `addMcp23017GpiDevice`; reading the address of a
slot of expander type goes through its `config` pointer. -/
def mcpScan (d : Nat → gpi_driver_t) (address : Nat) : Nat → Nat → Option Scan
  | 0, driverCount => some (.stop driverCount)
  | fuel + 1, driverCount =>
    if (d driverCount).type = GPI_DRIVER_NONE then some (.stop driverCount)
    else if (d driverCount).type = GPI_DRIVER_MCP23017 then
      match (d driverCount).config with
      | none => none
      | some c =>
        if c.address = address then some (.found driverCount)
        else mcpScan d address fuel (driverCount + 1)
    else mcpScan d address fuel (driverCount + 1)

/-- The pin loop of `addMcp23017GpiDevice` from `i` on, `fuel` iterations. -/
def mcpAddLoop (driverCount gpis : Nat) : Nat → Nat → State → Option State
  | 0, _, st => some st
  | fuel + 1, i, st =>
    match writePin gpis i (fun _ => { value := 0, enabled := 0, dir := 0 }) st with
    | none => none
    | some st1 =>
      if st1.zynGpiCount < MAX_GPI then
        match setMcp23017GpiDirection i INPUT
            { st1 with
              gpimap := upd st1.gpimap st1.zynGpiCount { driver := driverCount, offset := i },
              zynGpiCount := add32 st1.zynGpiCount 1 } with
        | none => none
        | some st2 => mcpAddLoop driverCount gpis fuel (i + 1) st2
      else none

/-- The `addMcp23017GpiDevice` function.  `openResult` is what `open("/dev/i2c-1")`
returns when `i2cOpen` calls it. -/
def addMcp23017GpiDevice (address interrupt : Nat) (openResult : Int) (st : State) :
    Option (Int × State) :=
  if address < 0x20 ∨ address > 0x27 then some (-1, st)
  else
    match mcpScan st.gpiDrivers address MAX_GPI_DRIVERS 0 with
    | none => none
    | some (.found driverCount) => some (driverCount, st)
    | some (.stop driverCount) =>
      if driverCount ≥ MAX_GPI_DRIVERS then some (-1, st)
      else
        let (fd, st0) := i2cOpen openResult st
        if fd < 0 then some (-1, st0)
        else
          let st1 := writeMcp23017Register address MCP23017_REG_IOCON 224 st0
          let (gpis, st2) := malloc 16 st1
          let driver : gpi_driver_t :=
            { st2.gpiDrivers driverCount with
              type := GPI_DRIVER_MCP23017, size := 16, offset := st2.zynGpiCount,
              config := some { address := address, interrupt := interrupt },
              setState := some .mcp, setDirection := some .mcp, setPull := some .mcp,
              gpis := gpis }
          match mcpAddLoop driverCount gpis 16 0
              { st2 with gpiDrivers := upd st2.gpiDrivers driverCount driver } with
          | none => none
          | some st3 => some (driverCount, st3)

/-! ## gpi.c -/

/-- The `enableGpi` function; `enabled` is a one-bit field. -/
def enableGpi (gpi enable : Nat) (st : State) : Option (Nat × State) :=
  if gpi ≥ st.zynGpiCount then some (0, st)
  else match setGpi gpi (fun g => { g with enabled := enable % 2 }) st with
    | none => none
    | some st1 => some (1, st1)

/-- The `isEnabled` function. -/
def isEnabled (gpi : Nat) (st : State) : Option Nat :=
  if gpi ≥ st.zynGpiCount then some 0
  else match getGpi st gpi with
    | none => none
    | some g => some g.enabled

/-- The `getCount` function. -/
def getCount (st : State) : Nat := st.zynGpiCount

/-- The loop of `getEnabledCount` from `i` on, `fuel` iterations. -/
def enabledLoop (st : State) : Nat → Nat → Nat → Option Nat
  | 0, _, count => some count
  | fuel + 1, i, count =>
    match isEnabled i st with
    | none => none
    | some e => enabledLoop st fuel (i + 1) (if e ≠ 0 then add32 count 1 else count)

/-- The `getEnabledCount` function. -/
def getEnabledCount (st : State) : Option Nat := enabledLoop st st.zynGpiCount 0 0

/-- The `getDirection` function. -/
def getDirection (gpi : Nat) (st : State) : Option Nat :=
  if gpi ≥ st.zynGpiCount then some 0
  else match getGpi st gpi with
    | none => none
    | some g => some g.dir

/-- The `setDirection` function: the capability is called with the flat pin number. -/
def setDirection (gpi dir : Nat) (st : State) : Option State :=
  if gpi ≥ st.zynGpiCount then some st
  else match readMap st gpi with
    | none => none
    | some m =>
      match readDriver st m.driver with
      | none => none
      | some d =>
        match d.setDirection with
        | none => some st
        | some .rpi => setRpiGpiDirection gpi dir st
        | some .mcp => setMcp23017GpiDirection gpi dir st

/-- The `setPull` function: the capability is called with the flat pin number. -/
def setPull (gpi mode : Nat) (st : State) : Option State :=
  if gpi ≥ st.zynGpiCount then some st
  else match readMap st gpi with
    | none => none
    | some m =>
      match readDriver st m.driver with
      | none => none
      | some d =>
        match d.setPull with
        | none => some st
        | some .rpi => setRpiGpiPull gpi mode st
        | some .mcp => setMcp23017GpiPull gpi mode st

/-- The `getState` function. -/
def getState (gpi : Nat) (st : State) : Option Nat :=
  if gpi ≥ st.zynGpiCount then some 0
  else match getGpi st gpi with
    | none => none
    | some g => some g.value

/-- The `setState` function: the capability is called without a null check,
with `gpimap[gpi].offset` and `state?1:0`; then `state` is stored in the
one-bit field `value`. -/
def setState (gpi state : Nat) (st : State) : Option State :=
  if gpi ≥ st.zynGpiCount then some st
  else match readMap st gpi with
    | none => none
    | some m =>
      match readDriver st m.driver with
      | none => none
      | some d =>
        match (match d.setState with
          | none => none
          | some .rpi => setRpiGpiState m.offset (if state ≠ 0 then 1 else 0) st
          | some .mcp => setMcp23017GpiState m.offset (if state ≠ 0 then 1 else 0) st) with
        | none => none
        | some st1 => setGpi gpi (fun g => { g with value := state % 2 }) st1

/-- The first loop of `removeGpiDevice` from `i` on, `fuel` iterations:
slots move down and get `size` subtracted from their offset, until an empty
slot has been copied. -/
def shiftDrivers (size : Nat) : Nat → Nat → (Nat → gpi_driver_t) → (Nat → gpi_driver_t)
  | 0, _, d => d
  | fuel + 1, i, d =>
    let d1 := upd d i (d (i + 1))
    if (d1 i).type = GPI_DRIVER_NONE then d1
    else shiftDrivers size fuel (i + 1) (upd d1 i { d1 i with offset := sub32 (d1 i).offset size })

/-- The second loop of `removeGpiDevice` from `i` on, `fuel` iterations:
`gpimap[i] = gpimap[i + size]; gpimap[i].offset -= size`. -/
def shiftMap (size : Nat) : Nat → Nat → (Nat → gpi_map_t) → Option (Nat → gpi_map_t)
  | 0, _, m => some m
  | fuel + 1, i, m =>
    if i < MAX_GPI ∧ add32 i size < MAX_GPI then
      shiftMap size fuel (i + 1)
        (upd m i { driver := (m (add32 i size)).driver, offset := sub32 (m (add32 i size)).offset size })
    else none

/-- The `removeGpiDevice` function. -/
def removeGpiDevice (driver : Nat) (st : State) : Option State :=
  if driver ≥ MAX_GPI_DRIVERS then some st
  else
    let offset := (st.gpiDrivers driver).offset
    let size := (st.gpiDrivers driver).size
    let st1 := match (st.gpiDrivers driver).destroy with
      | none => st
      | some _ => destroyRpiGpiDevice st
    match free (st1.gpiDrivers driver).gpis st1 with
    | none => none
    | some st2 =>
      let drivers := resetDriver (MAX_GPI_DRIVERS - 1)
        (shiftDrivers size (MAX_GPI_DRIVERS - 1 - driver) driver st2.gpiDrivers)
      match shiftMap size (add32 offset (size * 2) - offset) offset st2.gpimap with
      | none => none
      | some map =>
        some { st2 with gpiDrivers := drivers, gpimap := map, zynGpiCount := sub32 st2.zynGpiCount size }

/-- The body of the loop of `poll_gpi` for slot `i`: the `poll` capability,
when the slot has one, is called with the slot index. -/
def pollSlot (i : Nat) (st : State) : Option State :=
  match (st.gpiDrivers i).poll with
  | none => some st
  | some _ => (pollRpiGpi i st).map Prod.snd

/-! ## Calls from outside -/

/-- A call of the library, a pass of the polling thread over one slot, or a
change of the hardware or of the unallocated memory around it.  The arguments of a call are converted to
the parameter types (`uint8_t`, `uint32_t`); the results of `open` and `mmap`
come with the call that makes them. -/
inductive Op where
  | addRpi (fd : Int) (mapOk : Bool)
  | addMcp (address interrupt : Nat) (openResult : Int)
  | remove (driver : Nat)
  | enable (gpi enable : Nat)
  | setState (gpi state : Nat)
  | setDirection (gpi dir : Nat)
  | setPull (gpi mode : Nat)
  | poll (driver : Nat)
  | hwRegs (regs : Nat → Nat)
  | hwBus (bytes : List Nat)
  | hwHeap (cells : Nat → gpi_t)

/-- One call. -/
def step (op : Op) (st : State) : Option State :=
  match op with
  | .addRpi fd mapOk => (addRpiGpiDevice fd mapOk st).map Prod.snd
  | .addMcp address interrupt openResult =>
    (addMcp23017GpiDevice (address % 256) (interrupt % 256) openResult st).map Prod.snd
  | .remove driver => removeGpiDevice (driver % U32) st
  | .enable gpi enable => (enableGpi (gpi % U32) (enable % 256) st).map Prod.snd
  | .setState gpi state => setState (gpi % U32) (state % 256) st
  | .setDirection gpi dir => setDirection (gpi % U32) (dir % 256) st
  | .setPull gpi mode => setPull (gpi % U32) (mode % 256) st
  | .poll driver => if driver < MAX_GPI_DRIVERS then pollSlot driver st else some st
  | .hwRegs regs => some { st with regs := fun w => regs w % U32 }
  | .hwBus bytes => some { st with busIn := bytes }
  | .hwHeap cells => some { st with fresh := fun i =>
      { value := (cells i).value % 2, enabled := (cells i).enabled % 2, dir := (cells i).dir % 2 } }

/-- A sequence of calls, from the left. -/
def run : List Op → State → Option State
  | [], st => some st
  | op :: ops, st =>
    match step op st with
    | none => none
    | some st1 => run ops st1

/-- The states the library can be in: those a sequence of calls reaches from `init`. -/
def Reachable (st : State) : Prop := ∃ ops, run ops init = some st

/-! ## Properties the claims speak about -/

/-- Index-map consistency: every flat pin below the pin count resolves to a
non-empty slot, to an offset inside that slot, and the base offset of the slot
plus the local offset is the pin number. -/
def MapConsistent (st : State) : Prop :=
  ∀ p, p < getCount st →
    (st.gpimap p).driver < MAX_GPI_DRIVERS ∧
    (st.gpiDrivers (st.gpimap p).driver).type ≠ GPI_DRIVER_NONE ∧
    (st.gpimap p).offset < (st.gpiDrivers (st.gpimap p).driver).size ∧
    (st.gpiDrivers (st.gpimap p).driver).offset + (st.gpimap p).offset = p

/-- Two expanders (addresses 0x20 and 0x21, the bus opens as descriptor 4),
then the removal of slot 0. -/
def removeFirstOfTwo : List Op := [.addMcp 0x20 0 4, .addMcp 0x21 0 4, .remove 0]

/-- Agreement of two states on the registry (driver table, index map, pin
count) and on the allocation of the heap: no block has been allocated, and
every block that was live still is. -/
def Same (st st1 : State) : Prop :=
  st1.gpiDrivers = st.gpiDrivers ∧ st1.gpimap = st.gpimap ∧ st1.zynGpiCount = st.zynGpiCount ∧
    st1.nextPtr = st.nextPtr ∧ ∀ p, (st.heap p).isSome = true → (st1.heap p).isSome = true

/-- The pins a slot contributes: its `size` unless it is empty. -/
def usedSize (x : gpi_driver_t) : Nat := if x.type = GPI_DRIVER_NONE then 0 else x.size

/-- Sum of the sizes of the non-empty slots below `k`. -/
def sizeBelow (d : Nat → gpi_driver_t) : Nat → Nat
  | 0 => 0
  | k + 1 => sizeBelow d k + usedSize (d k)

/-- Dense packing of the driver table: above an empty slot every slot is empty. -/
def Dense (st : State) : Prop :=
  ∀ k j, k < j → j < MAX_GPI_DRIVERS →
    (st.gpiDrivers k).type = GPI_DRIVER_NONE → (st.gpiDrivers j).type = GPI_DRIVER_NONE

/-- Layout of the driver table: the pin count is the sum of the sizes of the
non-empty slots, and the base offset of a non-empty slot is the sum of the
sizes of the non-empty slots before it. -/
def Layout (st : State) : Prop :=
  getCount st = sizeBelow st.gpiDrivers MAX_GPI_DRIVERS ∧
    ∀ k, k < MAX_GPI_DRIVERS → (st.gpiDrivers k).type ≠ GPI_DRIVER_NONE →
      (st.gpiDrivers k).offset = sizeBelow st.gpiDrivers k

/-- What holds of the driver table `d` and the pin count `count` in every
reachable state, `n` being the number of registered backends: slots below `n`
host a native backend of 32 pins or an expander of 16 pins with a configuration
block and an address in 0x20..0x27, slots from `n` on are empty with size 0,
the offsets are the running sums of the sizes, the count is the total, and no
two slots host the same device. -/
structure TableInv (d : Nat → gpi_driver_t) (count n : Nat) : Prop where
  bound : n ≤ MAX_GPI_DRIVERS
  used : ∀ k, k < n → (d k).type = GPI_DRIVER_RPI ∨ (d k).type = GPI_DRIVER_MCP23017
  unused : ∀ k, n ≤ k → k < MAX_GPI_DRIVERS → (d k).type = GPI_DRIVER_NONE ∧ (d k).size = 0
  rpiSize : ∀ k, k < n → (d k).type = GPI_DRIVER_RPI → (d k).size = 32
  mcpSize : ∀ k, k < n → (d k).type = GPI_DRIVER_MCP23017 → (d k).size = 16
  offs : ∀ k, k < n → (d k).offset = sizeBelow d k
  cnt : count = sizeBelow d n
  cfg : ∀ k, k < n → (d k).type = GPI_DRIVER_MCP23017 →
    ∃ c, (d k).config = some c ∧ 0x20 ≤ c.address ∧ c.address ≤ 0x27
  rpiUniq : ∀ j k, j < n → k < n → (d j).type = GPI_DRIVER_RPI → (d k).type = GPI_DRIVER_RPI → j = k
  mcpUniq : ∀ j k cj ck, j < n → k < n →
    (d j).type = GPI_DRIVER_MCP23017 → (d k).type = GPI_DRIVER_MCP23017 →
    (d j).config = some cj → (d k).config = some ck → cj.address = ck.address → j = k

/-- A slot record with `size` subtracted from its base offset, as the first
loop of `removeGpiDevice` leaves a slot it has moved. -/
def lowered (size : Nat) (x : gpi_driver_t) : gpi_driver_t :=
  { x with offset := sub32 x.offset size }

/-- The state a sequence of calls leaves (`init` if the sequence does not complete). -/
def stateAfter (ops : List Op) : State := (run ops init).getD init

/-- Two expanders, addresses 0x20 and 0x21. -/
def twoExpanders : List Op := [.addMcp 0x20 0 4, .addMcp 0x21 0 4]

/-- An expander, then the native backend. -/
def expanderThenNative : List Op := [.addMcp 0x20 0 4, .addRpi 3 true]

/-- The pin arrays of different non-empty slots are different blocks. -/
def DistinctArrays (st : State) : Prop :=
  ∀ j, j < MAX_GPI_DRIVERS → ∀ k, k < MAX_GPI_DRIVERS →
    (j ≠ k ∧ (st.gpiDrivers j).type ≠ GPI_DRIVER_NONE ∧ (st.gpiDrivers k).type ≠ GPI_DRIVER_NONE) →
    (st.gpiDrivers j).gpis ≠ (st.gpiDrivers k).gpis

/-- A consistent registry: consistent index map, table layout, and one pin array per backend. -/
def Consistent (st : State) : Prop := MapConsistent st ∧ Layout st ∧ DistinctArrays st

/-- Two expanders and the native backend, then the removal of the middle slot. -/
def removeMiddleOfThree : List Op :=
  [.addMcp 0x20 0 4, .addMcp 0x21 0 4, .addRpi 3 true, .remove 1]

/-- Agreement of two states on the registry and on the content of the heap. -/
def SameMem (st st1 : State) : Prop :=
  st1.gpiDrivers = st.gpiDrivers ∧ st1.gpimap = st.gpimap ∧
    st1.zynGpiCount = st.zynGpiCount ∧ st1.heap = st.heap

/-- The native backend alone. -/
def nativeOnly : List Op := [.addRpi 3 true]

/-- One expander, address 0x20. -/
def expanderOnly : List Op := [.addMcp 0x20 0 4]

/-- An expander in slot 0 and the native backend in slot 1, flat pin 36 (native
local offset 20) enabled, and a level register in which bit 20 alone is set. -/
def nativeSecondLevel20 : List Op :=
  [.addMcp 0x20 0 4, .addRpi 3 true, .enable 36 1,
    .hwRegs (fun w => if w = 13 then 1048576 else 0)]

/-- An expander whose pin 3 has been made an output. -/
def outputOnly : List Op := [.addMcp 0x20 0 4, .setDirection 3 1]

/-- An expander whose pin 3 has been made an output, then the native backend. -/
def outputThenNative : List Op := [.addMcp 0x20 0 4, .setDirection 3 1, .addRpi 3 true]

/-- The pin array at address `p` has `n` elements, and those below `i` are
disabled inputs with value 0. -/
def ZeroBelow (st : State) (p n i : Nat) : Prop :=
  ∃ blk, st.heap p = some blk ∧ blk.length = n ∧
    ∀ j, j < i → blk[j]? = some { value := 0, enabled := 0, dir := 0 }

/-- Eight expanders, then the removal of slot 0 and of the then empty slot 7. -/
def eightExpandersTwoRemovals : List Op :=
  [.addMcp 0x20 0 4, .addMcp 0x21 0 4, .addMcp 0x22 0 4, .addMcp 0x23 0 4,
   .addMcp 0x24 0 4, .addMcp 0x25 0 4, .addMcp 0x26 0 4, .addMcp 0x27 0 4,
   .remove 0, .remove 7]

/-- An expander, the native backend and a second expander, then the removal of slot 0. -/
def removeFirstOfThree : List Op :=
  [.addMcp 0x20 0 4, .addRpi 3 true, .addMcp 0x21 0 4, .remove 0]

/-- Three expanders and the native backend, the removal of slot 2, and the
registration of the removed expander again. -/
def reAddAfterRemove : List Op :=
  [.addMcp 0x20 0 4, .addMcp 0x21 0 4, .addMcp 0x22 0 4, .addRpi 3 true, .remove 2,
   .addMcp 0x22 0 4]

/-! ## ribanRpiInterface.cpp -/

namespace ribanRpiInterface

abbrev MAX_GPI : Nat := 54
abbrev GPSET0 : Nat := 7
abbrev GPCLR0 : Nat := 10
abbrev GPLEV0 : Nat := 13
abbrev GPPUD : Nat := 37
abbrev GPPUDCLK0 : Nat := 38
abbrev RRPI_ENABLE_ALL : Nat := 0xFFFFFFFF
abbrev RRPI_ENABLE_GPI : Nat := 0x01
abbrev GPI_INPUT : Nat := 0x00
abbrev GPI_OUTPUT : Nat := 0x01
abbrev GPI_INPUT_PULLDOWN : Nat := 0x08
abbrev GPI_INPUT_PULLUP : Nat := 0x10

/-- The table `anUnavailableGpi`, `MAX_GPI` entries. -/
def anUnavailableGpi : List Nat :=
  [1,1,0,0,0,0,0,0,0,0,
   0,0,0,0,0,0,0,0,0,0,
   0,0,0,0,0,0,0,0,0,0,
   0,0,1,1,1,1,1,1,1,1,
   1,1,1,1,1,1,1,1,1,1,
   1,1,1,1]

/-- The members of a `ribanRpiInterface` object that the pin functions use,
with the hardware: `m_pGpiMap` says whether the pointer is a live mapping,
`regs` is the content of the register block, `log` the accesses made so far. -/
structure Obj where
  m_pGpiMap : Bool
  m_bUnInit : Bool
  regs : Nat → Nat
  log : List Event

/-- Read word `w` through `m_pGpiMap`. -/
def mapRead (w : Nat) (o : Obj) : Option (Nat × Obj) :=
  if o.m_pGpiMap then some (o.regs w, { o with log := o.log ++ [.regRead w] }) else none

/-- Write word `w` through `m_pGpiMap`; the words are `uint32_t`. -/
def mapWrite (w v : Nat) (o : Obj) : Option Obj :=
  if o.m_pGpiMap then
    some { o with regs := upd o.regs w (v % U32), log := o.log ++ [.regWrite w (v % U32)] }
  else none

/-- The `IsInit` function. -/
def IsInit (o : Obj) : Bool := !o.m_bUnInit

/-- The `initgpi` function; `fd` is what `open("/dev/gpiomem")` returns and
`mapOk` whether `mmap` succeeds, when they are called. -/
def initgpi (fd : Int) (mapOk : Bool) (o : Obj) : Bool × Obj :=
  if o.m_bUnInit = false then (true, o)
  else if fd < 0 then (false, o)
  else if mapOk then (true, { o with m_pGpiMap := true, m_bUnInit := false })
  else (false, o)

/-- The `uninitgpi` function. -/
def uninitgpi (o : Obj) : Obj :=
  if o.m_bUnInit then o else { o with m_pGpiMap := false, m_bUnInit := true }

/-- The constructor, on a register block with content `regs`. -/
def create (flags : Nat) (fd : Int) (mapOk : Bool) (regs : Nat → Nat) : Obj :=
  let o : Obj := { m_pGpiMap := false, m_bUnInit := true, regs := regs, log := [] }
  if flags &&& RRPI_ENABLE_GPI ≠ 0 then (initgpi fd mapOk o).2 else o

/-- The `GetGpi` function with `debounce = 0`.  The guard is
`m_bUnInit || gpi > MAX_GPI || anUnavailableGpi[gpi]`. -/
def GetGpi (gpi : Nat) (o : Obj) : Option (Bool × Obj) :=
  if o.m_bUnInit then some (false, o)
  else if gpi > MAX_GPI then some (false, o)
  else match anUnavailableGpi[gpi]? with
    | none => none
    | some u =>
      if u ≠ 0 then some (false, o)
      else match mapRead (GPLEV0 + gpi / 32) o with
        | none => none
        | some (v, o1) => some (decide (v &&& (1 <<< (gpi % 32)) ≠ 0), o1)

/-- The `SetGpi` function. -/
def SetGpi (gpi : Nat) (value : Bool) (o : Obj) : Option Obj :=
  if o.m_bUnInit then some o
  else if gpi > MAX_GPI then some o
  else match anUnavailableGpi[gpi]? with
    | none => none
    | some u =>
      if u ≠ 0 then some o
      else if value then mapWrite GPSET0 (1 <<< gpi) o
      else mapWrite GPCLR0 (1 <<< gpi) o

/-- The `ConfigureGpi` function. -/
def ConfigureGpi (gpi flags : Nat) (o : Obj) : Option (Bool × Obj) :=
  if o.m_bUnInit then some (false, o)
  else if gpi > MAX_GPI then some (false, o)
  else match anUnavailableGpi[gpi]? with
    | none => none
    | some u =>
      if u ≠ 0 then some (false, o)
      else
        match mapRead (gpi / 10) o with
        | none => none
        | some (v1, o1) =>
          match mapWrite (gpi / 10) (v1 &&& not32 (7 <<< ((gpi % 10) * 3))) o1 with
          | none => none
          | some o2 =>
            match mapRead (gpi / 10) o2 with
            | none => none
            | some (v2, o3) =>
              match mapWrite (gpi / 10) (v2 ||| ((flags &&& 0x07) <<< ((gpi % 10) * 3))) o3 with
              | none => none
              | some o4 =>
                match mapWrite GPPUD ((flags &&& 0x18) >>> 3) o4 with
                | none => none
                | some o5 =>
                  match mapWrite (GPPUDCLK0 + gpi / 32) (1 <<< (gpi % 32))
                      { o5 with log := o5.log ++ [.delay] } with
                  | none => none
                  | some o6 =>
                    match mapWrite GPPUD 0 { o6 with log := o6.log ++ [.delay] } with
                    | none => none
                    | some o7 =>
                      match mapWrite (GPPUDCLK0 + gpi / 32) 0 o7 with
                      | none => none
                      | some o8 => some (true, o8)

/-- The class invariant: an initialised object has a live mapping. -/
def Wf (o : Obj) : Prop := o.m_bUnInit = false → o.m_pGpiMap = true

end ribanRpiInterface

/-! ## What the primitives leave alone -/

theorem upd_same {α : Type} (f : Nat → α) (i : Nat) (v : α) : upd f i v i = v := by
  simp [upd]

theorem upd_ne {α : Type} (f : Nat → α) (i : Nat) (v : α) (j : Nat) (h : j ≠ i) :
    upd f i v j = f j := by
  simp [upd, h]

theorem Same.refl (st : State) : Same st st := ⟨rfl, rfl, rfl, rfl, fun _ h => h⟩

theorem Same.trans {a b c : State} (h1 : Same a b) (h2 : Same b c) : Same a c :=
  ⟨h2.1.trans h1.1, h2.2.1.trans h1.2.1, h2.2.2.1.trans h1.2.2.1, h2.2.2.2.1.trans h1.2.2.2.1,
    fun p h => h2.2.2.2.2 p (h1.2.2.2.2 p h)⟩

theorem emit_same (e : Event) (st : State) : Same st (emit e st) := ⟨rfl, rfl, rfl, rfl, fun _ h => h⟩

theorem regRead_same {w : Nat} {st st1 : State} {v : Nat} (h : regRead w st = some (v, st1)) :
    Same st st1 := by
  unfold regRead at h
  split at h
  · simp only [Option.some.injEq, Prod.mk.injEq] at h
    obtain ⟨-, rfl⟩ := h
    exact ⟨rfl, rfl, rfl, rfl, fun _ h => h⟩
  · exact absurd h (by simp)

theorem regWrite_same {w v : Nat} {st st1 : State} (h : regWrite w v st = some st1) :
    Same st st1 := by
  unfold regWrite at h
  split at h
  · simp only [Option.some.injEq] at h
    subst h
    exact ⟨rfl, rfl, rfl, rfl, fun _ h => h⟩
  · exact absurd h (by simp)

theorem writePin_same {p off : Nat} {f : gpi_t → gpi_t} {st st1 : State}
    (h : writePin p off f st = some st1) : Same st st1 := by
  unfold writePin at h
  split at h
  · split at h
    · simp only [Option.some.injEq] at h
      subst h
      refine ⟨rfl, rfl, rfl, rfl, fun q hq => ?_⟩
      show (upd st.heap p _ q).isSome = true
      by_cases hqp : q = p
      · subst hqp
        rw [upd_same]
        rfl
      · rw [upd_ne _ _ _ _ hqp]
        exact hq
    · exact absurd h (by simp)
  · exact absurd h (by simp)

theorem setGpi_same {i : Nat} {f : gpi_t → gpi_t} {st st1 : State}
    (h : setGpi i f st = some st1) : Same st st1 := by
  unfold setGpi at h
  split at h
  · exact writePin_same h
  · exact absurd h (by simp)

theorem readMcp_same (address reg : Nat) (st : State) :
    Same st (readMcp23017Register address reg st).2 := by
  unfold readMcp23017Register i2cReadByte i2cWriteByte i2cSelectDevice
  repeat' split
  all_goals exact ⟨rfl, rfl, rfl, rfl, fun _ h => h⟩

theorem writeMcp_same (address reg val : Nat) (st : State) :
    Same st (writeMcp23017Register address reg val st) := by
  unfold writeMcp23017Register i2cWriteByte i2cSelectDevice
  repeat' split
  all_goals exact ⟨rfl, rfl, rfl, rfl, fun _ h => h⟩

theorem setRpiGpiState_same {gpi state : Nat} {st st1 : State}
    (h : setRpiGpiState gpi state st = some st1) : Same st st1 := by
  unfold setRpiGpiState at h
  split at h
  · exact absurd h (by simp)
  · split at h
    · exact absurd h (by simp)
    · split at h
      · simp only [Option.some.injEq] at h
        subst h
        exact Same.refl _
      · split at h
        · exact regWrite_same h
        · exact regWrite_same h

theorem getRpiGpiState_same {gpi v : Nat} {st st1 : State}
    (h : getRpiGpiState gpi st = some (v, st1)) : Same st st1 := by
  unfold getRpiGpiState at h
  split at h
  · exact absurd h (by simp)
  · split at h
    · exact absurd h (by simp)
    · split at h
      · simp only [Option.some.injEq, Prod.mk.injEq] at h
        obtain ⟨-, rfl⟩ := h
        exact Same.refl _
      · split at h
        · exact absurd h (by simp)
        · rename_i lev st2 hr
          simp only [Option.some.injEq, Prod.mk.injEq] at h
          obtain ⟨-, rfl⟩ := h
          exact regRead_same hr

theorem setRpiGpiDirection_same {gpi dir : Nat} {st st1 : State}
    (h : setRpiGpiDirection gpi dir st = some st1) : Same st st1 := by
  unfold setRpiGpiDirection at h
  split at h
  · exact absurd h (by simp)
  · split at h
    · exact absurd h (by simp)
    · split at h
      · simp only [Option.some.injEq] at h
        subst h
        exact Same.refl _
      · split at h
        · exact absurd h (by simp)
        · rename_i v1 s1 h1
          split at h
          · exact absurd h (by simp)
          · rename_i s2 h2
            split at h
            · exact absurd h (by simp)
            · rename_i v2 s3 h3
              split at h
              · exact absurd h (by simp)
              · rename_i s4 h4
                exact ((((regRead_same h1).trans (regWrite_same h2)).trans (regRead_same h3)).trans
                  (regWrite_same h4)).trans (setGpi_same h)

theorem setRpiGpiPull_same {gpi mode : Nat} {st st1 : State}
    (h : setRpiGpiPull gpi mode st = some st1) : Same st st1 := by
  unfold setRpiGpiPull at h
  split at h
  · exact absurd h (by simp)
  · split at h
    · simp only [Option.some.injEq] at h
      subst h
      exact Same.refl _
    · split at h
      · exact absurd h (by simp)
      · split at h
        · simp only [Option.some.injEq] at h
          subst h
          exact Same.refl _
        · split at h
          · exact absurd h (by simp)
          · rename_i s1 h1
            split at h
            · exact absurd h (by simp)
            · rename_i s2 h2
              split at h
              · exact absurd h (by simp)
              · rename_i s3 h3
                exact (((((regWrite_same h1).trans (emit_same _ _)).trans (regWrite_same h2)).trans
                  (emit_same _ _)).trans (regWrite_same h3)).trans (regWrite_same h)

theorem setMcp23017GpiState_same {gpi state : Nat} {st st1 : State}
    (h : setMcp23017GpiState gpi state st = some st1) : Same st st1 := by
  unfold setMcp23017GpiState at h
  split at h
  · exact absurd h (by simp)
  · split at h
    · exact absurd h (by simp)
    · simp only at h
      split at h
      · exact absurd h (by simp)
      · exact ((readMcp_same _ _ _).trans (writeMcp_same _ _ _ _)).trans (setGpi_same h)

theorem setMcp23017GpiDirection_same {gpi dir : Nat} {st st1 : State}
    (h : setMcp23017GpiDirection gpi dir st = some st1) : Same st st1 := by
  unfold setMcp23017GpiDirection at h
  split at h
  · exact absurd h (by simp)
  · split at h
    · exact absurd h (by simp)
    · simp only at h
      split at h
      · exact absurd h (by simp)
      · exact ((readMcp_same _ _ _).trans (writeMcp_same _ _ _ _)).trans (setGpi_same h)

theorem setMcp23017GpiPull_same {gpi mode : Nat} {st st1 : State}
    (h : setMcp23017GpiPull gpi mode st = some st1) : Same st st1 := by
  unfold setMcp23017GpiPull at h
  split at h
  · simp only [Option.some.injEq] at h
    subst h
    exact Same.refl _
  · split at h
    · exact absurd h (by simp)
    · split at h
      · exact absurd h (by simp)
      · simp only at h
        split at h
        · exact absurd h (by simp)
        · simp only [Option.some.injEq] at h
          subst h
          exact (readMcp_same _ _ _).trans (writeMcp_same _ _ _ _)

theorem pollRpiLoop_same (gpis : Nat) :
    ∀ (fuel offset changed : Nat) (st st1 : State) (r : Nat),
      pollRpiLoop gpis fuel offset changed st = some (r, st1) → Same st st1 := by
  intro fuel
  induction fuel with
  | zero =>
    intro offset changed st st1 r h
    simp only [pollRpiLoop, Option.some.injEq, Prod.mk.injEq] at h
    obtain ⟨-, rfl⟩ := h
    exact Same.refl _
  | succ n ih =>
    intro offset changed st st1 r h
    unfold pollRpiLoop at h
    split at h
    · exact absurd h (by simp)
    · split at h
      · split at h
        · exact absurd h (by simp)
        · rename_i value s1 hg
          split at h
          · exact (getRpiGpiState_same hg).trans (ih _ _ _ _ _ h)
          · split at h
            · exact absurd h (by simp)
            · rename_i s2 hw
              exact ((getRpiGpiState_same hg).trans (writePin_same hw)).trans (ih _ _ _ _ _ h)
      · exact ih _ _ _ _ _ h

theorem enableGpi_same {gpi enable r : Nat} {st st1 : State}
    (h : enableGpi gpi enable st = some (r, st1)) : Same st st1 := by
  unfold enableGpi at h
  split at h
  · simp only [Option.some.injEq, Prod.mk.injEq] at h
    obtain ⟨-, rfl⟩ := h
    exact Same.refl _
  · split at h
    · exact absurd h (by simp)
    · rename_i s1 hs
      simp only [Option.some.injEq, Prod.mk.injEq] at h
      obtain ⟨-, rfl⟩ := h
      exact setGpi_same hs

theorem setState_same {gpi state : Nat} {st st1 : State}
    (h : setState gpi state st = some st1) : Same st st1 := by
  unfold setState at h
  split at h
  · simp only [Option.some.injEq] at h
    subst h
    exact Same.refl _
  · split at h
    · exact absurd h (by simp)
    · split at h
      · exact absurd h (by simp)
      · rename_i d hd
        split at h
        · exact absurd h (by simp)
        · rename_i s1 hs
          refine Same.trans ?_ (setGpi_same h)
          split at hs
          · exact absurd hs (by simp)
          · exact setRpiGpiState_same hs
          · exact setMcp23017GpiState_same hs

theorem setDirection_same {gpi dir : Nat} {st st1 : State}
    (h : setDirection gpi dir st = some st1) : Same st st1 := by
  unfold setDirection at h
  split at h
  · simp only [Option.some.injEq] at h
    subst h
    exact Same.refl _
  · split at h
    · exact absurd h (by simp)
    · split at h
      · exact absurd h (by simp)
      · split at h
        · simp only [Option.some.injEq] at h
          subst h
          exact Same.refl _
        · exact setRpiGpiDirection_same h
        · exact setMcp23017GpiDirection_same h

theorem setPull_same {gpi mode : Nat} {st st1 : State}
    (h : setPull gpi mode st = some st1) : Same st st1 := by
  unfold setPull at h
  split at h
  · simp only [Option.some.injEq] at h
    subst h
    exact Same.refl _
  · split at h
    · exact absurd h (by simp)
    · split at h
      · exact absurd h (by simp)
      · split at h
        · simp only [Option.some.injEq] at h
          subst h
          exact Same.refl _
        · exact setRpiGpiPull_same h
        · exact setMcp23017GpiPull_same h

theorem pollSlot_same {i : Nat} {st st1 : State} (h : pollSlot i st = some st1) : Same st st1 := by
  unfold pollSlot at h
  split at h
  · simp only [Option.some.injEq] at h
    subst h
    exact Same.refl _
  · unfold pollRpiGpi at h
    split at h
    · exact absurd h (by simp)
    · cases hp : pollRpiLoop _ 26 2 0 st with
      | none => rw [hp] at h; exact absurd h (by simp)
      | some r =>
        rw [hp] at h
        simp only [Option.map_some', Option.some.injEq] at h
        subst h
        exact pollRpiLoop_same _ _ _ _ _ _ _ hp

/-! ## Effect of registration and removal on the driver table and the pin count -/

theorem rpiAddLoop_effect (driverCount gpis : Nat) :
    ∀ (fuel i : Nat) (st st1 : State), rpiAddLoop driverCount gpis fuel i st = some st1 →
      st1.gpiDrivers = st.gpiDrivers ∧ st1.zynGpiCount = st.zynGpiCount + fuel ∧
        st1.nextPtr = st.nextPtr ∧ ∀ p, (st.heap p).isSome = true → (st1.heap p).isSome = true := by
  intro fuel
  induction fuel with
  | zero =>
    intro i st st1 h
    simp only [rpiAddLoop, Option.some.injEq] at h
    subst h
    exact ⟨rfl, rfl, rfl, fun _ h => h⟩
  | succ n ih =>
    intro i st st1 h
    unfold rpiAddLoop at h
    split at h
    · exact absurd h (by simp)
    · rename_i s1 hw
      split at h
      · rename_i hc
        split at h
        · exact absurd h (by simp)
        · rename_i s2 hd
          have e1 := writePin_same hw
          have e2 := setRpiGpiDirection_same hd
          have e3 := ih _ _ _ h
          obtain ⟨a1, -, a3, a4, a5⟩ := e1
          obtain ⟨b1, -, b3, b4, b5⟩ := e2
          simp only at b1 b3 b4 b5
          refine ⟨by rw [e3.1, b1, a1], ?_, by rw [e3.2.2.1, b4, a4],
            fun p hp => e3.2.2.2 p (b5 p (a5 p hp))⟩
          rw [e3.2.1, b3, ← a3]
          have hc1 : s1.zynGpiCount < 256 := hc
          have : add32 s1.zynGpiCount 1 = s1.zynGpiCount + 1 := by
            unfold add32
            exact Nat.mod_eq_of_lt (show s1.zynGpiCount + 1 < 4294967296 by omega)
          omega
      · exact absurd h (by simp)

theorem mcpAddLoop_effect (driverCount gpis : Nat) :
    ∀ (fuel i : Nat) (st st1 : State), mcpAddLoop driverCount gpis fuel i st = some st1 →
      st1.gpiDrivers = st.gpiDrivers ∧ st1.zynGpiCount = st.zynGpiCount + fuel ∧
        st1.nextPtr = st.nextPtr ∧ ∀ p, (st.heap p).isSome = true → (st1.heap p).isSome = true := by
  intro fuel
  induction fuel with
  | zero =>
    intro i st st1 h
    simp only [mcpAddLoop, Option.some.injEq] at h
    subst h
    exact ⟨rfl, rfl, rfl, fun _ h => h⟩
  | succ n ih =>
    intro i st st1 h
    unfold mcpAddLoop at h
    split at h
    · exact absurd h (by simp)
    · rename_i s1 hw
      split at h
      · rename_i hc
        split at h
        · exact absurd h (by simp)
        · rename_i s2 hd
          have e1 := writePin_same hw
          have e2 := setMcp23017GpiDirection_same hd
          have e3 := ih _ _ _ h
          obtain ⟨a1, -, a3, a4, a5⟩ := e1
          obtain ⟨b1, -, b3, b4, b5⟩ := e2
          simp only at b1 b3 b4 b5
          refine ⟨by rw [e3.1, b1, a1], ?_, by rw [e3.2.2.1, b4, a4],
            fun p hp => e3.2.2.2 p (b5 p (a5 p hp))⟩
          rw [e3.2.1, b3, ← a3]
          have hc1 : s1.zynGpiCount < 256 := hc
          have : add32 s1.zynGpiCount 1 = s1.zynGpiCount + 1 := by
            unfold add32
            exact Nat.mod_eq_of_lt (show s1.zynGpiCount + 1 < 4294967296 by omega)
          omega
      · exact absurd h (by simp)

theorem i2cOpen_same (openResult : Int) (st : State) : Same st (i2cOpen openResult st).2 := by
  unfold i2cOpen
  split <;> exact ⟨rfl, rfl, rfl, rfl, fun _ h => h⟩

theorem addRpi_effect {fd : Int} {mapOk : Bool} {st st1 : State} {r : Int}
    (h : addRpiGpiDevice fd mapOk st = some (r, st1)) :
    (∃ k, rpiScan st.gpiDrivers MAX_GPI_DRIVERS 0 = .found k ∧ r = (k : Int) ∧ st1 = st) ∨
      (r = -1 ∧ Same st st1) ∨
      ∃ k x, rpiScan st.gpiDrivers MAX_GPI_DRIVERS 0 = .stop k ∧ k < MAX_GPI_DRIVERS ∧
        r = (k : Int) ∧
        st1.gpiDrivers = upd st.gpiDrivers k x ∧ x.type = GPI_DRIVER_RPI ∧ x.size = 32 ∧
        x.offset = st.zynGpiCount ∧ st1.zynGpiCount = st.zynGpiCount + 32 ∧
        x.gpis = st.nextPtr ∧ st1.nextPtr = st.nextPtr + 1 ∧
        (∀ p, (st.heap p).isSome = true → (st1.heap p).isSome = true) ∧
        (st1.heap st.nextPtr).isSome = true := by
  unfold addRpiGpiDevice at h
  split at h
  · rename_i k hk
    simp only [Option.some.injEq, Prod.mk.injEq] at h
    obtain ⟨rfl, rfl⟩ := h
    exact Or.inl ⟨k, hk, rfl, rfl⟩
  · rename_i k hk
    split at h
    · simp only [Option.some.injEq, Prod.mk.injEq] at h
      obtain ⟨rfl, rfl⟩ := h
      exact Or.inr (Or.inl ⟨rfl, Same.refl _⟩)
    · rename_i hk8
      split at h
      · simp only [Option.some.injEq, Prod.mk.injEq] at h
        obtain ⟨rfl, rfl⟩ := h
        exact Or.inr (Or.inl ⟨rfl, Same.refl _⟩)
      · split at h
        · simp only [Option.some.injEq, Prod.mk.injEq] at h
          obtain ⟨rfl, rfl⟩ := h
          exact Or.inr (Or.inl ⟨rfl, ⟨rfl, rfl, rfl, rfl, fun _ h => h⟩⟩)
        · simp only at h
          split at h
          · exact absurd h (by simp)
          · rename_i s2 hl
            simp only [Option.some.injEq, Prod.mk.injEq] at h
            obtain ⟨rfl, rfl⟩ := h
            obtain ⟨e1, e2, e3, e4⟩ := rpiAddLoop_effect _ _ _ _ _ _ hl
            have hk8a : ¬ k ≥ 8 := hk8
            have hnew : ∀ (hp : Nat → Option (List gpi_t)) (x : List gpi_t),
                (upd hp st.nextPtr (some x) st.nextPtr).isSome = true := by
              intro hp x
              rw [upd_same]
              rfl
            refine Or.inr (Or.inr ⟨k, _, hk, by omega, rfl, e1, rfl, rfl, rfl, ?_, rfl, e3,
              fun p hp => e4 p ?_, e4 _ (hnew _ _)⟩)
            · rw [e2]
              rfl
            · show (upd st.heap st.nextPtr _ p).isSome = true
              by_cases hpn : p = st.nextPtr
              · subst hpn
                exact hnew _ _
              · rw [upd_ne _ _ _ _ hpn]
                exact hp

theorem addMcp_effect {address interrupt : Nat} {openResult : Int} {st st1 : State} {r : Int}
    (h : addMcp23017GpiDevice address interrupt openResult st = some (r, st1)) :
    (∃ k, mcpScan st.gpiDrivers address MAX_GPI_DRIVERS 0 = some (.found k) ∧
        0x20 ≤ address ∧ address ≤ 0x27 ∧ r = (k : Int) ∧ st1 = st) ∨
      (r = -1 ∧ Same st st1) ∨
      ∃ k x, mcpScan st.gpiDrivers address MAX_GPI_DRIVERS 0 = some (.stop k) ∧
        k < MAX_GPI_DRIVERS ∧ 0x20 ≤ address ∧ address ≤ 0x27 ∧ r = (k : Int) ∧
        st1.gpiDrivers = upd st.gpiDrivers k x ∧ x.type = GPI_DRIVER_MCP23017 ∧ x.size = 16 ∧
        x.offset = st.zynGpiCount ∧ x.config = some { address := address, interrupt := interrupt } ∧
        st1.zynGpiCount = st.zynGpiCount + 16 ∧
        x.gpis = st.nextPtr ∧ st1.nextPtr = st.nextPtr + 1 ∧
        (∀ p, (st.heap p).isSome = true → (st1.heap p).isSome = true) ∧
        (st1.heap st.nextPtr).isSome = true := by
  unfold addMcp23017GpiDevice at h
  split at h
  · simp only [Option.some.injEq, Prod.mk.injEq] at h
    obtain ⟨rfl, rfl⟩ := h
    exact Or.inr (Or.inl ⟨rfl, Same.refl _⟩)
  · rename_i hrange
    split at h
    · exact absurd h (by simp)
    · rename_i k hk
      simp only [Option.some.injEq, Prod.mk.injEq] at h
      obtain ⟨rfl, rfl⟩ := h
      exact Or.inl ⟨k, hk, by omega, by omega, rfl, rfl⟩
    · rename_i k hk
      split at h
      · simp only [Option.some.injEq, Prod.mk.injEq] at h
        obtain ⟨rfl, rfl⟩ := h
        exact Or.inr (Or.inl ⟨rfl, Same.refl _⟩)
      · rename_i hk8
        simp only at h
        split at h
        · simp only [Option.some.injEq, Prod.mk.injEq] at h
          obtain ⟨rfl, rfl⟩ := h
          exact Or.inr (Or.inl ⟨rfl, i2cOpen_same _ _⟩)
        · split at h
          · exact absurd h (by simp)
          · rename_i s3 hl
            simp only [Option.some.injEq, Prod.mk.injEq] at h
            obtain ⟨rfl, rfl⟩ := h
            obtain ⟨e1, e2, e3, e4⟩ := mcpAddLoop_effect _ _ _ _ _ _ hl
            have hS : Same st (writeMcp23017Register address MCP23017_REG_IOCON 224
                (i2cOpen openResult st).2) :=
              (i2cOpen_same _ _).trans (writeMcp_same _ _ _ _)
            obtain ⟨w1, -, w3, w4, w5⟩ := hS
            have hk8a : ¬ k ≥ 8 := hk8
            simp only [malloc] at e1 e2 e3 e4
            rw [w1] at e1
            rw [w3] at e2
            rw [w4] at e3 e4
            have hx := congrFun e1 k
            rw [upd_same] at hx
            have hnew : ∀ (hp : Nat → Option (List gpi_t)) (x : List gpi_t),
                (upd hp st.nextPtr (some x) st.nextPtr).isSome = true := by
              intro hp x
              rw [upd_same]
              rfl
            refine Or.inr (Or.inr ⟨k, s3.gpiDrivers k, hk, by omega, by omega, by omega, rfl,
              ?_, ?_, ?_, ?_, ?_, e2, ?_, e3, fun p hp => e4 p ?_, e4 _ (hnew _ _)⟩)
            · rw [hx]
              exact e1
            · rw [hx]
            · rw [hx]
            · rw [hx]
              simp only
              rw [w3]
            · rw [hx]
            · rw [hx]
              simp only
              rw [w4]
            · by_cases hpn : p = st.nextPtr
              · subst hpn
                exact hnew _ _
              · rw [upd_ne _ _ _ _ hpn]
                exact w5 p hp

theorem free_regs {p : Nat} {st st1 : State} (h : free p st = some st1) :
    st1.gpiDrivers = st.gpiDrivers ∧ st1.gpimap = st.gpimap ∧
      st1.zynGpiCount = st.zynGpiCount ∧ st1.nextPtr = st.nextPtr ∧
      (∀ q, q ≠ p → st1.heap q = st.heap q) := by
  unfold free at h
  split at h
  · simp only [Option.some.injEq] at h
    subst h
    exact ⟨rfl, rfl, rfl, rfl, fun _ _ => rfl⟩
  · split at h
    · simp only [Option.some.injEq] at h
      subst h
      refine ⟨rfl, rfl, rfl, rfl, fun q hq => ?_⟩
      simp [upd, hq]
    · exact absurd h (by simp)

theorem remove_effect {driver : Nat} {st st1 : State} (h : removeGpiDevice driver st = some st1)
    (hd : driver < MAX_GPI_DRIVERS) :
    st1.gpiDrivers = resetDriver (MAX_GPI_DRIVERS - 1)
        (shiftDrivers (st.gpiDrivers driver).size (MAX_GPI_DRIVERS - 1 - driver) driver st.gpiDrivers) ∧
      st1.zynGpiCount = sub32 st.zynGpiCount (st.gpiDrivers driver).size ∧
      st1.nextPtr = st.nextPtr := by
  unfold removeGpiDevice at h
  rw [if_neg (by omega)] at h
  simp only at h
  split at h
  · exact absurd h (by simp)
  · rename_i s2 hf
    split at h
    · exact absurd h (by simp)
    · simp only [Option.some.injEq] at h
      subst h
      obtain ⟨e1, -, e3, e4, -⟩ := free_regs hf
      have hdrv : ∀ (o : Option Backend), (match o with
          | none => st
          | some _ => destroyRpiGpiDevice st).gpiDrivers = st.gpiDrivers := by
        intro o; cases o <;> rfl
      have hcnt : ∀ (o : Option Backend), (match o with
          | none => st
          | some _ => destroyRpiGpiDevice st).zynGpiCount = st.zynGpiCount := by
        intro o; cases o <;> rfl
      have hnp : ∀ (o : Option Backend), (match o with
          | none => st
          | some _ => destroyRpiGpiDevice st).nextPtr = st.nextPtr := by
        intro o; cases o <;> rfl
      simp only
      rw [e1, e3, e4, hdrv, hcnt, hnp]
      exact ⟨rfl, rfl, rfl⟩

/-! ## The loops over the driver table -/

theorem shiftDrivers_lt (size : Nat) :
    ∀ (fuel i : Nat) (d : Nat → gpi_driver_t) (j : Nat), j < i →
      shiftDrivers size fuel i d j = d j := by
  intro fuel
  induction fuel with
  | zero => intro i d j _; rfl
  | succ n ih =>
    intro i d j hj
    simp only [shiftDrivers, upd_same]
    split
    · exact upd_ne _ _ _ _ (by omega)
    · rw [ih _ _ _ (by omega), upd_ne _ _ _ _ (by omega), upd_ne _ _ _ _ (by omega)]

theorem shiftDrivers_full (size : Nat) :
    ∀ (fuel i : Nat) (d : Nat → gpi_driver_t),
      (∀ k, i < k → k ≤ i + fuel → (d k).type ≠ GPI_DRIVER_NONE) →
      ∀ j, shiftDrivers size fuel i d j =
        if i ≤ j ∧ j < i + fuel then lowered size (d (j + 1)) else d j := by
  intro fuel
  induction fuel with
  | zero =>
    intro i d _ j
    have : ¬ (i ≤ j ∧ j < i + 0) := by omega
    rw [if_neg this]
    rfl
  | succ n ih =>
    intro i d h j
    simp only [shiftDrivers, upd_same]
    rw [if_neg (h (i + 1) (by omega) (by omega))]
    rw [ih (i + 1) _ (fun k hk1 hk2 => by
      rw [upd_ne _ _ _ _ (by omega), upd_ne _ _ _ _ (by omega)]
      exact h k (by omega) (by omega))]
    by_cases hji : j = i
    · subst hji
      rw [if_neg (by omega), if_pos (by omega), upd_same]
      rfl
    · by_cases hlt : i + 1 ≤ j ∧ j < i + 1 + n
      · rw [if_pos hlt, if_pos (by omega), upd_ne _ _ _ _ (by omega), upd_ne _ _ _ _ (by omega)]
      · rw [if_neg hlt, if_neg (by omega), upd_ne _ _ _ _ hji, upd_ne _ _ _ _ hji]

theorem shiftDrivers_break (size : Nat) :
    ∀ (fuel i : Nat) (d : Nat → gpi_driver_t) (m : Nat), i < m → m ≤ i + fuel →
      (∀ k, i < k → k < m → (d k).type ≠ GPI_DRIVER_NONE) → (d m).type = GPI_DRIVER_NONE →
      ∀ j, shiftDrivers size fuel i d j =
        if i ≤ j ∧ j + 1 < m then lowered size (d (j + 1))
        else if j + 1 = m then d m else d j := by
  intro fuel
  induction fuel with
  | zero => intro i d m h1 h2; omega
  | succ n ih =>
    intro i d m him hmf hne hm j
    simp only [shiftDrivers, upd_same]
    by_cases hmi : m = i + 1
    · subst hmi
      rw [if_pos hm, if_neg (by omega)]
      by_cases hji : j = i
      · subst hji
        rw [if_pos rfl, upd_same]
      · rw [if_neg (by omega), upd_ne _ _ _ _ hji]
    · rw [if_neg (hne (i + 1) (by omega) (by omega))]
      rw [ih (i + 1) _ m (by omega) (by omega) (fun k hk1 hk2 => by
        rw [upd_ne _ _ _ _ (by omega), upd_ne _ _ _ _ (by omega)]
        exact hne k (by omega) hk2) (by
        rw [upd_ne _ _ _ _ (by omega), upd_ne _ _ _ _ (by omega)]
        exact hm)]
      by_cases hji : j = i
      · subst hji
        rw [if_neg (by omega), if_neg (by omega), if_pos (by omega), upd_same]
        rfl
      · by_cases hlt : i + 1 ≤ j ∧ j + 1 < m
        · rw [if_pos hlt, if_pos (by omega), upd_ne _ _ _ _ (by omega), upd_ne _ _ _ _ (by omega)]
        · have hr : ¬ (i ≤ j ∧ j + 1 < m) := by omega
          rw [if_neg hlt, if_neg hr]
          by_cases hjm : j + 1 = m
          · rw [if_pos hjm, if_pos hjm, upd_ne _ _ _ _ (by omega), upd_ne _ _ _ _ (by omega)]
          · rw [if_neg hjm, if_neg hjm, upd_ne _ _ _ _ hji, upd_ne _ _ _ _ hji]

theorem rpiScan_stop_inv (d : Nat → gpi_driver_t) :
    ∀ (fuel i k : Nat), rpiScan d fuel i = .stop k →
      i ≤ k ∧ k ≤ i + fuel ∧ (k < i + fuel → (d k).type = GPI_DRIVER_NONE) ∧
        ∀ j, i ≤ j → j < k → (d j).type ≠ GPI_DRIVER_RPI ∧ (d j).type ≠ GPI_DRIVER_NONE := by
  intro fuel
  induction fuel with
  | zero =>
    intro i k h
    simp only [rpiScan, Scan.stop.injEq] at h
    subst h
    exact ⟨by omega, by omega, fun hk => by omega, fun j h1 h2 => by omega⟩
  | succ n ih =>
    intro i k h
    unfold rpiScan at h
    split at h
    · exact absurd h (by simp)
    · rename_i hr
      split at h
      · rename_i hn
        simp only [Scan.stop.injEq] at h
        subst h
        exact ⟨by omega, by omega, fun _ => hn, fun j h1 h2 => by omega⟩
      · rename_i hn
        obtain ⟨a1, a2, a3, a4⟩ := ih _ _ h
        refine ⟨by omega, by omega, fun hk => a3 (by omega), fun j h1 h2 => ?_⟩
        by_cases hji : j = i
        · subst hji
          exact ⟨hr, hn⟩
        · exact a4 j (by omega) h2

theorem rpiScan_found (d : Nat → gpi_driver_t) (k : Nat) (hk : (d k).type = GPI_DRIVER_RPI) :
    ∀ (fuel i : Nat), i ≤ k → k < i + fuel →
      (∀ j, i ≤ j → j < k → (d j).type ≠ GPI_DRIVER_RPI ∧ (d j).type ≠ GPI_DRIVER_NONE) →
      rpiScan d fuel i = .found k := by
  intro fuel
  induction fuel with
  | zero => intro i h1 h2; omega
  | succ n ih =>
    intro i h1 h2 h
    unfold rpiScan
    by_cases hik : i = k
    · subst hik
      rw [if_pos hk]
    · have hi := h i (by omega) (by omega)
      rw [if_neg hi.1, if_neg hi.2]
      exact ih (i + 1) (by omega) (by omega) (fun j a b => h j (by omega) b)

theorem mcpScan_stop_inv (d : Nat → gpi_driver_t) (address : Nat) :
    ∀ (fuel i k : Nat), mcpScan d address fuel i = some (.stop k) →
      i ≤ k ∧ k ≤ i + fuel ∧ (k < i + fuel → (d k).type = GPI_DRIVER_NONE) ∧
        ∀ j, i ≤ j → j < k → (d j).type ≠ GPI_DRIVER_NONE ∧
          ((d j).type = GPI_DRIVER_MCP23017 → ∃ c, (d j).config = some c ∧ c.address ≠ address) := by
  intro fuel
  induction fuel with
  | zero =>
    intro i k h
    simp only [mcpScan, Option.some.injEq, Scan.stop.injEq] at h
    subst h
    exact ⟨by omega, by omega, fun hk => by omega, fun j h1 h2 => by omega⟩
  | succ n ih =>
    intro i k h
    unfold mcpScan at h
    split at h
    · rename_i hn
      simp only [Option.some.injEq, Scan.stop.injEq] at h
      subst h
      exact ⟨by omega, by omega, fun _ => hn, fun j h1 h2 => by omega⟩
    · rename_i hn
      split at h
      · rename_i hm
        split at h
        · exact absurd h (by simp)
        · rename_i c hc
          split at h
          · exact absurd h (by simp)
          · rename_i hca
            obtain ⟨a1, a2, a3, a4⟩ := ih _ _ h
            refine ⟨by omega, by omega, fun hk => a3 (by omega), fun j h1 h2 => ?_⟩
            by_cases hji : j = i
            · subst hji
              exact ⟨hn, fun _ => ⟨c, hc, hca⟩⟩
            · exact a4 j (by omega) h2
      · rename_i hm
        obtain ⟨a1, a2, a3, a4⟩ := ih _ _ h
        refine ⟨by omega, by omega, fun hk => a3 (by omega), fun j h1 h2 => ?_⟩
        by_cases hji : j = i
        · subst hji
          exact ⟨hn, fun hmm => absurd hmm hm⟩
        · exact a4 j (by omega) h2

theorem mcpScan_found (d : Nat → gpi_driver_t) (address k : Nat) (c : mcp23017gpidata_t)
    (hk : (d k).type = GPI_DRIVER_MCP23017) (hc : (d k).config = some c)
    (ha : c.address = address) :
    ∀ (fuel i : Nat), i ≤ k → k < i + fuel →
      (∀ j, i ≤ j → j < k → (d j).type ≠ GPI_DRIVER_NONE ∧
        ((d j).type = GPI_DRIVER_MCP23017 → ∃ c, (d j).config = some c ∧ c.address ≠ address)) →
      mcpScan d address fuel i = some (.found k) := by
  intro fuel
  induction fuel with
  | zero => intro i h1 h2; omega
  | succ n ih =>
    intro i h1 h2 h
    unfold mcpScan
    by_cases hik : i = k
    · subst hik
      rw [if_neg (by rw [hk]; decide), if_pos hk, hc]
      simp only
      rw [if_pos ha]
    · have hi := h i (by omega) (by omega)
      rw [if_neg hi.1]
      have hrec := ih (i + 1) (by omega) (by omega) (fun j a b => h j (by omega) b)
      by_cases hm : (d i).type = GPI_DRIVER_MCP23017
      · obtain ⟨c1, hc1, hne⟩ := hi.2 hm
        rw [if_pos hm, hc1]
        simp only
        rw [if_neg hne]
        exact hrec
      · rw [if_neg hm]
        exact hrec

/-! ## Sums of sizes -/

theorem sub32_eq (a b : Nat) (h1 : b ≤ a) (h2 : a < U32) : sub32 a b = a - b := by
  simp only [sub32, U32] at *
  omega

theorem usedSize_lowered (size : Nat) (x : gpi_driver_t) : usedSize (lowered size x) = usedSize x :=
  rfl

theorem sizeBelow_congr (d1 d2 : Nat → gpi_driver_t) :
    ∀ k, (∀ j, j < k → usedSize (d1 j) = usedSize (d2 j)) → sizeBelow d1 k = sizeBelow d2 k := by
  intro k
  induction k with
  | zero => intro _; rfl
  | succ n ih =>
    intro h
    simp only [sizeBelow]
    rw [ih (fun j hj => h j (by omega)), h n (by omega)]

theorem sizeBelow_shift (r d : Nat → gpi_driver_t) (i : Nat)
    (h1 : ∀ j, j < i → usedSize (r j) = usedSize (d j)) :
    ∀ j, i ≤ j → (∀ k, i ≤ k → k < j → usedSize (r k) = usedSize (d (k + 1))) →
      sizeBelow r j + usedSize (d i) = sizeBelow d (j + 1) := by
  intro j
  induction j with
  | zero =>
    intro hi _
    have : i = 0 := by omega
    subst this
    simp [sizeBelow]
  | succ n ih =>
    intro hi h2
    by_cases hin : i = n + 1
    · subst hin
      rw [sizeBelow_congr r d (n + 1) h1]
      rfl
    · have e := ih (by omega) (fun k a b => h2 k a (by omega))
      have e2 := h2 n (by omega) (by omega)
      simp only [sizeBelow] at e ⊢
      omega

theorem sizeBelow_mono (d : Nat → gpi_driver_t) : ∀ j k, j ≤ k → sizeBelow d j ≤ sizeBelow d k := by
  intro j k
  induction k with
  | zero =>
    intro h
    have : j = 0 := by omega
    subst this
    exact Nat.le_refl _
  | succ n ih =>
    intro h
    by_cases hj : j = n + 1
    · subst hj
      exact Nat.le_refl _
    · have := ih (by omega)
      simp only [sizeBelow]
      omega

theorem sizeBelow_le (d : Nat → gpi_driver_t) :
    ∀ n, (∀ k, k < n → usedSize (d k) ≤ 32) → sizeBelow d n ≤ 32 * n := by
  intro n
  induction n with
  | zero => intro _; simp [sizeBelow]
  | succ m ih =>
    intro h
    have e1 := ih (fun k hk => h k (by omega))
    have e2 := h m (by omega)
    simp only [sizeBelow]
    omega

theorem sizeBelow_tail (d : Nat → gpi_driver_t) (n : Nat) :
    ∀ m, n ≤ m → (∀ k, n ≤ k → k < m → usedSize (d k) = 0) → sizeBelow d m = sizeBelow d n := by
  intro m
  induction m with
  | zero =>
    intro h _
    have : n = 0 := by omega
    subst this
    rfl
  | succ p ih =>
    intro h h2
    by_cases hn : n = p + 1
    · subst hn
      rfl
    · have e := ih (by omega) (fun k a b => h2 k a (by omega))
      have e2 := h2 p (by omega) (by omega)
      simp only [sizeBelow]
      omega

/-! ## The table invariant -/

theorem TableInv.usedSize_eq {d : Nat → gpi_driver_t} {count n : Nat} (h : TableInv d count n)
    (k : Nat) (hk : k < n) : usedSize (d k) = (d k).size ∧ (d k).size ≤ 32 := by
  unfold usedSize
  rcases h.used k hk with ht | ht
  · rw [if_neg (by rw [ht]; decide), h.rpiSize k hk ht]
    exact ⟨rfl, by omega⟩
  · rw [if_neg (by rw [ht]; decide), h.mcpSize k hk ht]
    exact ⟨rfl, by omega⟩

theorem TableInv.unused_zero {d : Nat → gpi_driver_t} {count n : Nat} (h : TableInv d count n)
    (k : Nat) (hk : n ≤ k) (hk8 : k < MAX_GPI_DRIVERS) : usedSize (d k) = 0 := by
  unfold usedSize
  rw [if_pos (h.unused k hk hk8).1]

theorem TableInv.sizeBelow_lt {d : Nat → gpi_driver_t} {count n : Nat} (h : TableInv d count n)
    (k : Nat) (hk : k ≤ n) : sizeBelow d k ≤ 256 := by
  have e := sizeBelow_le d k (fun j hj => by
    have := h.usedSize_eq j (by omega)
    omega)
  have := h.bound
  simp only [MAX_GPI_DRIVERS] at this
  omega

theorem TableInv.init : TableInv init.gpiDrivers init.zynGpiCount 0 where
  bound := by decide
  used := fun k hk => by omega
  unused := fun k _ _ => ⟨rfl, rfl⟩
  rpiSize := fun k hk => by omega
  mcpSize := fun k hk => by omega
  offs := fun k hk => by omega
  cnt := rfl
  cfg := fun k hk => by omega
  rpiUniq := fun j k hj => by omega
  mcpUniq := fun j k cj ck hj => by omega

theorem TableInv.remap {d r : Nat → gpi_driver_t} {count count1 n n1 : Nat}
    (h : TableInv d count n) (σ : Nat → Nat) (hn : n1 ≤ MAX_GPI_DRIVERS)
    (hσ : ∀ j, j < n1 → σ j < n)
    (hinj : ∀ j k, j < n1 → k < n1 → σ j = σ k → j = k)
    (hty : ∀ j, j < n1 → (r j).type = (d (σ j)).type ∧ (r j).size = (d (σ j)).size ∧
      (r j).config = (d (σ j)).config)
    (hun : ∀ k, n1 ≤ k → k < MAX_GPI_DRIVERS → (r k).type = GPI_DRIVER_NONE ∧ (r k).size = 0)
    (hoff : ∀ k, k < n1 → (r k).offset = sizeBelow r k)
    (hcnt : count1 = sizeBelow r n1) : TableInv r count1 n1 where
  bound := hn
  used := fun k hk => by
    rw [(hty k hk).1]
    exact h.used _ (hσ k hk)
  unused := hun
  rpiSize := fun k hk ht => by
    rw [(hty k hk).1] at ht
    rw [(hty k hk).2.1]
    exact h.rpiSize _ (hσ k hk) ht
  mcpSize := fun k hk ht => by
    rw [(hty k hk).1] at ht
    rw [(hty k hk).2.1]
    exact h.mcpSize _ (hσ k hk) ht
  offs := hoff
  cnt := hcnt
  cfg := fun k hk ht => by
    rw [(hty k hk).1] at ht
    rw [(hty k hk).2.2]
    exact h.cfg _ (hσ k hk) ht
  rpiUniq := fun j k hj hk tj tk => by
    rw [(hty j hj).1] at tj
    rw [(hty k hk).1] at tk
    exact hinj j k hj hk (h.rpiUniq _ _ (hσ j hj) (hσ k hk) tj tk)
  mcpUniq := fun j k cj ck hj hk tj tk ej ek ha => by
    rw [(hty j hj).1] at tj
    rw [(hty k hk).1] at tk
    rw [(hty j hj).2.2] at ej
    rw [(hty k hk).2.2] at ek
    exact hinj j k hj hk (h.mcpUniq _ _ cj ck (hσ j hj) (hσ k hk) tj tk ej ek ha)

theorem resetDriver_ne (k : Nat) (d : Nat → gpi_driver_t) (j : Nat) (h : j ≠ k) :
    resetDriver k d j = d j := by
  unfold resetDriver
  exact upd_ne _ _ _ _ h

theorem resetDriver_same (k : Nat) (d : Nat → gpi_driver_t) :
    (resetDriver k d k).type = GPI_DRIVER_NONE ∧ (resetDriver k d k).size = 0 := by
  unfold resetDriver
  rw [upd_same]
  exact ⟨rfl, rfl⟩

theorem TableInv.remove {d : Nat → gpi_driver_t} {count n : Nat} (h : TableInv d count n)
    (i : Nat) (hi : i < MAX_GPI_DRIVERS) :
    ∃ n1, TableInv
        (resetDriver (MAX_GPI_DRIVERS - 1)
          (shiftDrivers (d i).size (MAX_GPI_DRIVERS - 1 - i) i d))
        (sub32 count (d i).size) n1 ∧ (i < n → n1 + 1 = n) ∧ (n ≤ i → n1 = n) := by
  have hb := h.bound
  simp only [MAX_GPI_DRIVERS, Nat.reduceSub] at hb hi ⊢
  generalize hr : resetDriver 7 (shiftDrivers (d i).size (7 - i) i d) = r
  by_cases hin : i < n
  · have R : (∀ j, j < i → r j = d j) ∧
        (∀ j, i ≤ j → j + 1 < n → r j = lowered (d i).size (d (j + 1))) ∧
        (∀ j, n ≤ j + 1 → j < 8 → (r j).type = GPI_DRIVER_NONE ∧ (r j).size = 0) := by
      subst hr
      by_cases hn8 : n = 8
      · have hsh := shiftDrivers_full (d i).size (7 - i) i d (fun k hk1 hk2 => by
          rcases h.used k (by omega) with ht | ht <;> rw [ht] <;> decide)
        refine ⟨fun j hj => ?_, fun j hj1 hj2 => ?_, fun j hj1 hj2 => ?_⟩
        · rw [resetDriver_ne _ _ _ (by omega), hsh, if_neg (by omega)]
        · rw [resetDriver_ne _ _ _ (by omega), hsh, if_pos (by omega)]
        · have : j = 7 := by omega
          subst this
          exact resetDriver_same _ _
      · have hsh := shiftDrivers_break (d i).size (7 - i) i d n hin (by omega)
          (fun k hk1 hk2 => by
            rcases h.used k hk2 with ht | ht <;> rw [ht] <;> decide)
          (h.unused n (Nat.le_refl _) (by simp only [MAX_GPI_DRIVERS]; omega)).1
        refine ⟨fun j hj => ?_, fun j hj1 hj2 => ?_, fun j hj1 hj2 => ?_⟩
        · have c1 : ¬ (i ≤ j ∧ j + 1 < n) := by omega
          have c2 : ¬ (j + 1 = n) := by omega
          rw [resetDriver_ne _ _ _ (by omega), hsh, if_neg c1, if_neg c2]
        · have c1 : i ≤ j ∧ j + 1 < n := by omega
          rw [resetDriver_ne _ _ _ (by omega), hsh, if_pos c1]
        · by_cases hj7 : j = 7
          · subst hj7
            exact resetDriver_same _ _
          · have c1 : ¬ (i ≤ j ∧ j + 1 < n) := by omega
            rw [resetDriver_ne _ _ _ hj7, hsh, if_neg c1]
            by_cases hjn : j + 1 = n
            · rw [if_pos hjn]
              exact h.unused n (Nat.le_refl _) (by simp only [MAX_GPI_DRIVERS]; omega)
            · rw [if_neg hjn]
              exact h.unused j (by omega) hj2
    obtain ⟨R1, R2, R3⟩ := R
    have hU1 : ∀ j, j < i → usedSize (r j) = usedSize (d j) := fun j hj => by rw [R1 j hj]
    have hU2 : ∀ k, i ≤ k → k + 1 < n → usedSize (r k) = usedSize (d (k + 1)) :=
      fun k a b => by rw [R2 k a b, usedSize_lowered]
    have hsum : ∀ j, i ≤ j → j + 1 ≤ n → sizeBelow r j + usedSize (d i) = sizeBelow d (j + 1) :=
      fun j a b => sizeBelow_shift r d i hU1 j a (fun k c e => hU2 k c (by omega))
    have hs : usedSize (d i) = (d i).size := (h.usedSize_eq i hin).1
    refine ⟨n - 1, h.remap (fun j => if j < i then j else j + 1) (by simp only [MAX_GPI_DRIVERS]; omega)
      ?_ ?_ ?_ (fun k a b => R3 k (by omega) b) ?_ ?_, fun _ => by omega, fun _ => by omega⟩
    · intro j hj
      simp only
      split <;> omega
    · intro j k hj hk
      simp only
      split <;> split <;> omega
    · intro j hj
      simp only
      by_cases hji : j < i
      · rw [if_pos hji, R1 j hji]
        exact ⟨rfl, rfl, rfl⟩
      · rw [if_neg hji, R2 j (by omega) (by omega)]
        exact ⟨rfl, rfl, rfl⟩
    · intro k hk
      by_cases hki : k < i
      · rw [R1 k hki, h.offs k (by omega)]
        exact (sizeBelow_congr r d k (fun j hj => hU1 j (by omega))).symm
      · rw [R2 k (by omega) (by omega)]
        show sub32 (d (k + 1)).offset (d i).size = sizeBelow r k
        rw [h.offs (k + 1) (by omega)]
        have e1 := hsum k (by omega) (by omega)
        have e2 := h.sizeBelow_lt (k + 1) (by omega)
        rw [sub32_eq _ _ (by omega) (by simp only [U32]; omega)]
        omega
    · rw [h.cnt]
      have e1 := hsum (n - 1) (by omega) (by omega)
      have e3 : n - 1 + 1 = n := by omega
      rw [e3] at e1
      have e2 := h.sizeBelow_lt n (Nat.le_refl _)
      rw [sub32_eq _ _ (by omega) (by simp only [U32]; omega)]
      omega
  · have hz : (d i).size = 0 := (h.unused i (by omega) hi).2
    have R : (∀ j, j < n → r j = d j) ∧
        (∀ j, n ≤ j → j < 8 → (r j).type = GPI_DRIVER_NONE ∧ (r j).size = 0) := by
      subst hr
      by_cases hi7 : i = 7
      · subst hi7
        have hsh : shiftDrivers (d 7).size (7 - 7) 7 d = d := rfl
        rw [hsh]
        refine ⟨fun j hj => resetDriver_ne _ _ _ (by omega), fun j hj1 hj2 => ?_⟩
        by_cases hj7 : j = 7
        · subst hj7
          exact resetDriver_same _ _
        · rw [resetDriver_ne _ _ _ hj7]
          exact h.unused j hj1 hj2
      · have hsh := shiftDrivers_break (d i).size (7 - i) i d (i + 1) (by omega) (by omega)
          (fun k a b => by omega)
          (h.unused (i + 1) (by omega) (by simp only [MAX_GPI_DRIVERS]; omega)).1
        refine ⟨fun j hj => ?_, fun j hj1 hj2 => ?_⟩
        · have c1 : ¬ (i ≤ j ∧ j + 1 < i + 1) := by omega
          have c2 : ¬ (j + 1 = i + 1) := by omega
          rw [resetDriver_ne _ _ _ (by omega), hsh, if_neg c1, if_neg c2]
        · by_cases hj7 : j = 7
          · subst hj7
            exact resetDriver_same _ _
          · have c1 : ¬ (i ≤ j ∧ j + 1 < i + 1) := by omega
            rw [resetDriver_ne _ _ _ hj7, hsh, if_neg c1]
            by_cases hji : j + 1 = i + 1
            · rw [if_pos hji]
              exact h.unused (i + 1) (by omega) (by simp only [MAX_GPI_DRIVERS]; omega)
            · rw [if_neg hji]
              exact h.unused j hj1 hj2
    obtain ⟨R1, R2⟩ := R
    have hcong : ∀ k, k ≤ n → sizeBelow r k = sizeBelow d k :=
      fun k hk => sizeBelow_congr r d k (fun j hj => by rw [R1 j (by omega)])
    refine ⟨n, h.remap id hb (fun j hj => hj) (fun j k _ _ e => e)
      (fun j hj => by rw [R1 j hj]; exact ⟨rfl, rfl, rfl⟩) R2 ?_ ?_, fun _ => by omega, fun _ => rfl⟩
    · intro k hk
      rw [R1 k hk, h.offs k hk, hcong k (by omega)]
    · rw [hz, hcong n (Nat.le_refl _), h.cnt]
      have e2 := h.sizeBelow_lt n (Nat.le_refl _)
      rw [sub32_eq _ _ (Nat.zero_le _) (by simp only [U32]; omega)]
      rfl

theorem TableInv.append {d : Nat → gpi_driver_t} {count n : Nat} (h : TableInv d count n)
    (x : gpi_driver_t) (hn : n < MAX_GPI_DRIVERS)
    (hty : x.type = GPI_DRIVER_RPI ∨ x.type = GPI_DRIVER_MCP23017)
    (hrs : x.type = GPI_DRIVER_RPI → x.size = 32)
    (hms : x.type = GPI_DRIVER_MCP23017 → x.size = 16)
    (hoff : x.offset = count)
    (hcfg : x.type = GPI_DRIVER_MCP23017 →
      ∃ c, x.config = some c ∧ 0x20 ≤ c.address ∧ c.address ≤ 0x27)
    (hru : x.type = GPI_DRIVER_RPI → ∀ k, k < n → (d k).type ≠ GPI_DRIVER_RPI)
    (hmu : x.type = GPI_DRIVER_MCP23017 → ∀ k c cx, k < n → (d k).type = GPI_DRIVER_MCP23017 →
      (d k).config = some c → x.config = some cx → c.address ≠ cx.address) :
    TableInv (upd d n x) (count + x.size) (n + 1) := by
  have hcong : ∀ k, k ≤ n → sizeBelow (upd d n x) k = sizeBelow d k :=
    fun k hk => sizeBelow_congr _ _ k (fun j hj => by rw [upd_ne _ _ _ _ (by omega)])
  have hux : usedSize x = x.size := by
    unfold usedSize
    rcases hty with ht | ht <;> rw [if_neg (by rw [ht]; decide)]
  have old : ∀ k, k ≠ n → upd d n x k = d k := fun k hk => upd_ne _ _ _ _ hk
  have new : upd d n x n = x := upd_same _ _ _
  constructor
  · simp only [MAX_GPI_DRIVERS] at hn ⊢
    omega
  · intro k hk
    by_cases hkn : k = n
    · subst hkn
      rw [new]
      exact hty
    · rw [old k hkn]
      exact h.used k (by omega)
  · intro k hk hk8
    rw [old k (by omega)]
    exact h.unused k (by omega) hk8
  · intro k hk
    by_cases hkn : k = n
    · subst hkn
      rw [new]
      exact hrs
    · rw [old k hkn]
      exact h.rpiSize k (by omega)
  · intro k hk
    by_cases hkn : k = n
    · subst hkn
      rw [new]
      exact hms
    · rw [old k hkn]
      exact h.mcpSize k (by omega)
  · intro k hk
    rw [hcong k (by omega)]
    by_cases hkn : k = n
    · subst hkn
      rw [new, hoff, h.cnt]
    · rw [old k hkn]
      exact h.offs k (by omega)
  · show count + x.size = sizeBelow (upd d n x) n + usedSize (upd d n x n)
    rw [hcong n (Nat.le_refl _), new, hux, h.cnt]
  · intro k hk
    by_cases hkn : k = n
    · subst hkn
      rw [new]
      exact hcfg
    · rw [old k hkn]
      exact h.cfg k (by omega)
  · intro j k hj hk
    by_cases hjn : j = n
    · by_cases hkn : k = n
      · intro _ _
        omega
      · subst hjn
        rw [new, old k hkn]
        intro tj tk
        exact absurd tk (hru tj k (by omega))
    · by_cases hkn : k = n
      · subst hkn
        rw [new, old j hjn]
        intro tj tk
        exact absurd tj (hru tk j (by omega))
      · rw [old j hjn, old k hkn]
        exact h.rpiUniq j k (by omega) (by omega)
  · intro j k cj ck hj hk
    by_cases hjn : j = n
    · by_cases hkn : k = n
      · intro _ _ _ _ _
        omega
      · subst hjn
        rw [new, old k hkn]
        intro tj tk ej ek ha
        exact absurd ha.symm (hmu tj k ck cj (by omega) tk ek ej)
    · by_cases hkn : k = n
      · subst hkn
        rw [new, old j hjn]
        intro tj tk ej ek ha
        exact absurd ha (hmu tk j cj ck (by omega) tj ej ek)
      · rw [old j hjn, old k hkn]
        exact h.mcpUniq j k cj ck (by omega) (by omega)

theorem TableInv.rpiScan_stop {d : Nat → gpi_driver_t} {count n k : Nat} (h : TableInv d count n)
    (hs : rpiScan d MAX_GPI_DRIVERS 0 = .stop k) (hk : k < MAX_GPI_DRIVERS) :
    k = n ∧ ∀ j, j < n → (d j).type ≠ GPI_DRIVER_RPI := by
  obtain ⟨-, -, a3, a4⟩ := rpiScan_stop_inv d _ _ _ hs
  have hb := h.bound
  simp only [MAX_GPI_DRIVERS] at hb hk a3
  have hkn : k = n := by
    by_contra hne
    by_cases hlt : k < n
    · rcases h.used k hlt with ht | ht <;> rw [a3 (by omega)] at ht <;> exact absurd ht (by decide)
    · exact (a4 n (by omega) (by omega)).2 (h.unused n (Nat.le_refl _) (by simp only [MAX_GPI_DRIVERS]; omega)).1
  subst hkn
  exact ⟨rfl, fun j hj => (a4 j (by omega) hj).1⟩

theorem TableInv.mcpScan_stop {d : Nat → gpi_driver_t} {count n k address : Nat}
    (h : TableInv d count n)
    (hs : mcpScan d address MAX_GPI_DRIVERS 0 = some (.stop k)) (hk : k < MAX_GPI_DRIVERS) :
    k = n ∧ ∀ j, j < n → (d j).type = GPI_DRIVER_MCP23017 →
      ∃ c, (d j).config = some c ∧ c.address ≠ address := by
  obtain ⟨-, -, a3, a4⟩ := mcpScan_stop_inv d address _ _ _ hs
  have hb := h.bound
  simp only [MAX_GPI_DRIVERS] at hb hk a3
  have hkn : k = n := by
    by_contra hne
    by_cases hlt : k < n
    · rcases h.used k hlt with ht | ht <;> rw [a3 (by omega)] at ht <;> exact absurd ht (by decide)
    · exact (a4 n (by omega) (by omega)).1 (h.unused n (Nat.le_refl _) (by simp only [MAX_GPI_DRIVERS]; omega)).1
  subst hkn
  exact ⟨rfl, fun j hj => (a4 j (by omega) hj).2⟩

theorem addRpi_inv {fd : Int} {mapOk : Bool} {st st1 : State} {r : Int} {n : Nat}
    (hr : addRpiGpiDevice fd mapOk st = some (r, st1))
    (hn : TableInv st.gpiDrivers st.zynGpiCount n) :
    ∃ n1, TableInv st1.gpiDrivers st1.zynGpiCount n1 := by
  rcases addRpi_effect hr with ⟨k, -, -, rfl⟩ | ⟨-, e1, -, e2, -⟩ |
    ⟨k, x, hs, hk, -, e1, xt, xs, xo, e2, -⟩
  · exact ⟨n, hn⟩
  · refine ⟨n, ?_⟩
    rw [e1, e2]
    exact hn
  · obtain ⟨hkn, hno⟩ := hn.rpiScan_stop hs hk
    subst hkn
    refine ⟨k + 1, ?_⟩
    rw [e1, e2, ← xs]
    exact hn.append x hk (Or.inl xt) (fun _ => xs) (fun c => by rw [xt] at c; exact absurd c (by decide))
      xo (fun c => by rw [xt] at c; exact absurd c (by decide)) (fun _ => hno)
      (fun c => by rw [xt] at c; exact absurd c (by decide))

theorem addMcp_inv {address interrupt : Nat} {openResult : Int} {st st1 : State} {r : Int} {n : Nat}
    (hr : addMcp23017GpiDevice address interrupt openResult st = some (r, st1))
    (hn : TableInv st.gpiDrivers st.zynGpiCount n) :
    ∃ n1, TableInv st1.gpiDrivers st1.zynGpiCount n1 := by
  rcases addMcp_effect hr with ⟨k, -, -, -, -, rfl⟩ | ⟨-, e1, -, e2, -⟩ |
    ⟨k, x, hs, hk, ha1, ha2, -, e1, xt, xs, xo, xc, e2, -⟩
  · exact ⟨n, hn⟩
  · refine ⟨n, ?_⟩
    rw [e1, e2]
    exact hn
  · obtain ⟨hkn, hno⟩ := hn.mcpScan_stop hs hk
    subst hkn
    refine ⟨k + 1, ?_⟩
    rw [e1, e2, ← xs]
    refine hn.append x hk (Or.inr xt) (fun c => by rw [xt] at c; exact absurd c (by decide))
      (fun _ => xs) xo (fun _ => ⟨_, xc, ha1, ha2⟩)
      (fun c => by rw [xt] at c; exact absurd c (by decide)) ?_
    intro _ j c cx hj tj ej ex
    rw [xc] at ex
    simp only [Option.some.injEq] at ex
    subst ex
    obtain ⟨c1, hc1, hne⟩ := hno j hj tj
    rw [ej] at hc1
    simp only [Option.some.injEq] at hc1
    subst hc1
    exact hne

theorem step_inv {op : Op} {st st1 : State} (h : step op st = some st1)
    (hinv : ∃ n, TableInv st.gpiDrivers st.zynGpiCount n) :
    ∃ n, TableInv st1.gpiDrivers st1.zynGpiCount n := by
  obtain ⟨n, hn⟩ := hinv
  have keep : ∀ {t : State}, Same st t → ∃ n, TableInv t.gpiDrivers t.zynGpiCount n := by
    intro t ht
    refine ⟨n, ?_⟩
    rw [ht.1, ht.2.2.1]
    exact hn
  cases op with
  | addRpi fd mapOk =>
    simp only [step, Option.map_eq_some', Prod.exists, exists_eq_right] at h
    obtain ⟨r, hr⟩ := h
    exact addRpi_inv hr hn
  | addMcp address interrupt openResult =>
    simp only [step, Option.map_eq_some', Prod.exists, exists_eq_right] at h
    obtain ⟨r, hr⟩ := h
    exact addMcp_inv hr hn
  | remove driver =>
    simp only [step] at h
    by_cases hd : driver % U32 < MAX_GPI_DRIVERS
    · obtain ⟨e1, e2, -⟩ := remove_effect h hd
      obtain ⟨n1, hn1, -, -⟩ := hn.remove (driver % U32) hd
      refine ⟨n1, ?_⟩
      rw [e1, e2]
      exact hn1
    · unfold removeGpiDevice at h
      rw [if_pos (by omega)] at h
      simp only [Option.some.injEq] at h
      subst h
      exact ⟨n, hn⟩
  | enable gpi enable =>
    simp only [step, Option.map_eq_some', Prod.exists, exists_eq_right] at h
    obtain ⟨r, hr⟩ := h
    exact keep (enableGpi_same hr)
  | setState gpi state => exact keep (setState_same h)
  | setDirection gpi dir => exact keep (setDirection_same h)
  | setPull gpi mode => exact keep (setPull_same h)
  | poll driver =>
    simp only [step] at h
    split at h
    · exact keep (pollSlot_same h)
    · simp only [Option.some.injEq] at h
      subst h
      exact ⟨n, hn⟩
  | hwRegs regs =>
    simp only [step, Option.some.injEq] at h
    subst h
    exact ⟨n, hn⟩
  | hwBus bytes =>
    simp only [step, Option.some.injEq] at h
    subst h
    exact ⟨n, hn⟩
  | hwHeap cells =>
    simp only [step, Option.some.injEq] at h
    subst h
    exact ⟨n, hn⟩

theorem run_inv : ∀ (ops : List Op) (st st1 : State), run ops st = some st1 →
    (∃ n, TableInv st.gpiDrivers st.zynGpiCount n) →
    ∃ n, TableInv st1.gpiDrivers st1.zynGpiCount n := by
  intro ops
  induction ops with
  | nil =>
    intro st st1 h hinv
    simp only [run, Option.some.injEq] at h
    subst h
    exact hinv
  | cons op ops ih =>
    intro st st1 h hinv
    simp only [run] at h
    split at h
    · exact absurd h (by simp)
    · rename_i s2 hs
      exact ih _ _ h (step_inv hs hinv)

theorem reachable_inv {st : State} (h : Reachable st) :
    ∃ n, TableInv st.gpiDrivers st.zynGpiCount n := by
  obtain ⟨ops, hops⟩ := h
  exact run_inv ops _ _ hops ⟨0, TableInv.init⟩

theorem run_stateAfter (ops : List Op) (h : (run ops init).isSome = true) :
    run ops init = some (stateAfter ops) := by
  unfold stateAfter
  cases hr : run ops init with
  | none => rw [hr] at h; exact absurd h (by simp)
  | some t => rfl

theorem reachable_stateAfter (ops : List Op) (h : (run ops init).isSome = true) :
    Reachable (stateAfter ops) := ⟨ops, run_stateAfter ops h⟩

theorem some_getD_of_isSome {α : Type} (x : Option α) (dflt : α) (h : x.isSome = true) :
    x = some (x.getD dflt) := by
  cases x with
  | none => exact absurd h (by simp)
  | some t => rfl

theorem rpiScan_found_inv (d : Nat → gpi_driver_t) :
    ∀ (fuel i k : Nat), rpiScan d fuel i = .found k →
      (d k).type = GPI_DRIVER_RPI ∧ i ≤ k ∧ k < i + fuel := by
  intro fuel
  induction fuel with
  | zero =>
    intro i k h
    simp [rpiScan] at h
  | succ n ih =>
    intro i k h
    unfold rpiScan at h
    split at h
    · rename_i hr
      simp only [Scan.found.injEq] at h
      subst h
      exact ⟨hr, by omega, by omega⟩
    · split at h
      · exact absurd h (by simp)
      · obtain ⟨a1, a2, a3⟩ := ih _ _ h
        exact ⟨a1, by omega, by omega⟩

theorem mcpScan_found_inv (d : Nat → gpi_driver_t) (address : Nat) :
    ∀ (fuel i k : Nat), mcpScan d address fuel i = some (.found k) →
      (d k).type = GPI_DRIVER_MCP23017 ∧ (∃ c, (d k).config = some c ∧ c.address = address) ∧
        i ≤ k ∧ k < i + fuel := by
  intro fuel
  induction fuel with
  | zero =>
    intro i k h
    simp [mcpScan] at h
  | succ n ih =>
    intro i k h
    unfold mcpScan at h
    split at h
    · exact absurd h (by simp)
    · split at h
      · rename_i hm
        split at h
        · exact absurd h (by simp)
        · rename_i c hc
          split at h
          · rename_i hca
            simp only [Option.some.injEq, Scan.found.injEq] at h
            subst h
            exact ⟨hm, ⟨c, hc, hca⟩, by omega, by omega⟩
          · obtain ⟨a1, a2, a3, a4⟩ := ih _ _ h
            exact ⟨a1, a2, by omega, by omega⟩
      · obtain ⟨a1, a2, a3, a4⟩ := ih _ _ h
        exact ⟨a1, a2, by omega, by omega⟩

theorem TableInv.lt_of_used {d : Nat → gpi_driver_t} {count n k : Nat} (h : TableInv d count n)
    (hk : k < MAX_GPI_DRIVERS) (ht : (d k).type ≠ GPI_DRIVER_NONE) : k < n := by
  by_contra hc
  exact ht (h.unused k (by omega) hk).1

theorem TableInv.dense {st : State} {n : Nat} (h : TableInv st.gpiDrivers st.zynGpiCount n) :
    Dense st := by
  intro k j hkj hj hk
  have hkn : n ≤ k := by
    by_contra hc
    rcases h.used k (by omega) with ht | ht <;> rw [hk] at ht <;> exact absurd ht (by decide)
  exact (h.unused j (by omega) hj).1

theorem TableInv.layout {st : State} {n : Nat} (h : TableInv st.gpiDrivers st.zynGpiCount n) :
    Layout st := by
  refine ⟨?_, fun k hk ht => h.offs k (h.lt_of_used hk ht)⟩
  show st.zynGpiCount = sizeBelow st.gpiDrivers MAX_GPI_DRIVERS
  rw [sizeBelow_tail st.gpiDrivers n MAX_GPI_DRIVERS h.bound (fun k a b => h.unused_zero k a b)]
  exact h.cnt

theorem TableInv.idem_rpi {st : State} {n : Nat} (h : TableInv st.gpiDrivers st.zynGpiCount n)
    (k : Nat) (hk : k < MAX_GPI_DRIVERS) (ht : (st.gpiDrivers k).type = GPI_DRIVER_RPI)
    (fd : Int) (mapOk : Bool) : addRpiGpiDevice fd mapOk st = some ((k : Int), st) := by
  have hkn : k < n := h.lt_of_used hk (by rw [ht]; decide)
  have hs := rpiScan_found st.gpiDrivers k ht MAX_GPI_DRIVERS 0 (Nat.zero_le _) (by omega)
    (fun j _ hj => by
      refine ⟨fun c => ?_, ?_⟩
      · have := h.rpiUniq j k (by omega) hkn c ht
        omega
      · rcases h.used j (by omega) with t | t <;> rw [t] <;> decide)
  unfold addRpiGpiDevice
  rw [hs]

theorem TableInv.idem_mcp {st : State} {n : Nat} (h : TableInv st.gpiDrivers st.zynGpiCount n)
    (k : Nat) (hk : k < MAX_GPI_DRIVERS) (c : mcp23017gpidata_t)
    (ht : (st.gpiDrivers k).type = GPI_DRIVER_MCP23017) (hc : (st.gpiDrivers k).config = some c)
    (interrupt : Nat) (openResult : Int) :
    addMcp23017GpiDevice c.address interrupt openResult st = some ((k : Int), st) := by
  have hkn : k < n := h.lt_of_used hk (by rw [ht]; decide)
  obtain ⟨c0, hc0, lo, hi⟩ := h.cfg k hkn ht
  rw [hc] at hc0
  simp only [Option.some.injEq] at hc0
  subst hc0
  have hs := mcpScan_found st.gpiDrivers c.address k c ht hc rfl MAX_GPI_DRIVERS 0 (Nat.zero_le _)
    (by omega)
    (fun j _ hj => by
      refine ⟨?_, fun tj => ?_⟩
      · rcases h.used j (by omega) with t | t <;> rw [t] <;> decide
      · obtain ⟨cj, hcj, -, -⟩ := h.cfg j (by omega) tj
        refine ⟨cj, hcj, fun e => ?_⟩
        have := h.mcpUniq j k cj c (by omega) hkn tj ht hcj hc e
        omega)
  unfold addMcp23017GpiDevice
  rw [if_neg (by omega), hs]

theorem shiftMap_lt (size : Nat) :
    ∀ (fuel i : Nat) (m m1 : Nat → gpi_map_t), shiftMap size fuel i m = some m1 →
      ∀ p, p < i → m1 p = m p := by
  intro fuel
  induction fuel with
  | zero =>
    intro i m m1 h p _
    simp only [shiftMap, Option.some.injEq] at h
    subst h
    rfl
  | succ n ih =>
    intro i m m1 h p hp
    unfold shiftMap at h
    split at h
    · rw [ih _ _ _ h p (by omega), upd_ne _ _ _ _ (by omega)]
    · exact absurd h (by simp)

theorem remove_frame_parts {driver : Nat} {st st1 : State}
    (h : removeGpiDevice driver st = some st1) (hd : driver < MAX_GPI_DRIVERS) :
    (∀ q, q ≠ (st.gpiDrivers driver).gpis → st1.heap q = st.heap q) ∧
      (∀ p, p < (st.gpiDrivers driver).offset → st1.gpimap p = st.gpimap p) := by
  unfold removeGpiDevice at h
  rw [if_neg (by omega)] at h
  simp only at h
  split at h
  · exact absurd h (by simp)
  · rename_i s2 hf
    split at h
    · exact absurd h (by simp)
    · rename_i map hmap
      simp only [Option.some.injEq] at h
      subst h
      have hdrv : ∀ (o : Option Backend), (match o with
          | none => st
          | some _ => destroyRpiGpiDevice st).gpiDrivers = st.gpiDrivers := by
        intro o; cases o <;> rfl
      have hheap : ∀ (o : Option Backend), (match o with
          | none => st
          | some _ => destroyRpiGpiDevice st).heap = st.heap := by
        intro o; cases o <;> rfl
      have hmp : ∀ (o : Option Backend), (match o with
          | none => st
          | some _ => destroyRpiGpiDevice st).gpimap = st.gpimap := by
        intro o; cases o <;> rfl
      obtain ⟨-, e2, -, -, e4⟩ := free_regs hf
      rw [hdrv] at e4
      rw [hmp] at e2
      refine ⟨fun q hq => ?_, fun p hp => ?_⟩
      · simp only
        rw [e4 q hq, hheap]
      · simp only
        rw [e2] at hmap
        exact shiftMap_lt _ _ _ _ _ hmap p hp

theorem getGpi_congr {st st1 : State} {p : Nat}
    (hm : st1.gpimap p = st.gpimap p)
    (hdrv : st1.gpiDrivers (st.gpimap p).driver = st.gpiDrivers (st.gpimap p).driver)
    (hh : st1.heap (st.gpiDrivers (st.gpimap p).driver).gpis
      = st.heap (st.gpiDrivers (st.gpimap p).driver).gpis) :
    getGpi st1 p = getGpi st p := by
  unfold getGpi gpiAddr readMap readDriver readPin
  rw [hm]
  by_cases hp : p < MAX_GPI
  · simp only [if_pos hp]
    by_cases hk : (st.gpimap p).driver < MAX_GPI_DRIVERS
    · simp only [if_pos hk]
      rw [hdrv, hh]
    · simp only [if_neg hk]
  · simp only [if_neg hp]

theorem owner_before {st : State} (hc : Consistent st) {s p : Nat} (hs : s < MAX_GPI_DRIVERS)
    (ht : (st.gpiDrivers s).type ≠ GPI_DRIVER_NONE) (hp : p < (st.gpiDrivers s).offset) :
    (st.gpimap p).driver < s ∧
      (st.gpiDrivers (st.gpimap p).driver).gpis ≠ (st.gpiDrivers s).gpis := by
  obtain ⟨hmap, hlay, hdis⟩ := hc
  have hoff := hlay.2 s hs ht
  have hcnt : getCount st = sizeBelow st.gpiDrivers MAX_GPI_DRIVERS := hlay.1
  have hmono := sizeBelow_mono st.gpiDrivers s MAX_GPI_DRIVERS (by omega)
  obtain ⟨m1, m2, m3, m4⟩ := hmap p (by omega)
  have hk := hlay.2 _ m1 m2
  have hlt : (st.gpimap p).driver < s := by
    by_contra hge
    have := sizeBelow_mono st.gpiDrivers s (st.gpimap p).driver (by omega)
    omega
  exact ⟨hlt, hdis _ m1 _ hs ⟨by omega, m2, ht⟩⟩

/-! ## Reading and writing a pin -/

theorem SameMem.refl_mem (st : State) : SameMem st st := ⟨rfl, rfl, rfl, rfl⟩

theorem SameMem.trans_mem {a b c : State} (h1 : SameMem a b) (h2 : SameMem b c) : SameMem a c :=
  ⟨h2.1.trans h1.1, h2.2.1.trans h1.2.1, h2.2.2.1.trans h1.2.2.1, h2.2.2.2.trans h1.2.2.2⟩

theorem gpiAddr_congr {st st1 : State} (hm : st1.gpimap = st.gpimap)
    (hd : st1.gpiDrivers = st.gpiDrivers) (q : Nat) : gpiAddr st1 q = gpiAddr st q := by
  unfold gpiAddr readMap readDriver
  rw [hm, hd]

theorem regRead_mem {w : Nat} {st st1 : State} {v : Nat} (h : regRead w st = some (v, st1)) :
    SameMem st st1 := by
  unfold regRead at h
  split at h
  · simp only [Option.some.injEq, Prod.mk.injEq] at h
    obtain ⟨-, rfl⟩ := h
    exact ⟨rfl, rfl, rfl, rfl⟩
  · exact absurd h (by simp)

theorem regWrite_mem {w v : Nat} {st st1 : State} (h : regWrite w v st = some st1) :
    SameMem st st1 := by
  unfold regWrite at h
  split at h
  · simp only [Option.some.injEq] at h
    subst h
    exact ⟨rfl, rfl, rfl, rfl⟩
  · exact absurd h (by simp)

theorem readMcp_mem (address reg : Nat) (st : State) :
    SameMem st (readMcp23017Register address reg st).2 := by
  unfold readMcp23017Register i2cReadByte i2cWriteByte i2cSelectDevice
  repeat' split
  all_goals exact ⟨rfl, rfl, rfl, rfl⟩

theorem writeMcp_mem (address reg val : Nat) (st : State) :
    SameMem st (writeMcp23017Register address reg val st) := by
  unfold writeMcp23017Register i2cWriteByte i2cSelectDevice
  repeat' split
  all_goals exact ⟨rfl, rfl, rfl, rfl⟩

theorem writePin_spec {p off : Nat} {f : gpi_t → gpi_t} {st st1 : State}
    (h : writePin p off f st = some st1) :
    ∃ blk g, st.heap p = some blk ∧ blk[off]? = some g ∧
      st1 = { st with heap := upd st.heap p (some (blk.set off (f g))) } := by
  unfold writePin at h
  split at h
  · rename_i blk hb
    split at h
    · rename_i g hg
      simp only [Option.some.injEq] at h
      exact ⟨blk, g, hb, hg, h.symm⟩
    · exact absurd h (by simp)
  · exact absurd h (by simp)

theorem setGpi_inv {i : Nat} {f : gpi_t → gpi_t} {st st1 : State} (h : setGpi i f st = some st1) :
    ∃ p off blk g, gpiAddr st i = some (p, off) ∧ st.heap p = some blk ∧ blk[off]? = some g ∧
      getGpi st i = some g ∧
      st1 = { st with heap := upd st.heap p (some (blk.set off (f g))) } := by
  unfold setGpi at h
  split at h
  · rename_i p off ha
    obtain ⟨blk, g, hb, hg, e⟩ := writePin_spec h
    refine ⟨p, off, blk, g, ha, hb, hg, ?_, e⟩
    unfold getGpi readPin
    rw [ha]
    simp only
    rw [hb]
    exact hg
  · exact absurd h (by simp)

theorem setGpi_of_get {i : Nat} (f : gpi_t → gpi_t) {st : State} {g : gpi_t}
    (h : getGpi st i = some g) : ∃ st1, setGpi i f st = some st1 := by
  unfold getGpi at h
  unfold setGpi
  split at h
  · rename_i p off ha
    unfold readPin at h
    unfold writePin
    split at h
    · rename_i blk hb
      rw [h]
      exact ⟨_, rfl⟩
    · exact absurd h (by simp)
  · exact absurd h (by simp)

theorem getGpi_after_set {st : State} {p off : Nat} {blk : List gpi_t} {g x : gpi_t}
    (hb : st.heap p = some blk) (hg : blk[off]? = some g) (q : Nat) :
    getGpi { st with heap := upd st.heap p (some (blk.set off x)) } q =
      if gpiAddr st q = some (p, off) then some x else getGpi st q := by
  have hlen : off < blk.length := by
    obtain ⟨hl, -⟩ := List.getElem?_eq_some.mp hg
    exact hl
  have ha : gpiAddr { st with heap := upd st.heap p (some (blk.set off x)) } q = gpiAddr st q :=
    gpiAddr_congr rfl rfl q
  unfold getGpi
  rw [ha]
  cases hq : gpiAddr st q with
  | none => simp
  | some a =>
    obtain ⟨p1, off1⟩ := a
    simp only [readPin]
    by_cases hp : p1 = p
    · subst hp
      rw [upd_same, hb]
      simp only
      by_cases ho : off1 = off
      · subst ho
        rw [if_pos rfl, List.getElem?_set, if_pos rfl, if_pos hlen]
      · have hne : ¬ ((some (p1, off1) : Option (Nat × Nat)) = some (p1, off)) := by
          simp [ho]
        rw [if_neg hne, List.getElem?_set, if_neg (fun e => ho e.symm)]
    · have hne : ¬ ((some (p1, off1) : Option (Nat × Nat)) = some (p, off)) := by
        simp [hp]
      rw [if_neg hne, upd_ne _ _ _ _ hp]

theorem setGpi_spec {i : Nat} {f : gpi_t → gpi_t} {st st1 : State} (h : setGpi i f st = some st1) :
    ∃ g, getGpi st i = some g ∧ getGpi st1 i = some (f g) ∧
      (∀ q, getGpi st1 q = if gpiAddr st q = gpiAddr st i then some (f g) else getGpi st q) ∧
      st1.gpiDrivers = st.gpiDrivers ∧ st1.gpimap = st.gpimap ∧
      st1.zynGpiCount = st.zynGpiCount ∧ st1.regs = st.regs ∧ st1.log = st.log ∧
      st1.gpiMmap = st.gpiMmap ∧ st1.i2cFd = st.i2cFd ∧ st1.busIn = st.busIn := by
  obtain ⟨p, off, blk, g, ha, hb, hg, hget, rfl⟩ := setGpi_inv h
  have hall := getGpi_after_set (x := f g) hb hg
  refine ⟨g, hget, ?_, ?_, rfl, rfl, rfl, rfl, rfl, rfl, rfl, rfl⟩
  · rw [hall i, if_pos ha]
  · intro q
    rw [hall q, ha]

theorem pollRpiGpi_same {driver r : Nat} {st st1 : State}
    (h : pollRpiGpi driver st = some (r, st1)) : Same st st1 := by
  unfold pollRpiGpi at h
  split at h
  · exact absurd h (by simp)
  · exact pollRpiLoop_same _ _ _ _ _ _ _ h

theorem owner_distinct {st : State} (hc : Consistent st) {p q : Nat} (hp : p < getCount st)
    (hp256 : p < MAX_GPI) (hq : q < getCount st) (hne : q ≠ p) : gpiAddr st q ≠ gpiAddr st p := by
  obtain ⟨hmap, -, hdis⟩ := hc
  obtain ⟨p1, p2, p3, p4⟩ := hmap p hp
  obtain ⟨q1, q2, q3, q4⟩ := hmap q hq
  intro e
  unfold gpiAddr readMap readDriver at e
  by_cases hq256 : q < MAX_GPI
  · simp only [if_pos hq256, if_pos hp256, if_pos q1, if_pos p1, Option.some.injEq,
      Prod.mk.injEq] at e
    obtain ⟨e1, e2⟩ := e
    have hk : (st.gpimap q).driver = (st.gpimap p).driver := by
      by_contra hk
      exact hdis _ q1 _ p1 ⟨hk, q2, p2⟩ e1
    rw [hk] at q4
    omega
  · simp [if_neg hq256, if_pos hp256, if_pos p1] at e

/-! ## Native registers and freshly registered pins -/

theorem unavailableGpi_available (o : Nat) (h2 : 2 ≤ o) (h27 : o ≤ 27) :
    unavailableGpi[o]? = some 0 := by
  interval_cases o <;> rfl

theorem regWrite_eq (w v : Nat) {st : State} (hm : st.gpiMmap = true) :
    regWrite w v st
      = some (emit (.regWrite w (v % U32)) { st with regs := upd st.regs w (v % U32) }) := by
  unfold regWrite
  rw [if_pos hm]

theorem one_shiftLeft_lt (o : Nat) (h : o ≤ 31) : (1 <<< o) % U32 = 1 <<< o := by
  apply Nat.mod_eq_of_lt
  rw [Nat.one_shiftLeft]
  show 2 ^ o < 2 ^ 32
  exact Nat.pow_lt_pow_right (by decide) (by omega)

theorem and_three_lt (mode : Nat) : (mode &&& 3) % U32 = mode &&& 3 := by
  apply Nat.mod_eq_of_lt
  have : mode &&& 3 ≤ 3 := Nat.and_le_right
  show mode &&& 3 < 4294967296
  omega

theorem testBit_seven (k : Nat) : (7 : Nat).testBit k = decide (k < 3) := by
  have h := Nat.testBit_two_pow_sub_one 3 k
  simpa using h

theorem testBit_not32 (x b : Nat) (hb : b < 32) : (not32 x).testBit b = !x.testBit b := by
  unfold not32
  have hx : x % U32 < 2 ^ 32 := Nat.mod_lt _ (by decide)
  have e : U32 - 1 - x % U32 = 2 ^ 32 - (x % U32 + 1) := by
    show 4294967296 - 1 - x % U32 = 2 ^ 32 - (x % U32 + 1)
    norm_num
    omega
  rw [e, Nat.testBit_two_pow_sub_succ hx]
  have : (x % U32).testBit b = x.testBit b := by
    show (x % 2 ^ 32).testBit b = x.testBit b
    rw [Nat.testBit_mod_two_pow]
    simp [hb]
  rw [this]
  simp [hb]

theorem writePin_zeroBelow {P n i p off : Nat} {f : gpi_t → gpi_t} {st st1 : State}
    (hf : f { value := 0, enabled := 0, dir := 0 } = { value := 0, enabled := 0, dir := 0 })
    (h : writePin p off f st = some st1) (hz : ZeroBelow st P n i) : ZeroBelow st1 P n i := by
  obtain ⟨blk, g, hb, hg, rfl⟩ := writePin_spec h
  obtain ⟨blk0, h0, hl, hzz⟩ := hz
  by_cases hp : P = p
  · subst hp
    rw [h0] at hb
    simp only [Option.some.injEq] at hb
    subst hb
    have hoff : off < blk0.length := (List.getElem?_eq_some.mp hg).1
    refine ⟨blk0.set off (f g), ?_, by rw [List.length_set]; exact hl, fun j hj => ?_⟩
    · show upd st.heap P _ P = _
      rw [upd_same]
    · rw [List.getElem?_set]
      by_cases hoj : off = j
      · subst hoj
        have hg0 := hzz off hj
        rw [hg] at hg0
        simp only [Option.some.injEq] at hg0
        rw [if_pos rfl, if_pos hoff, hg0, hf]
      · rw [if_neg hoj]
        exact hzz j hj
  · refine ⟨blk0, ?_, hl, hzz⟩
    show upd st.heap p _ P = _
    rw [upd_ne _ _ _ _ hp]
    exact h0

theorem writePin_zero_cell {P n i : Nat} {st st1 : State}
    (h : writePin P i (fun _ => { value := 0, enabled := 0, dir := 0 }) st = some st1)
    (hz : ZeroBelow st P n i) : ZeroBelow st1 P n (i + 1) := by
  obtain ⟨blk, g, hb, hg, rfl⟩ := writePin_spec h
  obtain ⟨blk0, h0, hl, hzz⟩ := hz
  rw [h0] at hb
  simp only [Option.some.injEq] at hb
  subst hb
  have hoff : i < blk0.length := (List.getElem?_eq_some.mp hg).1
  refine ⟨blk0.set i { value := 0, enabled := 0, dir := 0 }, ?_,
    by rw [List.length_set]; exact hl, fun j hj => ?_⟩
  · show upd st.heap P _ P = _
    rw [upd_same]
  · rw [List.getElem?_set]
    by_cases hij : i = j
    · subst hij
      rw [if_pos rfl, if_pos hoff]
    · rw [if_neg hij]
      exact hzz j (by omega)

theorem ZeroBelow.of_heap {P n i : Nat} {st st1 : State} (h : st1.heap = st.heap)
    (hz : ZeroBelow st P n i) : ZeroBelow st1 P n i := by
  unfold ZeroBelow
  rw [h]
  exact hz

theorem setGpi_zeroBelow {P n i q : Nat} {f : gpi_t → gpi_t} {st st1 : State}
    (hf : f { value := 0, enabled := 0, dir := 0 } = { value := 0, enabled := 0, dir := 0 })
    (h : setGpi q f st = some st1) (hz : ZeroBelow st P n i) : ZeroBelow st1 P n i := by
  unfold setGpi at h
  split at h
  · exact writePin_zeroBelow hf h hz
  · exact absurd h (by simp)

theorem setRpiGpiDirection_zeroBelow {P n i gpi : Nat} {st st1 : State}
    (h : setRpiGpiDirection gpi INPUT st = some st1) (hz : ZeroBelow st P n i) :
    ZeroBelow st1 P n i := by
  unfold setRpiGpiDirection at h
  split at h
  · exact absurd h (by simp)
  · split at h
    · exact absurd h (by simp)
    · split at h
      · simp only [Option.some.injEq] at h
        subst h
        exact hz
      · split at h
        · exact absurd h (by simp)
        · rename_i v1 s1 h1
          split at h
          · exact absurd h (by simp)
          · rename_i s2 h2
            split at h
            · exact absurd h (by simp)
            · rename_i v2 s3 h3
              split at h
              · exact absurd h (by simp)
              · rename_i s4 h4
                have e := (((regRead_mem h1).trans_mem (regWrite_mem h2)).trans_mem
                  (regRead_mem h3)).trans_mem (regWrite_mem h4)
                exact setGpi_zeroBelow rfl h (hz.of_heap e.2.2.2)

theorem setMcp23017GpiDirection_zeroBelow {P n i gpi : Nat} {st st1 : State}
    (h : setMcp23017GpiDirection gpi INPUT st = some st1) (hz : ZeroBelow st P n i) :
    ZeroBelow st1 P n i := by
  unfold setMcp23017GpiDirection at h
  split at h
  · exact absurd h (by simp)
  · split at h
    · exact absurd h (by simp)
    · simp only at h
      split at h
      · exact absurd h (by simp)
      · rename_i m _ _ c _ _ v _
        have e := (readMcp_mem c.address (mcpReg MCP23017_REG_IODIR m.offset) st).trans_mem
          (writeMcp_mem c.address (mcpReg MCP23017_REG_IODIR m.offset) v _)
        exact setGpi_zeroBelow rfl h (hz.of_heap e.2.2.2)

theorem rpiAddLoop_pins (dc P n : Nat) :
    ∀ (fuel i : Nat) (st st1 : State), rpiAddLoop dc P fuel i st = some st1 →
      ZeroBelow st P n i →
      ZeroBelow st1 P n (i + fuel) ∧
        (∀ j, j < fuel → st1.gpimap (st.zynGpiCount + j) = { driver := dc, offset := i + j }) ∧
        (∀ q, q < st.zynGpiCount → st1.gpimap q = st.gpimap q) ∧
        (0 < fuel → st.zynGpiCount + fuel ≤ MAX_GPI) := by
  intro fuel
  induction fuel with
  | zero =>
    intro i st st1 h hz
    simp only [rpiAddLoop, Option.some.injEq] at h
    subst h
    exact ⟨hz, fun j hj => absurd hj (by omega), fun _ _ => rfl, fun h => absurd h (by omega)⟩
  | succ k ih =>
    intro i st st1 h hz
    unfold rpiAddLoop at h
    split at h
    · exact absurd h (by simp)
    · rename_i s1 hw
      split at h
      · rename_i hc
        split at h
        · exact absurd h (by simp)
        · rename_i s2 hd
          have z1 := writePin_zero_cell hw hz
          have z2 := setRpiGpiDirection_zeroBelow hd z1
          obtain ⟨a1, a2, a3, -⟩ := writePin_same hw
          obtain ⟨b1, b2, b3, -⟩ := setRpiGpiDirection_same hd
          simp only at b1 b2 b3
          obtain ⟨c1, c2, c3, c4⟩ := ih _ _ _ h z2
          have hc1 : s1.zynGpiCount < 256 := hc
          have hadd : add32 s1.zynGpiCount 1 = s1.zynGpiCount + 1 := by
            unfold add32
            exact Nat.mod_eq_of_lt (show s1.zynGpiCount + 1 < 4294967296 by omega)
          have hcount : s2.zynGpiCount = st.zynGpiCount + 1 := by rw [b3, hadd, a3]
          refine ⟨?_, fun j hj => ?_, fun q hq => ?_, fun _ => ?_⟩
          · rw [show i + (k + 1) = i + 1 + k by omega]
            exact c1
          · cases j with
            | zero =>
              rw [Nat.add_zero, Nat.add_zero, c3 _ (by omega), b2, a3, upd_same]
            | succ j =>
              have := c2 j (by omega)
              rw [hcount] at this
              rw [show st.zynGpiCount + (j + 1) = st.zynGpiCount + 1 + j by omega,
                show i + (j + 1) = i + 1 + j by omega]
              exact this
          · rw [c3 q (by omega), b2, upd_ne _ _ _ _ (by omega), a2]
          · by_cases hk : 0 < k
            · show st.zynGpiCount + (k + 1) ≤ 256
              have : s2.zynGpiCount + k ≤ 256 := c4 hk
              omega
            · show st.zynGpiCount + (k + 1) ≤ 256
              omega
      · exact absurd h (by simp)

theorem mcpAddLoop_pins (dc P n : Nat) :
    ∀ (fuel i : Nat) (st st1 : State), mcpAddLoop dc P fuel i st = some st1 →
      ZeroBelow st P n i →
      ZeroBelow st1 P n (i + fuel) ∧
        (∀ j, j < fuel → st1.gpimap (st.zynGpiCount + j) = { driver := dc, offset := i + j }) ∧
        (∀ q, q < st.zynGpiCount → st1.gpimap q = st.gpimap q) ∧
        (0 < fuel → st.zynGpiCount + fuel ≤ MAX_GPI) := by
  intro fuel
  induction fuel with
  | zero =>
    intro i st st1 h hz
    simp only [mcpAddLoop, Option.some.injEq] at h
    subst h
    exact ⟨hz, fun j hj => absurd hj (by omega), fun _ _ => rfl, fun h => absurd h (by omega)⟩
  | succ k ih =>
    intro i st st1 h hz
    unfold mcpAddLoop at h
    split at h
    · exact absurd h (by simp)
    · rename_i s1 hw
      split at h
      · rename_i hc
        split at h
        · exact absurd h (by simp)
        · rename_i s2 hd
          have z1 := writePin_zero_cell hw hz
          have z2 := setMcp23017GpiDirection_zeroBelow hd z1
          obtain ⟨a1, a2, a3, -⟩ := writePin_same hw
          obtain ⟨b1, b2, b3, -⟩ := setMcp23017GpiDirection_same hd
          simp only at b1 b2 b3
          obtain ⟨c1, c2, c3, c4⟩ := ih _ _ _ h z2
          have hc1 : s1.zynGpiCount < 256 := hc
          have hadd : add32 s1.zynGpiCount 1 = s1.zynGpiCount + 1 := by
            unfold add32
            exact Nat.mod_eq_of_lt (show s1.zynGpiCount + 1 < 4294967296 by omega)
          have hcount : s2.zynGpiCount = st.zynGpiCount + 1 := by rw [b3, hadd, a3]
          refine ⟨?_, fun j hj => ?_, fun q hq => ?_, fun _ => ?_⟩
          · rw [show i + (k + 1) = i + 1 + k by omega]
            exact c1
          · cases j with
            | zero =>
              rw [Nat.add_zero, Nat.add_zero, c3 _ (by omega), b2, a3, upd_same]
            | succ j =>
              have := c2 j (by omega)
              rw [hcount] at this
              rw [show st.zynGpiCount + (j + 1) = st.zynGpiCount + 1 + j by omega,
                show i + (j + 1) = i + 1 + j by omega]
              exact this
          · rw [c3 q (by omega), b2, upd_ne _ _ _ _ (by omega), a2]
          · by_cases hk : 0 < k
            · show st.zynGpiCount + (k + 1) ≤ 256
              have : s2.zynGpiCount + k ≤ 256 := c4 hk
              omega
            · show st.zynGpiCount + (k + 1) ≤ 256
              omega
      · exact absurd h (by simp)

theorem getGpi_eq {st : State} {q k off P : Nat} {blk : List gpi_t} {g : gpi_t}
    (hq : q < MAX_GPI) (hm : st.gpimap q = { driver := k, offset := off })
    (hk : k < MAX_GPI_DRIVERS) (hP : (st.gpiDrivers k).gpis = P) (hb : st.heap P = some blk)
    (hg : blk[off]? = some g) : getGpi st q = some g := by
  unfold getGpi gpiAddr readMap readDriver readPin
  simp only [if_pos hq, hm, if_pos hk, hP, hb, hg]

theorem ZeroBelow.fresh (hp : Nat → Option (List gpi_t)) (st : State) (p n : Nat)
    (h : st.heap = upd hp p (some ((List.range n).map st.fresh))) : ZeroBelow st p n 0 := by
  refine ⟨(List.range n).map st.fresh, by rw [h, upd_same], ?_, fun j hj => absurd hj (by omega)⟩
  rw [List.length_map, List.length_range]

theorem addRpi_pins {fd : Int} {mapOk : Bool} {st st1 : State} {r : Int}
    (h : addRpiGpiDevice fd mapOk st = some (r, st1)) :
    (∃ k, rpiScan st.gpiDrivers MAX_GPI_DRIVERS 0 = .found k) ∨ r = -1 ∨
      ∀ i, i < 32 →
        getGpi st1 (st.zynGpiCount + i) = some { value := 0, enabled := 0, dir := 0 } := by
  unfold addRpiGpiDevice at h
  split at h
  · rename_i k hk
    exact Or.inl ⟨k, hk⟩
  · rename_i k hk
    split at h
    · simp only [Option.some.injEq, Prod.mk.injEq] at h
      exact Or.inr (Or.inl h.1.symm)
    · rename_i hk8
      split at h
      · simp only [Option.some.injEq, Prod.mk.injEq] at h
        exact Or.inr (Or.inl h.1.symm)
      · split at h
        · simp only [Option.some.injEq, Prod.mk.injEq] at h
          exact Or.inr (Or.inl h.1.symm)
        · simp only at h
          split at h
          · exact absurd h (by simp)
          · rename_i s2 hl
            simp only [Option.some.injEq, Prod.mk.injEq] at h
            obtain ⟨-, rfl⟩ := h
            obtain ⟨e1, -⟩ := rpiAddLoop_effect _ _ _ _ _ _ hl
            obtain ⟨⟨blk, c0, -, c1⟩, c2, -, c4⟩ := rpiAddLoop_pins k st.nextPtr 32 _ _ _ _ hl
              (ZeroBelow.fresh st.heap _ _ _ rfl)
            simp only [malloc] at e1 c2 c4
            have hb : st.zynGpiCount + 32 ≤ 256 := c4 (by decide)
            refine Or.inr (Or.inr fun i hi => ?_)
            have hm := c2 i hi
            rw [Nat.zero_add] at hm
            refine getGpi_eq (show st.zynGpiCount + i < 256 by omega) hm
              (show k < 8 from Nat.lt_of_not_le hk8) ?_ c0 (c1 i (show i < 0 + 32 by omega))
            rw [e1, upd_same]

theorem addMcp_pins {address interrupt : Nat} {openResult : Int} {st st1 : State} {r : Int}
    (h : addMcp23017GpiDevice address interrupt openResult st = some (r, st1)) :
    (∃ k, mcpScan st.gpiDrivers address MAX_GPI_DRIVERS 0 = some (.found k)) ∨ r = -1 ∨
      ∀ i, i < 16 →
        getGpi st1 (st.zynGpiCount + i) = some { value := 0, enabled := 0, dir := 0 } := by
  unfold addMcp23017GpiDevice at h
  split at h
  · simp only [Option.some.injEq, Prod.mk.injEq] at h
    exact Or.inr (Or.inl h.1.symm)
  · split at h
    · exact absurd h (by simp)
    · rename_i k hk
      exact Or.inl ⟨k, hk⟩
    · rename_i k hk
      split at h
      · simp only [Option.some.injEq, Prod.mk.injEq] at h
        exact Or.inr (Or.inl h.1.symm)
      · rename_i hk8
        simp only at h
        split at h
        · simp only [Option.some.injEq, Prod.mk.injEq] at h
          exact Or.inr (Or.inl h.1.symm)
        · split at h
          · exact absurd h (by simp)
          · rename_i s3 hl
            simp only [Option.some.injEq, Prod.mk.injEq] at h
            obtain ⟨-, rfl⟩ := h
            obtain ⟨e1, -⟩ := mcpAddLoop_effect _ _ _ _ _ _ hl
            have hS : Same st (writeMcp23017Register address MCP23017_REG_IOCON 224
                (i2cOpen openResult st).2) :=
              (i2cOpen_same _ _).trans (writeMcp_same _ _ _ _)
            obtain ⟨-, -, w3, w4, -⟩ := hS
            obtain ⟨⟨blk, c0, -, c1⟩, c2, -, c4⟩ := mcpAddLoop_pins k _ 16 _ _ _ _ hl
              (ZeroBelow.fresh _ _ _ _ rfl)
            simp only [malloc] at e1 c0 c2 c4
            rw [w3] at c2 c4
            rw [w4] at e1 c0
            have hb : st.zynGpiCount + 16 ≤ 256 := c4 (by decide)
            refine Or.inr (Or.inr fun i hi => ?_)
            have hm := c2 i hi
            rw [Nat.zero_add] at hm
            refine getGpi_eq (show st.zynGpiCount + i < 256 by omega) hm
              (show k < 8 from Nat.lt_of_not_le hk8) ?_ c0 (c1 i (show i < 0 + 16 by omega))
            rw [e1, upd_same]

theorem some_pair_of_fst {α β : Type} (x : Option (α × β)) (dflt : α × β) (a : α)
    (h : x.map Prod.fst = some a) : x = some (a, (x.getD dflt).2) := by
  cases x with
  | none => exact absurd h (by simp)
  | some t =>
    simp only [Option.map_some', Option.some.injEq] at h
    subst h
    rfl

/-! ## Reserved pins, the poll loop, function-select fields, and bounds -/

theorem unavailableGpi_reserved (o : Nat) (h : o = 0 ∨ o = 1 ∨ (28 ≤ o ∧ o ≤ 31)) :
    unavailableGpi[o]? = some 1 := by
  rcases h with h | h | ⟨h1, h2⟩
  · subst h; rfl
  · subst h; rfl
  · interval_cases o <;> rfl

theorem command_byte (address : Nat) (h1 : 0x20 ≤ address) (h2 : address ≤ 0x27) :
    (0x40 ||| (address <<< 1)) % 256 = 2 * address := by
  interval_cases address <;> rfl

theorem fselGen_testBit (v c s b : Nat) (hc : c < 8) (hb : b < 32) :
    ((((v &&& not32 (7 <<< s)) % U32) ||| (c <<< s)) % U32).testBit b
      = if s ≤ b ∧ b < s + 3 then c.testBit (b - s) else v.testBit b := by
  show ((((v &&& not32 (7 <<< s)) % 2 ^ 32) ||| (c <<< s)) % 2 ^ 32).testBit b = _
  rw [Nat.testBit_mod_two_pow, Nat.testBit_or, Nat.testBit_mod_two_pow, Nat.testBit_and,
    testBit_not32 _ _ hb, Nat.testBit_shiftLeft, Nat.testBit_shiftLeft, testBit_seven]
  simp only [hb, decide_True, Bool.true_and]
  by_cases h1 : s ≤ b
  · by_cases h2 : b < s + 3
    · have h3 : b - s < 3 := by omega
      rw [if_pos ⟨h1, h2⟩]
      simp [h1, h3]
    · have h3 : ¬ (b - s < 3) := by omega
      have h6 : ¬ (s ≤ b ∧ b < s + 3) := fun c => h2 c.2
      have h7 : c.testBit (b - s) = false := by
        apply Nat.testBit_lt_two_pow
        have : 2 ^ 3 ≤ 2 ^ (b - s) := Nat.pow_le_pow_right (by decide) (by omega)
        omega
      rw [if_neg h6]
      simp [h1, h3, h7]
  · have h6 : ¬ (s ≤ b ∧ b < s + 3) := fun c => h1 c.1
    rw [if_neg h6]
    simp [h1]

theorem fselGen_field (v c s : Nat) (hc : c < 8) (hs : s + 3 ≤ 32) :
    (((((v &&& not32 (7 <<< s)) % U32) ||| (c <<< s)) % U32) >>> s) % 8 = c := by
  apply Nat.eq_of_testBit_eq
  intro j
  show (_ % 2 ^ 3).testBit j = _
  rw [Nat.testBit_mod_two_pow, Nat.testBit_shiftRight]
  by_cases hj : j < 3
  · rw [fselGen_testBit _ _ _ _ hc (by omega)]
    have h1 : s ≤ s + j ∧ s + j < s + 3 := ⟨by omega, by omega⟩
    rw [if_pos h1]
    simp [hj]
  · have h7 : c.testBit j = false := by
      apply Nat.testBit_lt_two_pow
      have : 2 ^ 3 ≤ 2 ^ j := Nat.pow_le_pow_right (by decide) (by omega)
      omega
    simp [hj, h7]

namespace ribanRpiInterface

theorem mapRead_ok (w : Nat) {o : Obj} (hm : o.m_pGpiMap = true) :
    ∃ o1, mapRead w o = some (o.regs w, o1) ∧ o1.m_pGpiMap = true ∧ o1.regs = o.regs ∧
      o1.log = o.log ++ [.regRead w] := by
  unfold mapRead
  rw [if_pos hm]
  exact ⟨_, rfl, hm, rfl, rfl⟩

theorem mapWrite_ok (w v : Nat) {o : Obj} (hm : o.m_pGpiMap = true) :
    ∃ o1, mapWrite w v o = some o1 ∧ o1.m_pGpiMap = true ∧ o1.regs = upd o.regs w (v % U32) ∧
      o1.log = o.log ++ [.regWrite w (v % U32)] := by
  unfold mapWrite
  rw [if_pos hm]
  exact ⟨_, rfl, hm, rfl, rfl⟩

theorem anUnavailableGpi_available (g : Nat) (h2 : 2 ≤ g) (h31 : g ≤ 31) :
    anUnavailableGpi[g]? = some 0 := by
  interval_cases g <;> rfl

theorem anUnavailableGpi_reserved (g : Nat) (h : g ≤ 1 ∨ (32 ≤ g ∧ g ≤ 53)) :
    anUnavailableGpi[g]? = some 1 := by
  rcases h with h | ⟨h1, h2⟩
  · interval_cases g <;> rfl
  · interval_cases g <;> rfl

end ribanRpiInterface

theorem TableInv.sizeBelow_bound {d : Nat → gpi_driver_t} {count n : Nat} (h : TableInv d count n) :
    ∀ m, m ≤ n →
      (sizeBelow d m ≤ 16 * m ∧ ∀ k, k < m → (d k).type ≠ GPI_DRIVER_RPI) ∨
      (sizeBelow d m ≤ 16 * m + 16 ∧ ∃ j, j < m ∧ (d j).type = GPI_DRIVER_RPI) := by
  intro m
  induction m with
  | zero =>
    intro _
    exact Or.inl ⟨by simp [sizeBelow], fun k hk => absurd hk (by omega)⟩
  | succ m ih =>
    intro hm
    have hu := (h.usedSize_eq m (by omega)).1
    simp only [sizeBelow]
    rcases h.used m (by omega) with ht | ht
    · have hsz := h.rpiSize m (by omega) ht
      rcases ih (by omega) with ⟨a, b⟩ | ⟨a, j, hj, hjt⟩
      · exact Or.inr ⟨by omega, m, by omega, ht⟩
      · have := h.rpiUniq j m (by omega) (by omega) hjt ht
        omega
    · have hsz := h.mcpSize m (by omega) ht
      rcases ih (by omega) with ⟨a, b⟩ | ⟨a, j, hj, hjt⟩
      · refine Or.inl ⟨by omega, fun k hk => ?_⟩
        by_cases hkm : k = m
        · subst hkm
          rw [ht]
          decide
        · exact b k (by omega)
      · exact Or.inr ⟨by omega, j, by omega, hjt⟩

theorem TableInv.count_le {d : Nat → gpi_driver_t} {count n : Nat} (h : TableInv d count n) :
    count ≤ 144 := by
  have hb := h.bound
  simp only [MAX_GPI_DRIVERS] at hb
  have := h.sizeBelow_bound n (Nat.le_refl _)
  rw [h.cnt]
  rcases this with ⟨a, -⟩ | ⟨a, -⟩ <;> omega

theorem shiftMap_some (size : Nat) :
    ∀ (fuel i : Nat) (m : Nat → gpi_map_t), (fuel = 0 ∨ i + fuel + size ≤ 256) →
      (shiftMap size fuel i m).isSome = true := by
  intro fuel
  induction fuel with
  | zero => intro i m _; rfl
  | succ n ih =>
    intro i m h
    have hb : i + (n + 1) + size ≤ 256 := by
      rcases h with h | h
      · omega
      · exact h
    have hadd : add32 i size = i + size := by
      unfold add32
      exact Nat.mod_eq_of_lt (show i + size < 4294967296 by omega)
    have hg : i < MAX_GPI ∧ add32 i size < MAX_GPI := by
      rw [hadd]
      show i < 256 ∧ i + size < 256
      omega
    unfold shiftMap
    rw [if_pos hg]
    exact ih _ _ (Or.inr (by omega))

/-! ## Evaluations at concrete inputs -/

/-- C1: the scenario of the claim, native backend first and then an expander.
The native registration returns with 32 pins; the expander registration that
follows does not return: its pin loop calls `setMcp23017GpiDirection(0, INPUT)`,
flat pin 0 belongs to the native slot, `getMcp23017Config` gives the null
pointer for it and its `address` field is read. -/
theorem addMcp_after_native_faults :
    (run [.addRpi 3 true] init).map (fun st => (getCount st, getMcp23017Config st (st.gpimap 0).driver))
        = some (32, none) ∧
      run [.addRpi 3 true, .addMcp 0x20 0 4] init = none := by
  constructor <;> rfl

/-- C2: the registry with expanders in slots 0 and 1 is reachable and
consistent, and flat pin 24 resolves to slot 1, local offset 8; after
`removeGpiDevice(0)` the pin count is 16 and flat pin 8 resolves to slot 1
with offset `8 - 16` as a `uint32_t`, not to slot 0, offset 8. -/
theorem remove_retargets_wrongly :
    (run twoExpanders init).isSome = true ∧ Consistent (stateAfter twoExpanders) ∧
      (stateAfter twoExpanders).gpimap 24 = { driver := 1, offset := 8 } ∧
      (removeGpiDevice 0 (stateAfter twoExpanders)).map (fun st => (getCount st, st.gpimap 8))
        = some (16, { driver := 1, offset := 4294967288 }) := by
  refine ⟨by decide!, ?_, by decide!, by decide!⟩
  unfold Consistent MapConsistent Layout DistinctArrays
  decide!

/-- C3: a reachable state whose index map is not consistent: after two
expander registrations and the removal of slot 0, flat pin 0 resolves to the
now empty slot 1. -/
theorem map_consistency_not_invariant : ∃ st, Reachable st ∧ ¬ MapConsistent st := by
  have h : (run removeFirstOfTwo init).isSome = true := by rfl
  obtain ⟨st, hst⟩ := Option.isSome_iff_exists.mp h
  refine ⟨st, ⟨removeFirstOfTwo, hst⟩, fun hc => ?_⟩
  have h2 : (run removeFirstOfTwo init).map
      (fun t => (getCount t, (t.gpimap 0).driver, (t.gpiDrivers 1).type)) = some (16, 1, 0) := by rfl
  rw [hst] at h2
  simp only [Option.map_some', Option.some.injEq, Prod.mk.injEq] at h2
  obtain ⟨h3, h4, h5⟩ := h2
  have h6 := (hc 0 (by omega)).2.1
  rw [h4] at h6
  exact h6 h5

/-- C4: a reachable state with a valid flat pin 0 on which `setState(0, 1)`
does not complete: the pin resolves to an empty slot whose `setState`
capability is the null pointer. -/
theorem setState_faults_after_remove :
    ∃ st, Reachable st ∧ 0 < getCount st ∧ setState 0 1 st = none := by
  have h : (run removeFirstOfTwo init).isSome = true := by rfl
  obtain ⟨st, hst⟩ := Option.isSome_iff_exists.mp h
  refine ⟨st, ⟨removeFirstOfTwo, hst⟩, ?_, ?_⟩
  · have h2 : (run removeFirstOfTwo init).map getCount = some 16 := by rfl
    rw [hst] at h2
    simp only [Option.map_some', Option.some.injEq] at h2
    omega
  · have h2 : ((run removeFirstOfTwo init).bind (setState 0 1)).isNone = true := by decide!
    rw [hst] at h2
    simpa using h2

/-! ## Out-of-range pins and failed registrations -/

/-- C8: for every state and every flat pin number `p` with `p >= getCount()`,
`getState`, `isEnabled`, `getDirection` and `enableGpi` return 0, and
`enableGpi`, `setState`, `setDirection` and `setPull` return with the state
(driver table, index map, pin count, pin arrays, registers, hardware log)
exactly as it was. -/
theorem out_of_range_pin_is_ignored (st : State) (p : Nat) (h : p ≥ getCount st) :
    getState p st = some 0 ∧ isEnabled p st = some 0 ∧ getDirection p st = some 0 ∧
      (∀ enable, enableGpi p enable st = some (0, st)) ∧
      (∀ state, setState p state st = some st) ∧
      (∀ dir, setDirection p dir st = some st) ∧
      (∀ mode, setPull p mode st = some st) := by
  have h1 : p ≥ st.zynGpiCount := h
  refine ⟨?_, ?_, ?_, ?_, ?_, ?_, ?_⟩
  · simp [getState, h1]
  · simp [isEnabled, h1]
  · simp [getDirection, h1]
  · intro enable; simp [enableGpi, h1]
  · intro state; simp [setState, h1]
  · intro dir; simp [setDirection, h1]
  · intro mode; simp [setPull, h1]

/-- C9: whenever `addRpiGpiDevice` or `addMcp23017GpiDevice` returns -1, the
driver table, the index map, the pin count and the pin arrays are exactly as
before the call. -/
theorem failed_registration_is_atomic (st st1 : State) :
    (∀ fd mapOk, addRpiGpiDevice fd mapOk st = some (-1, st1) →
        st1.gpiDrivers = st.gpiDrivers ∧ st1.gpimap = st.gpimap ∧
          getCount st1 = getCount st ∧ st1.heap = st.heap) ∧
      (∀ address interrupt openResult,
        addMcp23017GpiDevice address interrupt openResult st = some (-1, st1) →
        st1.gpiDrivers = st.gpiDrivers ∧ st1.gpimap = st.gpimap ∧
          getCount st1 = getCount st ∧ st1.heap = st.heap) := by
  constructor
  · intro fd mapOk h
    unfold addRpiGpiDevice at h
    split at h
    · simp only [Option.some.injEq, Prod.mk.injEq] at h
      omega
    · split at h
      · simp only [Option.some.injEq, Prod.mk.injEq] at h
        obtain ⟨-, rfl⟩ := h
        exact ⟨rfl, rfl, rfl, rfl⟩
      · split at h
        · simp only [Option.some.injEq, Prod.mk.injEq] at h
          obtain ⟨-, rfl⟩ := h
          exact ⟨rfl, rfl, rfl, rfl⟩
        · split at h
          · simp only [Option.some.injEq, Prod.mk.injEq] at h
            obtain ⟨-, rfl⟩ := h
            exact ⟨rfl, rfl, rfl, rfl⟩
          · simp only at h
            split at h
            · exact absurd h (by simp)
            · simp only [Option.some.injEq, Prod.mk.injEq] at h
              omega
  · intro address interrupt openResult h
    unfold addMcp23017GpiDevice at h
    split at h
    · simp only [Option.some.injEq, Prod.mk.injEq] at h
      obtain ⟨-, rfl⟩ := h
      exact ⟨rfl, rfl, rfl, rfl⟩
    · split at h
      · exact absurd h (by simp)
      · simp only [Option.some.injEq, Prod.mk.injEq] at h
        omega
      · split at h
        · simp only [Option.some.injEq, Prod.mk.injEq] at h
          obtain ⟨-, rfl⟩ := h
          exact ⟨rfl, rfl, rfl, rfl⟩
        · simp only [i2cOpen] at h
          split at h
          · simp only at h
            split at h
            · simp only [Option.some.injEq, Prod.mk.injEq] at h
              obtain ⟨-, rfl⟩ := h
              exact ⟨rfl, rfl, rfl, rfl⟩
            · split at h
              · exact absurd h (by simp)
              · simp only [Option.some.injEq, Prod.mk.injEq] at h
                omega
          · simp only at h
            split at h
            · simp only [Option.some.injEq, Prod.mk.injEq] at h
              obtain ⟨-, rfl⟩ := h
              exact ⟨rfl, rfl, rfl, rfl⟩
            · split at h
              · exact absurd h (by simp)
              · simp only [Option.some.injEq, Prod.mk.injEq] at h
                omega

/-- Witness of C8: the native backend alone (32 pins), flat pin 32. -/
theorem out_of_range_pin_is_ignored_witness :
    getState 32 (stateAfter [.addRpi 3 true]) = some 0 ∧
      isEnabled 32 (stateAfter [.addRpi 3 true]) = some 0 ∧
      getDirection 32 (stateAfter [.addRpi 3 true]) = some 0 ∧
      (∀ enable, enableGpi 32 enable (stateAfter [.addRpi 3 true])
        = some (0, stateAfter [.addRpi 3 true])) ∧
      (∀ state, setState 32 state (stateAfter [.addRpi 3 true]) = some (stateAfter [.addRpi 3 true])) ∧
      (∀ dir, setDirection 32 dir (stateAfter [.addRpi 3 true])
        = some (stateAfter [.addRpi 3 true])) ∧
      (∀ mode, setPull 32 mode (stateAfter [.addRpi 3 true]) = some (stateAfter [.addRpi 3 true])) :=
  out_of_range_pin_is_ignored (stateAfter [.addRpi 3 true]) 32 (by decide!)

/-- Witness of C9: on the initial state, a native registration whose `mmap`
fails and an expander registration whose bus cannot be opened both return -1,
and the driver table and the pin arrays are as before. -/
theorem failed_registration_is_atomic_witness :
    (addRpiGpiDevice 3 false init = some (-1, { init with gpiMmap := false }) ∧
        ({ init with gpiMmap := false } : State).gpiDrivers = init.gpiDrivers) ∧
      (addMcp23017GpiDevice 0x20 0 (-1) init = some (-1, { init with i2cFd := -1 }) ∧
        ({ init with i2cFd := -1 } : State).heap = init.heap) :=
  ⟨⟨rfl, ((failed_registration_is_atomic init { init with gpiMmap := false }).1 3 false rfl).1⟩,
   ⟨by simp [addMcp23017GpiDevice, mcpScan, init, emptyDriver, i2cOpen],
    ((failed_registration_is_atomic init { init with i2cFd := -1 }).2 0x20 0 (-1)
      (by simp [addMcp23017GpiDevice, mcpScan, init, emptyDriver, i2cOpen])).2.2.2⟩⟩

/-! ## Removal leaves what comes before alone -/

/-- What a removal leaves alone: `removeGpiDevice(s)` with `s >= 8` returns
and changes nothing.  For `s < 8`, when it returns: every slot record `j < s` is unchanged; every pin
array other than the removed slot's is unchanged; `gpimap[p]` is unchanged for
every flat pin `p` below the removed backend's base offset; such a pin that is
owned by a slot before `s` whose pin array is not the removed one has the same
cached value, enabled flag and direction as before; and in a consistent
registry every pin below the base offset of a non-empty slot `s` is such a pin. -/
theorem remove_frame (st : State) (s : Nat) :
    (s ≥ MAX_GPI_DRIVERS → removeGpiDevice s st = some st) ∧
      ∀ st1, removeGpiDevice s st = some st1 → s < MAX_GPI_DRIVERS →
        (∀ j, j < s → st1.gpiDrivers j = st.gpiDrivers j) ∧
        (∀ q, q ≠ (st.gpiDrivers s).gpis → st1.heap q = st.heap q) ∧
        (∀ p, p < (st.gpiDrivers s).offset → st1.gpimap p = st.gpimap p) ∧
        (∀ p, p < (st.gpiDrivers s).offset → (st.gpimap p).driver < s →
          (st.gpiDrivers (st.gpimap p).driver).gpis ≠ (st.gpiDrivers s).gpis →
          getGpi st1 p = getGpi st p) ∧
        (Consistent st → (st.gpiDrivers s).type ≠ GPI_DRIVER_NONE →
          ∀ p, p < (st.gpiDrivers s).offset →
            st1.gpimap p = st.gpimap p ∧ getGpi st1 p = getGpi st p) := by
  constructor
  · intro hge
    unfold removeGpiDevice
    rw [if_pos hge]
  · intro st1 h hs
    have hdrv : ∀ j, j < s → st1.gpiDrivers j = st.gpiDrivers j := by
      intro j hj
      rw [(remove_effect h hs).1, resetDriver_ne _ _ _ (by omega), shiftDrivers_lt _ _ _ _ _ hj]
    obtain ⟨hheap, hmap⟩ := remove_frame_parts h hs
    have hpin : ∀ p, p < (st.gpiDrivers s).offset → (st.gpimap p).driver < s →
        (st.gpiDrivers (st.gpimap p).driver).gpis ≠ (st.gpiDrivers s).gpis →
        getGpi st1 p = getGpi st p :=
      fun p hp hk hne => getGpi_congr (hmap p hp) (hdrv _ hk) (hheap _ hne)
    refine ⟨hdrv, hheap, hmap, hpin, ?_⟩
    intro hc ht p hp
    obtain ⟨o1, o2⟩ := owner_before hc hs ht hp
    exact ⟨hmap p hp, hpin p hp o1 o2⟩

/-! ## Invariants of the driver table -/

/-- C5: in every state reachable from the initial table, if slot `k` is
empty then every slot `j` with `k < j < 8` is empty. -/
theorem dense_packing_invariant (st : State) (h : Reachable st) : Dense st := by
  obtain ⟨n, hn⟩ := reachable_inv h
  exact hn.dense

/-- Witness of C5: two expanders and the native backend, the middle slot removed. -/
theorem dense_packing_invariant_witness : Dense (stateAfter removeMiddleOfThree) :=
  dense_packing_invariant _ (reachable_stateAfter removeMiddleOfThree (by decide!))

/-- The layout of the driver table: in every reachable state the pin count
is the sum of the sizes of the non-empty slots and the base offset of each
non-empty slot is the sum of the sizes of the non-empty slots before it; a
registration that returns a slot that was empty adds exactly 32 (native) or 16
(expander) to the count, and a removal of a non-empty slot, when it returns,
subtracts exactly its size. -/
theorem layout_invariant (st : State) (h : Reachable st) :
    Layout st ∧
      (∀ fd mapOk r st1, addRpiGpiDevice fd mapOk st = some (r, st1) → 0 ≤ r →
        (st.gpiDrivers r.toNat).type = GPI_DRIVER_NONE → getCount st1 = getCount st + 32) ∧
      (∀ address interrupt openResult r st1,
        addMcp23017GpiDevice address interrupt openResult st = some (r, st1) → 0 ≤ r →
        (st.gpiDrivers r.toNat).type = GPI_DRIVER_NONE → getCount st1 = getCount st + 16) ∧
      (∀ driver st1, driver < MAX_GPI_DRIVERS → (st.gpiDrivers driver).type ≠ GPI_DRIVER_NONE →
        removeGpiDevice driver st = some st1 →
        getCount st1 + (st.gpiDrivers driver).size = getCount st) := by
  obtain ⟨n, hn⟩ := reachable_inv h
  refine ⟨hn.layout, ?_, ?_, ?_⟩
  · intro fd mapOk r st1 hr hr0 hnone
    rcases addRpi_effect hr with ⟨k, hk, rfl, rfl⟩ | ⟨rfl, -⟩ |
      ⟨k, x, -, -, -, -, -, -, -, e2, -⟩
    · have := (rpiScan_found_inv _ _ _ _ hk).1
      rw [Int.toNat_ofNat, this] at hnone
      exact absurd hnone (by decide)
    · omega
    · exact e2
  · intro address interrupt openResult r st1 hr hr0 hnone
    rcases addMcp_effect hr with ⟨k, hk, -, -, rfl, rfl⟩ | ⟨rfl, -⟩ |
      ⟨k, x, -, -, -, -, -, -, -, -, -, -, e2, -⟩
    · have := (mcpScan_found_inv _ _ _ _ _ hk).1
      rw [Int.toNat_ofNat, this] at hnone
      exact absurd hnone (by decide)
    · omega
    · exact e2
  · intro driver st1 hd ht hr
    have hdn := hn.lt_of_used hd ht
    have e := (remove_effect hr hd).2.1
    have u := hn.usedSize_eq driver hdn
    have m := sizeBelow_mono st.gpiDrivers (driver + 1) n (by omega)
    have c := hn.cnt
    have b := hn.sizeBelow_lt n (Nat.le_refl _)
    simp only [sizeBelow] at m
    show st1.zynGpiCount + (st.gpiDrivers driver).size = st.zynGpiCount
    rw [e, sub32_eq _ _ (by omega) (by simp only [U32]; omega)]
    omega

/-! ## Registering a device again -/

/-- C10: in every reachable state, `addRpiGpiDevice` called when slot `k`
hosts the native backend, and `addMcp23017GpiDevice(a, i)` called when slot `k`
hosts an expander with address `a`, return `k` and leave the whole state
unchanged; hence after a registration that returned a slot, the same
registration returns the same slot and changes nothing. -/
theorem reregistration_is_idempotent (st : State) (h : Reachable st) :
    (∀ k, k < MAX_GPI_DRIVERS → (st.gpiDrivers k).type = GPI_DRIVER_RPI →
        ∀ fd mapOk, addRpiGpiDevice fd mapOk st = some ((k : Int), st)) ∧
      (∀ k c, k < MAX_GPI_DRIVERS → (st.gpiDrivers k).type = GPI_DRIVER_MCP23017 →
        (st.gpiDrivers k).config = some c →
        ∀ interrupt openResult,
          addMcp23017GpiDevice c.address interrupt openResult st = some ((k : Int), st)) ∧
      (∀ fd mapOk r st1, addRpiGpiDevice fd mapOk st = some (r, st1) → 0 ≤ r →
        ∀ fd2 mapOk2, addRpiGpiDevice fd2 mapOk2 st1 = some (r, st1)) ∧
      (∀ address interrupt openResult r st1,
        addMcp23017GpiDevice address interrupt openResult st = some (r, st1) → 0 ≤ r →
        ∀ interrupt2 openResult2,
          addMcp23017GpiDevice address interrupt2 openResult2 st1 = some (r, st1)) := by
  obtain ⟨n, hn⟩ := reachable_inv h
  refine ⟨fun k hk ht fd mapOk => hn.idem_rpi k hk ht fd mapOk,
    fun k c hk ht hc interrupt openResult => hn.idem_mcp k hk c ht hc interrupt openResult, ?_, ?_⟩
  · intro fd mapOk r st1 hr hr0 fd2 mapOk2
    obtain ⟨n1, hn1⟩ := addRpi_inv hr hn
    rcases addRpi_effect hr with ⟨k, hk, rfl, rfl⟩ | ⟨rfl, -⟩ |
      ⟨k, x, -, hk8, rfl, e1, xt, -⟩
    · obtain ⟨t, -, b⟩ := rpiScan_found_inv _ _ _ _ hk
      exact hn.idem_rpi k (by omega) t fd2 mapOk2
    · omega
    · exact hn1.idem_rpi k hk8 (by rw [e1, upd_same]; exact xt) fd2 mapOk2
  · intro address interrupt openResult r st1 hr hr0 interrupt2 openResult2
    obtain ⟨n1, hn1⟩ := addMcp_inv hr hn
    rcases addMcp_effect hr with ⟨k, hk, -, -, rfl, rfl⟩ | ⟨rfl, -⟩ |
      ⟨k, x, -, hk8, -, -, rfl, e1, xt, -, -, xc, -⟩
    · obtain ⟨t, ⟨c, hc, hca⟩, -, b⟩ := mcpScan_found_inv _ _ _ _ _ hk
      have := hn.idem_mcp k (by omega) c t hc interrupt2 openResult2
      rw [hca] at this
      exact this
    · omega
    · exact hn1.idem_mcp k hk8 { address := address, interrupt := interrupt }
        (by rw [e1, upd_same]; exact xt) (by rw [e1, upd_same]; exact xc) interrupt2 openResult2

/-- Witness of C10: with an expander at address 0x20 in slot 0 and the native
backend in slot 1, registering either again returns its slot and the same state. -/
theorem reregistration_is_idempotent_witness :
    addRpiGpiDevice 3 true (stateAfter expanderThenNative)
        = some (1, stateAfter expanderThenNative) ∧
      addMcp23017GpiDevice 0x20 9 4 (stateAfter expanderThenNative)
        = some (0, stateAfter expanderThenNative) :=
  ⟨(reregistration_is_idempotent _ (reachable_stateAfter expanderThenNative (by decide!))).1
      1 (by decide) (by decide!) 3 true,
   (reregistration_is_idempotent _ (reachable_stateAfter expanderThenNative (by decide!))).2.1
      0 { address := 0x20, interrupt := 0 } (by decide) (by decide!) (by decide!) 9 4⟩

/-! ## Return value of the expander registration -/

/-- C11: after the native backend has been registered (slot 0), a call
`addMcp23017GpiDevice(0x20, 0)` has an address within 0x20..0x27, no slot hosts
an expander, slot 1 is empty and the bus opens; the call neither returns -1 nor
a slot index: it does not return (see C1). -/
theorem addMcp_valid_call_does_not_return :
    (run nativeOnly init).isSome = true ∧
      (∀ k, k < MAX_GPI_DRIVERS →
        ((stateAfter nativeOnly).gpiDrivers k).type ≠ GPI_DRIVER_MCP23017) ∧
      ((stateAfter nativeOnly).gpiDrivers 1).type = GPI_DRIVER_NONE ∧
      (addMcp23017GpiDevice 0x20 0 4 (stateAfter nativeOnly)).isNone = true := by
  refine ⟨by decide!, by decide!, by decide!, by decide!⟩

/-! ## Operations on pins -/

/-- C12: `enableGpi`, `setState`, `setDirection`, `setPull` and `pollRpiGpi`,
for all arguments and in every state, leave the index map, the driver table
(so every slot's type, size and base offset) and the pin count as they were
when they return.  (`getState`, `isEnabled`, `getDirection` and
`getEnabledCount` only read: they return a value and no state.) -/
theorem ownership_is_stable (st st1 : State) :
    (∀ gpi enable r, enableGpi gpi enable st = some (r, st1) →
        st1.gpimap = st.gpimap ∧ st1.gpiDrivers = st.gpiDrivers ∧ getCount st1 = getCount st) ∧
      (∀ gpi state, setState gpi state st = some st1 →
        st1.gpimap = st.gpimap ∧ st1.gpiDrivers = st.gpiDrivers ∧ getCount st1 = getCount st) ∧
      (∀ gpi dir, setDirection gpi dir st = some st1 →
        st1.gpimap = st.gpimap ∧ st1.gpiDrivers = st.gpiDrivers ∧ getCount st1 = getCount st) ∧
      (∀ gpi mode, setPull gpi mode st = some st1 →
        st1.gpimap = st.gpimap ∧ st1.gpiDrivers = st.gpiDrivers ∧ getCount st1 = getCount st) ∧
      (∀ driver r, pollRpiGpi driver st = some (r, st1) →
        st1.gpimap = st.gpimap ∧ st1.gpiDrivers = st.gpiDrivers ∧ getCount st1 = getCount st) := by
  have key : ∀ {t : State}, Same st t →
      t.gpimap = st.gpimap ∧ t.gpiDrivers = st.gpiDrivers ∧ getCount t = getCount st :=
    fun h => ⟨h.2.1, h.1, h.2.2.1⟩
  exact ⟨fun _ _ _ h => key (enableGpi_same h), fun _ _ h => key (setState_same h),
    fun _ _ h => key (setDirection_same h), fun _ _ h => key (setPull_same h),
    fun _ _ h => key (pollRpiGpi_same h)⟩

/-- Witness of C12: an expander and the native backend; `setState(20, 1)` and a
poll of slot 1 return and leave map, table and count alone. -/
theorem ownership_is_stable_witness :
    (((setState 20 1 (stateAfter expanderThenNative)).getD init).gpimap
        = (stateAfter expanderThenNative).gpimap ∧
      ((setState 20 1 (stateAfter expanderThenNative)).getD init).gpiDrivers
        = (stateAfter expanderThenNative).gpiDrivers ∧
      getCount ((setState 20 1 (stateAfter expanderThenNative)).getD init)
        = getCount (stateAfter expanderThenNative)) ∧
      (((pollRpiGpi 1 (stateAfter expanderThenNative)).getD (0, init)).2.gpimap
        = (stateAfter expanderThenNative).gpimap ∧
      ((pollRpiGpi 1 (stateAfter expanderThenNative)).getD (0, init)).2.gpiDrivers
        = (stateAfter expanderThenNative).gpiDrivers ∧
      getCount ((pollRpiGpi 1 (stateAfter expanderThenNative)).getD (0, init)).2
        = getCount (stateAfter expanderThenNative)) :=
  ⟨(ownership_is_stable (stateAfter expanderThenNative) _).2.1 20 1
      (some_getD_of_isSome _ init (by decide!)),
   (ownership_is_stable (stateAfter expanderThenNative) _).2.2.2.2 1 _
      (some_getD_of_isSome _ (0, init) (by decide!))⟩

/-- C13: with the native backend registered, flat pin 5 is valid; after
`setState(5, 2)` an immediately following `getState(5)` returns 0, not 1: the
backend is given `state?1:0`, but the cache gets `state` itself, stored in a
one-bit field.  After `setState(5, 1)` it returns 1. -/
theorem setState_two_reads_back_zero :
    (run nativeOnly init).isSome = true ∧ 5 < getCount (stateAfter nativeOnly) ∧
      (setState 5 2 (stateAfter nativeOnly)).bind (getState 5) = some 0 ∧
      (setState 5 1 (stateAfter nativeOnly)).bind (getState 5) = some 1 := by
  refine ⟨by decide!, by decide!, by decide!, by decide!⟩

/-- Enabling a pin that resolves: for every flat pin `p` below the pin count
for which `getGpi(p)` designates an element of a live pin array, `enableGpi(p, 1)` returns 1 and
`isEnabled(p)` is 1 afterwards, and `enableGpi(p, 0)` returns 1 and
`isEnabled(p)` is 0 afterwards, whatever the flag was. -/
theorem enable_then_isEnabled (st : State) (p : Nat) (hp : p < getCount st)
    (hr : (getGpi st p).isSome = true) :
    (∃ st1, enableGpi p 1 st = some (1, st1) ∧ isEnabled p st1 = some 1) ∧
      (∃ st0, enableGpi p 0 st = some (1, st0) ∧ isEnabled p st0 = some 0) := by
  obtain ⟨g, hg⟩ := Option.isSome_iff_exists.mp hr
  have hp1 : ¬ p ≥ st.zynGpiCount := fun c => by
    have : p < st.zynGpiCount := hp
    omega
  have main : ∀ e, ∃ t, enableGpi p e st = some (1, t) ∧ isEnabled p t = some (e % 2) := by
    intro e
    obtain ⟨t, ht⟩ := setGpi_of_get (fun g => { g with enabled := e % 2 }) hg
    obtain ⟨g1, hg1, hg2, -, -, -, hc, -⟩ := setGpi_spec ht
    refine ⟨t, ?_, ?_⟩
    · unfold enableGpi
      rw [if_neg hp1, ht]
    · unfold isEnabled
      rw [hc, if_neg hp1, hg2]
  exact ⟨main 1, main 0⟩

/-- What `enableGpi` leaves alone: when `enableGpi(p, flag)` returns,
`getDirection(q)` and `getState(q)` are unchanged for every `q`, the registers, the hardware log, the index map,
the driver table and the pin count are unchanged, and `isEnabled(q)` is
unchanged for every `q` that does not designate the same array element as `p`,
which in a consistent registry is every `q` different from `p`. -/
theorem enable_changes_only_enabled (st st1 : State) (p flag r : Nat)
    (h : enableGpi p flag st = some (r, st1)) :
    (∀ q, getDirection q st1 = getDirection q st ∧ getState q st1 = getState q st) ∧
      (∀ q, gpiAddr st q ≠ gpiAddr st p → isEnabled q st1 = isEnabled q st) ∧
      (Consistent st → ∀ q, q ≠ p → isEnabled q st1 = isEnabled q st) ∧
      st1.regs = st.regs ∧ st1.log = st.log ∧ st1.gpiDrivers = st.gpiDrivers ∧
      st1.gpimap = st.gpimap ∧ getCount st1 = getCount st := by
  unfold enableGpi at h
  split at h
  · simp only [Option.some.injEq, Prod.mk.injEq] at h
    obtain ⟨-, rfl⟩ := h
    exact ⟨fun _ => ⟨rfl, rfl⟩, fun _ _ => rfl, fun _ _ _ => rfl, rfl, rfl, rfl, rfl, rfl⟩
  · rename_i hp
    split at h
    · exact absurd h (by simp)
    · rename_i t ht
      simp only [Option.some.injEq, Prod.mk.injEq] at h
      obtain ⟨-, rfl⟩ := h
      obtain ⟨g, hg, -, hall, hd, hm, hc, hregs, hlog, -⟩ := setGpi_spec ht
      have hother : ∀ q, gpiAddr st q ≠ gpiAddr st p → isEnabled q t = isEnabled q st := by
        intro q hq
        unfold isEnabled
        rw [hc, hall q, if_neg hq]
      refine ⟨fun q => ?_, hother, ?_, hregs, hlog, hd, hm, hc⟩
      · unfold getDirection getState
        rw [hc, hall q]
        by_cases ha : gpiAddr st q = gpiAddr st p
        · have hq : getGpi st q = some g := by
            unfold getGpi at hg ⊢
            rw [ha]
            exact hg
          rw [if_pos ha, hq]
          exact ⟨rfl, rfl⟩
        · rw [if_neg ha]
          exact ⟨rfl, rfl⟩
      · intro hcons q hne
        by_cases hq : q < getCount st
        · have hp256 : p < MAX_GPI := by
            by_contra hge
            have : gpiAddr st p = none := by
              unfold gpiAddr readMap
              rw [if_neg hge]
            have hnone : getGpi st p = none := by
              unfold getGpi
              rw [this]
            rw [hnone] at hg
            exact absurd hg (by simp)
          exact hother q (owner_distinct hcons (Nat.lt_of_not_le hp) hp256 hq hne)
        · have hq1 : q ≥ st.zynGpiCount := Nat.le_of_not_lt hq
          unfold isEnabled
          rw [hc, if_pos hq1, if_pos hq1]

/-- C16: a reachable state in which `getEnabledCount()` has no value: after two
expander registrations and the removal of slot 0, `getCount()` is 16, and the
scan faults at flat pin 0, whose `isEnabled(0)` reads through the null pin array
of the empty slot 1 (the defect of C2 and C3). -/
theorem enabled_count_faults_after_remove :
    (run removeFirstOfTwo init).isSome = true ∧
      getCount (stateAfter removeFirstOfTwo) = 16 ∧
      (isEnabled 0 (stateAfter removeFirstOfTwo)).isNone = true ∧
      (getEnabledCount (stateAfter removeFirstOfTwo)).isNone = true := by
  refine ⟨by decide!, by decide!, by decide!, by decide!⟩

/-! ## Freshly registered pins -/

/-- C17: when `addRpiGpiDevice` or `addMcp23017GpiDevice` returns a slot index
`r` whose slot was empty before the call (the backend is newly registered),
whatever the allocated memory held, the slot holds 32 pins (native) or 16 pins
(expander) from the former pin count on, the pin count has grown by as many,
and every flat pin `p` of that slot, from its base offset up to base offset
plus size, is below the new pin count, designates an array element whose three
fields are 0, and has `isEnabled(p) = 0`, `getDirection(p) = 0` and
`getState(p) = 0`. -/
theorem new_pins_are_disabled_inputs (st st1 : State) (r : Int) (hr : 0 ≤ r)
    (hnew : (st.gpiDrivers r.toNat).type = GPI_DRIVER_NONE) :
    (∀ fd mapOk, addRpiGpiDevice fd mapOk st = some (r, st1) →
      (st1.gpiDrivers r.toNat).offset = getCount st ∧ (st1.gpiDrivers r.toNat).size = 32 ∧
      getCount st1 = getCount st + 32 ∧
      ∀ p, (st1.gpiDrivers r.toNat).offset ≤ p →
        p < (st1.gpiDrivers r.toNat).offset + (st1.gpiDrivers r.toNat).size →
        p < getCount st1 ∧ getGpi st1 p = some { value := 0, enabled := 0, dir := 0 } ∧
        isEnabled p st1 = some 0 ∧ getDirection p st1 = some 0 ∧ getState p st1 = some 0) ∧
      (∀ address interrupt openResult,
        addMcp23017GpiDevice address interrupt openResult st = some (r, st1) →
        (st1.gpiDrivers r.toNat).offset = getCount st ∧ (st1.gpiDrivers r.toNat).size = 16 ∧
        getCount st1 = getCount st + 16 ∧
        ∀ p, (st1.gpiDrivers r.toNat).offset ≤ p →
          p < (st1.gpiDrivers r.toNat).offset + (st1.gpiDrivers r.toNat).size →
          p < getCount st1 ∧ getGpi st1 p = some { value := 0, enabled := 0, dir := 0 } ∧
          isEnabled p st1 = some 0 ∧ getDirection p st1 = some 0 ∧ getState p st1 = some 0) := by
  have hneg : r ≠ -1 := fun c => by omega
  have fin : ∀ (n : Nat), st1.zynGpiCount = st.zynGpiCount + n →
      (∀ i, i < n →
        getGpi st1 (st.zynGpiCount + i) = some { value := 0, enabled := 0, dir := 0 }) →
      ∀ p, st.zynGpiCount ≤ p → p < st.zynGpiCount + n →
        p < getCount st1 ∧ getGpi st1 p = some { value := 0, enabled := 0, dir := 0 } ∧
        isEnabled p st1 = some 0 ∧ getDirection p st1 = some 0 ∧ getState p st1 = some 0 := by
    intro n hc hz p h1 h2
    have hp : ¬ p ≥ st1.zynGpiCount := by omega
    have hlt : p < getCount st1 := by
      show p < st1.zynGpiCount
      omega
    have hg := hz (p - st.zynGpiCount) (by omega)
    rw [show st.zynGpiCount + (p - st.zynGpiCount) = p by omega] at hg
    refine ⟨hlt, hg, ?_⟩
    unfold isEnabled getDirection getState
    simp only [if_neg hp, hg, and_self]
  constructor
  · intro fd mapOk h
    rcases addRpi_effect h with ⟨k, hk, rfl, -⟩ | ⟨h1, -⟩ | ⟨k, x, -, -, rfl, hd, -, hs, ho, hc, -⟩
    · have := (rpiScan_found_inv _ _ _ _ hk).1
      rw [Int.toNat_ofNat, this] at hnew
      exact absurd hnew (by decide)
    · exact absurd h1 hneg
    · rw [Int.toNat_ofNat, hd, upd_same, ho, hs]
      rcases addRpi_pins h with ⟨j, hj⟩ | h1 | hz
      · have := (rpiScan_found_inv _ _ _ _ hj).1
        have hk2 := addRpi_effect h
        rcases hk2 with ⟨k2, hk2, e2, -⟩ | ⟨h1, -⟩ | ⟨k2, x2, hk2, -⟩
        · rw [hj] at hk2
          simp only [Scan.found.injEq] at hk2
          subst hk2
          have e3 : k = j := by omega
          subst e3
          rw [Int.toNat_ofNat, this] at hnew
          exact absurd hnew (by decide)
        · exact absurd h1 hneg
        · rw [hj] at hk2
          exact absurd hk2 (by simp)
      · exact absurd h1 hneg
      · exact ⟨rfl, rfl, hc, fin 32 hc hz⟩
  · intro address interrupt openResult h
    rcases addMcp_effect h with ⟨k, hk, -, -, rfl, -⟩ | ⟨h1, -⟩ |
      ⟨k, x, -, -, -, -, rfl, hd, -, hs, ho, -, hc, -⟩
    · have := (mcpScan_found_inv _ _ _ _ _ hk).1
      rw [Int.toNat_ofNat, this] at hnew
      exact absurd hnew (by decide)
    · exact absurd h1 hneg
    · rw [Int.toNat_ofNat, hd, upd_same, ho, hs]
      rcases addMcp_pins h with ⟨j, hj⟩ | h1 | hz
      · have := (mcpScan_found_inv _ _ _ _ _ hj).1
        have hk2 := addMcp_effect h
        rcases hk2 with ⟨k2, hk2, -, -, e2, -⟩ | ⟨h1, -⟩ | ⟨k2, x2, hk2, -⟩
        · rw [hj] at hk2
          simp only [Option.some.injEq, Scan.found.injEq] at hk2
          subst hk2
          have e3 : k = j := by omega
          subst e3
          rw [Int.toNat_ofNat, this] at hnew
          exact absurd hnew (by decide)
        · exact absurd h1 hneg
        · rw [hj] at hk2
          exact absurd hk2 (by simp)
      · exact absurd h1 hneg
      · exact ⟨rfl, rfl, hc, fin 16 hc hz⟩

/-- Witness of C17: the native backend registered first, on memory with all
bits set; flat pin 5 is below the pin count and is a disabled input with state 0. -/
theorem new_pins_are_disabled_inputs_witness :
    5 < getCount ((addRpiGpiDevice 3 true init).getD (0, init)).2 ∧
      getGpi ((addRpiGpiDevice 3 true init).getD (0, init)).2 5
        = some { value := 0, enabled := 0, dir := 0 } ∧
      isEnabled 5 ((addRpiGpiDevice 3 true init).getD (0, init)).2 = some 0 ∧
      getDirection 5 ((addRpiGpiDevice 3 true init).getD (0, init)).2 = some 0 ∧
      getState 5 ((addRpiGpiDevice 3 true init).getD (0, init)).2 = some 0 :=
  ((new_pins_are_disabled_inputs init _ 0 (by decide) (by decide!)).1 3 true
    (some_pair_of_fst _ (0, init) 0 (by decide!))).2.2.2 5 (by decide!) (by decide!)

/-! ## The native backend and its registers -/

/-- C19: for every flat pin below 256 whose native local offset `o` is within
2..27, with the registers mapped, and every `mode`, `setRpiGpiPull` returns and
appends to the hardware log exactly: write `mode & 3` to word 37, delay, write
`1 << o` to word 38, delay, write 0 to word 37, write 0 to word 38. -/
theorem setRpiGpiPull_trace (st : State) (gpi mode : Nat) (hg : gpi < MAX_GPI)
    (h2 : 2 ≤ (st.gpimap gpi).offset) (h27 : (st.gpimap gpi).offset ≤ 27)
    (hm : st.gpiMmap = true) :
    ∃ st1, setRpiGpiPull gpi mode st = some st1 ∧
      st1.log = st.log ++ [.regWrite BCM2835_GPPUD (mode &&& 3), .delay,
        .regWrite BCM2835_GPPUDCLK0 (1 <<< (st.gpimap gpi).offset), .delay,
        .regWrite BCM2835_GPPUD 0, .regWrite BCM2835_GPPUDCLK0 0] := by
  have hu := unavailableGpi_available _ h2 h27
  have hgt : ¬ (st.gpimap gpi).offset > 31 := by omega
  have hne : ¬ ((0 : Nat) ≠ 0) := fun c => c rfl
  have hs := one_shiftLeft_lt (st.gpimap gpi).offset (by omega)
  have hm3 := and_three_lt mode
  unfold setRpiGpiPull readMap
  simp only [if_pos hg, if_neg hgt, hu, if_neg hne]
  simp only [regWrite, usleep, emit, hm, if_true, hs, hm3, Nat.zero_mod]
  exact ⟨_, rfl, by simp⟩

/-- Witness of C19: native backend registered, pull-up on flat pin 5. -/
theorem setRpiGpiPull_trace_witness :
    ∃ st1, setRpiGpiPull 5 PUD_UP (stateAfter nativeOnly) = some st1 ∧
      st1.log = (stateAfter nativeOnly).log ++ [.regWrite 37 2, .delay, .regWrite 38 32,
        .delay, .regWrite 37 0, .regWrite 38 0] := by
  have ho : ((stateAfter nativeOnly).gpimap 5).offset = 5 := by decide!
  obtain ⟨st1, h1, h2⟩ := setRpiGpiPull_trace (stateAfter nativeOnly) 5 PUD_UP (by decide)
    (by decide!) (by decide!) (by decide!)
  rw [ho] at h2
  exact ⟨st1, h1, h2⟩

/-- C20: for every flat pin below 256 whose native local offset `o` is within
2..27, with the registers mapped, `setRpiGpiState` returns and appends to the
hardware log exactly one event, a register write and no read: the mask
`1 << o`, in which bit `o` and no other bit is set, to word 7 when `state` is
non-zero and to word 10 when `state` is 0. -/
theorem setRpiGpiState_one_write (st : State) (gpi state : Nat) (hg : gpi < MAX_GPI)
    (h2 : 2 ≤ (st.gpimap gpi).offset) (h27 : (st.gpimap gpi).offset ≤ 27)
    (hm : st.gpiMmap = true) :
    ∃ st1, setRpiGpiState gpi state st = some st1 ∧
      st1.log = st.log ++ [.regWrite (if state ≠ 0 then BCM2835_GPSET0 else BCM2835_GPCLR0)
        (1 <<< (st.gpimap gpi).offset)] ∧
      (1 <<< (st.gpimap gpi).offset).testBit (st.gpimap gpi).offset = true ∧
      (∀ b, b ≠ (st.gpimap gpi).offset → (1 <<< (st.gpimap gpi).offset).testBit b = false) := by
  have hu := unavailableGpi_available _ h2 h27
  have hguard : ¬ ((st.gpimap gpi).offset > 31 ∨ (0 : Nat) ≠ 0) := by
    intro c
    rcases c with c | c
    · omega
    · exact c rfl
  have hs := one_shiftLeft_lt (st.gpimap gpi).offset (by omega)
  have hbits : (1 <<< (st.gpimap gpi).offset).testBit (st.gpimap gpi).offset = true ∧
      (∀ b, b ≠ (st.gpimap gpi).offset → (1 <<< (st.gpimap gpi).offset).testBit b = false) := by
    rw [Nat.one_shiftLeft]
    refine ⟨Nat.testBit_two_pow_self, fun b hb => ?_⟩
    exact Nat.testBit_two_pow_of_ne (Ne.symm hb)
  unfold setRpiGpiState readMap
  simp only [if_pos hg, hu, if_neg hguard]
  by_cases hz : state ≠ 0
  · rw [if_pos hz, regWrite_eq _ _ hm, hs]
    exact ⟨_, rfl, by rw [if_pos hz]; rfl, hbits⟩
  · rw [if_neg hz, regWrite_eq _ _ hm, hs]
    exact ⟨_, rfl, by rw [if_neg hz]; rfl, hbits⟩

/-- Witness of C20: native backend registered, flat pin 5 asserted. -/
theorem setRpiGpiState_one_write_witness :
    ∃ st1, setRpiGpiState 5 1 (stateAfter nativeOnly) = some st1 ∧
      st1.log = (stateAfter nativeOnly).log ++ [.regWrite 7 32] := by
  have ho : ((stateAfter nativeOnly).gpimap 5).offset = 5 := by decide!
  obtain ⟨st1, h1, h2, -⟩ := setRpiGpiState_one_write (stateAfter nativeOnly) 5 1 (by decide)
    (by decide!) (by decide!) (by decide!)
  rw [ho] at h2
  exact ⟨st1, h1, h2⟩

/-! ## Local offsets passed as flat pin numbers -/

/-- C22: a reachable state with the native backend in slot 1 behind an
expander: flat pin 36 is the native pin of local offset 20, it is enabled, its
cached value is 0 and bit 20 of the level register is 1; `pollRpiGpi(1)`
returns 0 and the cached value of pin 36 is still 0.  The poll loop calls
`getRpiGpiState(20)`, which looks up `gpimap[20]`, the native pin of local
offset 4, and reads bit 4. -/
theorem poll_reads_wrong_bit :
    (run nativeSecondLevel20 init).isSome = true ∧
      (stateAfter nativeSecondLevel20).gpimap 36 = { driver := 1, offset := 20 } ∧
      ((stateAfter nativeSecondLevel20).gpiDrivers 1).type = GPI_DRIVER_RPI ∧
      isEnabled 36 (stateAfter nativeSecondLevel20) = some 1 ∧
      getState 36 (stateAfter nativeSecondLevel20) = some 0 ∧
      ((stateAfter nativeSecondLevel20).regs BCM2835_GPLEV0).testBit 20 = true ∧
      (pollRpiGpi 1 (stateAfter nativeSecondLevel20)).map (fun r => (r.1, getState 36 r.2))
        = some (0, some 0) := by
  refine ⟨by decide!, by decide!, by decide!, by decide!, by decide!, by decide!, by decide!⟩

/-- C27: with the native backend in slot 1 behind an expander, flat pin 36 is
valid and is the native pin of local offset 20; `setState(36, 1)` makes one
register write, of the mask `1 << 4` to the set register: `setState` passes
`gpimap[36].offset = 20` to `setRpiGpiState`, which takes a flat pin number and
looks up `gpimap[20]`, the native pin of local offset 4. -/
theorem setState_drives_another_pin :
    (run expanderThenNative init).isSome = true ∧
      (stateAfter expanderThenNative).gpimap 36 = { driver := 1, offset := 20 } ∧
      ((stateAfter expanderThenNative).gpiDrivers 1).type = GPI_DRIVER_RPI ∧
      36 < getCount (stateAfter expanderThenNative) ∧
      (setState 36 1 (stateAfter expanderThenNative)).map
          (fun t => t.log.drop (stateAfter expanderThenNative).log.length)
        = some [.regWrite BCM2835_GPSET0 (1 <<< 4)] := by
  refine ⟨by decide!, by decide!, by decide!, by decide!, by decide!⟩

/-- C29: an expander whose pin 3 is an output (`getDirection(3) = 1`); a
following `addRpiGpiDevice` returns slot 1 with 48 pins, a following
`addMcp23017GpiDevice(0x21, 0)` returns slot 1 with 32 pins, and after either
`getDirection(3)` is 0: the pin loop of the registration calls
`set...Direction(i, INPUT)` with the loop index, which is a flat pin of the
expander registered before. -/
theorem registration_resets_directions :
    (run outputOnly init).isSome = true ∧
      getDirection 3 (stateAfter outputOnly) = some 1 ∧
      (addRpiGpiDevice 3 true (stateAfter outputOnly)).map
          (fun r => (r.1, getCount r.2, getDirection 3 r.2)) = some (1, 48, some 0) ∧
      (addMcp23017GpiDevice 0x21 0 4 (stateAfter outputOnly)).map
          (fun r => (r.1, getCount r.2, getDirection 3 r.2)) = some (1, 32, some 0) := by
  refine ⟨by decide!, by decide!, by decide!, by decide!⟩

/-! ## Port and bit selection of the expander -/

/-- C24: one expander, the chip delivering 0xFF; `setDirection(3, OUTPUT)` on
the pin of local offset 3 reads and writes register 0x10 (port B), not 0x00
(port A), and writes back 0x7F, the byte read with bit 7 cleared, not bit 3:
the register is chosen by `(offset | 0x08) ?` and the bit is `offset | 0x07`. -/
theorem expander_direction_uses_port_b_bit_7 :
    (run (expanderOnly ++ [.hwBus [255]]) init).isSome = true ∧
      (stateAfter (expanderOnly ++ [.hwBus [255]])).gpimap 3 = { driver := 0, offset := 3 } ∧
      (setDirection 3 1 (stateAfter (expanderOnly ++ [.hwBus [255]]))).map
          (fun t => t.log.drop (stateAfter (expanderOnly ++ [.hwBus [255]])).log.length)
        = some [.busSelect 0x20, .busWrite 0x40, .busWrite 0x10, .busRead,
            .busSelect 0x20, .busWrite 0x40, .busWrite 0x10, .busWrite 0x7F] := by
  refine ⟨by decide!, by decide!, by decide!⟩

/-- C25: one expander, the chip delivering 0; `setPull(11, PUD_UP)` on the pin
of local offset 11 writes the byte 0 back to register 0x16: no bit is set (the
bit number is `11 | 7 = 15`, outside the byte); `setPull(3, PUD_UP)` writes
0x80 to register 0x16: bit 7 of port B, not bit 3 of port A. -/
theorem expander_pull_up_misses_the_pin :
    (run (expanderOnly ++ [.hwBus [0, 0]]) init).isSome = true ∧
      (stateAfter (expanderOnly ++ [.hwBus [0, 0]])).gpimap 11 = { driver := 0, offset := 11 } ∧
      (setPull 11 PUD_UP (stateAfter (expanderOnly ++ [.hwBus [0, 0]]))).map
          (fun t => t.log.drop (stateAfter (expanderOnly ++ [.hwBus [0, 0]])).log.length)
        = some [.busSelect 0x20, .busWrite 0x40, .busWrite 0x16, .busRead,
            .busSelect 0x20, .busWrite 0x40, .busWrite 0x16, .busWrite 0] ∧
      (setPull 3 PUD_UP (stateAfter (expanderOnly ++ [.hwBus [0, 0]]))).map
          (fun t => t.log.drop (stateAfter (expanderOnly ++ [.hwBus [0, 0]])).log.length)
        = some [.busSelect 0x20, .busWrite 0x40, .busWrite 0x16, .busRead,
            .busSelect 0x20, .busWrite 0x40, .busWrite 0x16, .busWrite 0x80] := by
  refine ⟨by decide!, by decide!, by decide!, by decide!⟩

/-! ## Cached direction and pin-number guard -/

/-- C31: native backend registered, flat pin 5 at local offset 5;
after `setRpiGpiDirection(5, 2)`, and after `setDirection(5, 2)`,
`getDirection(5)` is 1 while the function-select field of pin 5 (bits 15..17 of
word 0) holds 0: the register gets `dir & 0x01`, the cache `dir?1:0`. -/
theorem cached_direction_differs_from_field :
    (run nativeOnly init).isSome = true ∧
      (stateAfter nativeOnly).gpimap 5 = { driver := 0, offset := 5 } ∧
      (setRpiGpiDirection 5 2 (stateAfter nativeOnly)).map
          (fun t => (getDirection 5 t, (t.regs 0 >>> 15) % 8)) = some (some 1, 0) ∧
      (setDirection 5 2 (stateAfter nativeOnly)).map
          (fun t => (getDirection 5 t, (t.regs 0 >>> 15) % 8)) = some (some 1, 0) := by
  refine ⟨by decide!, by decide!, by decide!, by decide!⟩

/-- C32: on an initialised interface `ConfigureGpi(54, ...)`, `SetGpi(54, ...)`
and `GetGpi(54)` read the availability table, which has 54 entries, at index
54: the guard is `gpi > MAX_GPI` with `MAX_GPI = 54`.  Pin 55 is rejected. -/
theorem pin_54_indexes_past_the_table :
    ribanRpiInterface.IsInit
        (ribanRpiInterface.create ribanRpiInterface.RRPI_ENABLE_ALL 3 true (fun _ => 0)) = true ∧
      ribanRpiInterface.anUnavailableGpi.length = 54 ∧
      (ribanRpiInterface.ConfigureGpi 54 ribanRpiInterface.GPI_INPUT
        (ribanRpiInterface.create ribanRpiInterface.RRPI_ENABLE_ALL 3 true (fun _ => 0))).isNone
          = true ∧
      (ribanRpiInterface.SetGpi 54 true
        (ribanRpiInterface.create ribanRpiInterface.RRPI_ENABLE_ALL 3 true (fun _ => 0))).isNone
          = true ∧
      (ribanRpiInterface.GetGpi 54
        (ribanRpiInterface.create ribanRpiInterface.RRPI_ENABLE_ALL 3 true (fun _ => 0))).isNone
          = true ∧
      (ribanRpiInterface.ConfigureGpi 55 ribanRpiInterface.GPI_INPUT
        (ribanRpiInterface.create ribanRpiInterface.RRPI_ENABLE_ALL 3 true (fun _ => 0))).map
          Prod.fst = some false := by
  refine ⟨by decide!, by decide!, by decide!, by decide!, by decide!, by decide!⟩

/-! ## Reserved native pins -/

/-- C21: for every flat pin below 256 whose native local offset is 0, 1, 28,
29, 30 or 31, `setRpiGpiDirection`, `setRpiGpiState` and `setRpiGpiPull`
return leaving the whole state as it was (no register access, no cached pin
field changed), for every argument, and `getRpiGpiState` returns 0, also
without touching anything. -/
theorem reserved_native_pins_are_rejected (st : State) (gpi : Nat) (hg : gpi < MAX_GPI)
    (ho : (st.gpimap gpi).offset = 0 ∨ (st.gpimap gpi).offset = 1 ∨
      (28 ≤ (st.gpimap gpi).offset ∧ (st.gpimap gpi).offset ≤ 31)) :
    (∀ dir, setRpiGpiDirection gpi dir st = some st) ∧
      (∀ state, setRpiGpiState gpi state st = some st) ∧
      (∀ mode, setRpiGpiPull gpi mode st = some st) ∧
      getRpiGpiState gpi st = some (0, st) := by
  have hu := unavailableGpi_reserved _ ho
  have hguard : (st.gpimap gpi).offset > 31 ∨ (1 : Nat) ≠ 0 := Or.inr (by decide)
  have h31 : ¬ (st.gpimap gpi).offset > 31 := by omega
  have h1 : (1 : Nat) ≠ 0 := by decide
  refine ⟨fun dir => ?_, fun state => ?_, fun mode => ?_, ?_⟩
  · unfold setRpiGpiDirection readMap
    simp only [if_pos hg, hu, if_pos hguard]
  · unfold setRpiGpiState readMap
    simp only [if_pos hg, hu, if_pos hguard]
  · unfold setRpiGpiPull readMap
    simp only [if_pos hg, if_neg h31, hu, if_pos h1]
  · unfold getRpiGpiState readMap
    simp only [if_pos hg, hu, if_pos hguard]

/-- Witness of C21: native backend registered, flat pin 28 (local offset 28). -/
theorem reserved_native_pins_are_rejected_witness :
    setRpiGpiDirection 28 1 (stateAfter nativeOnly) = some (stateAfter nativeOnly) ∧
      getRpiGpiState 28 (stateAfter nativeOnly) = some (0, stateAfter nativeOnly) :=
  ⟨(reserved_native_pins_are_rejected (stateAfter nativeOnly) 28 (by decide)
      (Or.inr (Or.inr (by decide!)))).1 1,
   (reserved_native_pins_are_rejected (stateAfter nativeOnly) 28 (by decide)
      (Or.inr (Or.inr (by decide!)))).2.2.2⟩

/-! ## The native poll -/

/-- C28: with the bus open, `readMcp23017Register(address, reg)` appends to the
hardware log exactly select(address), write of the command byte
`(0x40 | address << 1) mod 256`, write of `reg`, one read, and returns the byte
read (0 when the device delivers none); `writeMcp23017Register` appends
select(address), the command byte, `reg`, `val`.  For an address in 0x20..0x27
the command byte is `2 * address`.  With the bus not open neither changes
anything and the read returns 0.  (Bytes are written as `uint8_t`.) -/
theorem register_access_framing (st : State) (address reg val : Nat) :
    (0 ≤ st.i2cFd →
      (readMcp23017Register address reg st).2.log = st.log ++
          [.busSelect address, .busWrite ((0x40 ||| (address <<< 1)) % 256),
            .busWrite (reg % 256), .busRead] ∧
        (readMcp23017Register address reg st).1 = (st.busIn.headD 0) % 256 ∧
        (writeMcp23017Register address reg val st).log = st.log ++
          [.busSelect address, .busWrite ((0x40 ||| (address <<< 1)) % 256),
            .busWrite (reg % 256), .busWrite (val % 256)]) ∧
      (0x20 ≤ address → address ≤ 0x27 → (0x40 ||| (address <<< 1)) % 256 = 2 * address) ∧
      (st.i2cFd < 0 →
        readMcp23017Register address reg st = (0, st) ∧
          writeMcp23017Register address reg val st = st) := by
  refine ⟨fun h => ?_, command_byte address, fun h => ?_⟩
  · have hn : ¬ st.i2cFd < 0 := by omega
    unfold readMcp23017Register writeMcp23017Register i2cReadByte i2cWriteByte i2cSelectDevice
      i2cGetFd emit
    simp only [hn, if_false]
    refine ⟨?_, ?_, ?_⟩
    · cases hb : st.busIn <;> simp
    · cases hb : st.busIn <;> simp
    · simp
  · unfold readMcp23017Register writeMcp23017Register i2cGetFd
    simp only [if_pos h, and_self]

/-- Witness of C28: one expander, the chip delivering 0xFF, a read of register 9. -/
theorem register_access_framing_witness :
    (readMcp23017Register 0x20 9 (stateAfter (expanderOnly ++ [.hwBus [255]]))).2.log
        = (stateAfter (expanderOnly ++ [.hwBus [255]])).log ++
          [.busSelect 0x20, .busWrite 0x40, .busWrite 9, .busRead] ∧
      (readMcp23017Register 0x20 9 (stateAfter (expanderOnly ++ [.hwBus [255]]))).1 = 255 := by
  have h := (register_access_framing (stateAfter (expanderOnly ++ [.hwBus [255]])) 0x20 9 0).1
    (by decide!)
  have hb : (stateAfter (expanderOnly ++ [.hwBus [255]])).busIn.headD 0 % 256 = 255 := by decide!
  rw [hb] at h
  exact ⟨h.1, h.2.1⟩

/-! ## ConfigureGpi of ribanRpiInterface -/

/-- C26: on an object satisfying the class invariant (initialised implies
mapped): when it is initialised and `gpi` is within 2..31, `ConfigureGpi`
returns true, the function-select field of the pin (bits `3*(gpi mod 10)..+2`
of word `gpi div 10`) holds `flags & 7`, every other bit of that word and every
word other than it and words 37, 38 is unchanged, and the accesses are, in
order: the two read-modify-writes of the field, `(flags & 0x18) >> 3` to word
37, delay, `1 << (gpi mod 32)` to word 38, delay, 0 to word 37, 0 to word 38.
When the object is not initialised, or `gpi` is 0, 1 or within 32..53, it
returns false and the object is unchanged. -/
theorem ConfigureGpi_effect (o : ribanRpiInterface.Obj) (gpi flags : Nat)
    (hw : ribanRpiInterface.Wf o) :
    (ribanRpiInterface.IsInit o = true → 2 ≤ gpi → gpi ≤ 31 →
      ∃ o1, ribanRpiInterface.ConfigureGpi gpi flags o = some (true, o1) ∧
        (o1.regs (gpi / 10) >>> (3 * (gpi % 10))) % 8 = flags &&& 7 ∧
        (∀ b, b < 32 → (b < 3 * (gpi % 10) ∨ 3 * (gpi % 10) + 3 ≤ b) →
          (o1.regs (gpi / 10)).testBit b = (o.regs (gpi / 10)).testBit b) ∧
        (∀ w, w ≠ gpi / 10 → w ≠ 37 → w ≠ 38 → o1.regs w = o.regs w) ∧
        o1.log = o.log ++ [.regRead (gpi / 10),
          .regWrite (gpi / 10) ((o.regs (gpi / 10) &&& not32 (7 <<< ((gpi % 10) * 3))) % U32),
          .regRead (gpi / 10), .regWrite (gpi / 10) (o1.regs (gpi / 10)),
          .regWrite 37 ((flags &&& 0x18) >>> 3), .delay, .regWrite 38 (1 <<< (gpi % 32)),
          .delay, .regWrite 37 0, .regWrite 38 0]) ∧
      (ribanRpiInterface.IsInit o = false →
        ribanRpiInterface.ConfigureGpi gpi flags o = some (false, o)) ∧
      ((gpi ≤ 1 ∨ (32 ≤ gpi ∧ gpi ≤ 53)) →
        ribanRpiInterface.ConfigureGpi gpi flags o = some (false, o)) := by
  refine ⟨fun hi h2 h31 => ?_, fun hi => ?_, fun hg => ?_⟩
  · have hun : o.m_bUnInit = false := by
      unfold ribanRpiInterface.IsInit at hi
      cases hb : o.m_bUnInit
      · rfl
      · rw [hb] at hi
        exact absurd hi (by decide)
    have hm := hw hun
    have hu := ribanRpiInterface.anUnavailableGpi_available gpi h2 h31
    have hgt : ¬ gpi > ribanRpiInterface.MAX_GPI := by
      show ¬ gpi > 54
      omega
    have hne : ¬ ((0 : Nat) ≠ 0) := fun c => c rfl
    have hclk : ribanRpiInterface.GPPUDCLK0 + gpi / 32 = 38 := by
      show 38 + gpi / 32 = 38
      omega
    have hc : flags &&& 7 < 8 := Nat.and_lt_two_pow flags (show 7 < 2 ^ 3 by decide)
    have hpud : ((flags &&& 0x18) >>> 3) % U32 = (flags &&& 0x18) >>> 3 := by
      apply Nat.mod_eq_of_lt
      have h1 : flags &&& 0x18 ≤ 0x18 := Nat.and_le_right
      have h2 : (flags &&& 0x18) >>> 3 ≤ flags &&& 0x18 := by
        rw [Nat.shiftRight_eq_div_pow]
        exact Nat.div_le_self _ _
      show _ < 4294967296
      omega
    have hmask : (1 <<< (gpi % 32)) % U32 = 1 <<< (gpi % 32) :=
      one_shiftLeft_lt _ (by omega)
    obtain ⟨o1, e1, m1, r1, l1⟩ := ribanRpiInterface.mapRead_ok (gpi / 10) hm
    obtain ⟨o2, e2, m2, r2, l2⟩ := ribanRpiInterface.mapWrite_ok (gpi / 10)
      (o.regs (gpi / 10) &&& not32 (7 <<< ((gpi % 10) * 3))) m1
    obtain ⟨o3, e3, m3, r3, l3⟩ := ribanRpiInterface.mapRead_ok (gpi / 10) m2
    obtain ⟨o4, e4, m4, r4, l4⟩ := ribanRpiInterface.mapWrite_ok (gpi / 10)
      (o2.regs (gpi / 10) ||| ((flags &&& 0x07) <<< ((gpi % 10) * 3))) m3
    obtain ⟨o5, e5, m5, r5, l5⟩ := ribanRpiInterface.mapWrite_ok ribanRpiInterface.GPPUD
      ((flags &&& 0x18) >>> 3) m4
    obtain ⟨o6, e6, m6, r6, l6⟩ := ribanRpiInterface.mapWrite_ok 38 (1 <<< (gpi % 32))
      (show ({ o5 with log := o5.log ++ [.delay] } : ribanRpiInterface.Obj).m_pGpiMap = true
        from m5)
    obtain ⟨o7, e7, m7, r7, l7⟩ := ribanRpiInterface.mapWrite_ok ribanRpiInterface.GPPUD 0
      (show ({ o6 with log := o6.log ++ [.delay] } : ribanRpiInterface.Obj).m_pGpiMap = true
        from m6)
    obtain ⟨o8, e8, m8, r8, l8⟩ := ribanRpiInterface.mapWrite_ok 38 0 m7
    have hcall : ribanRpiInterface.ConfigureGpi gpi flags o = some (true, o8) := by
      unfold ribanRpiInterface.ConfigureGpi
      simp only [hun, Bool.false_eq_true, if_false, if_neg hgt, hu, if_neg hne, hclk]
      rw [e1]
      simp only []
      rw [e2]
      simp only []
      rw [e3]
      simp only []
      rw [e4]
      simp only []
      rw [e5]
      simp only []
      rw [e6]
      simp only []
      rw [e7]
      simp only []
      rw [e8]
    have hw10 : gpi / 10 ≠ 37 ∧ gpi / 10 ≠ 38 := by omega
    simp only [Nat.zero_mod] at r6 l6 r7 l7 r8 l8
    have hv2 : o2.regs (gpi / 10)
        = (o.regs (gpi / 10) &&& not32 (7 <<< ((gpi % 10) * 3))) % U32 := by
      rw [r2, upd_same]
    have hregs : o8.regs = upd (upd (upd (upd (upd o2.regs
        (gpi / 10) ((o2.regs (gpi / 10) ||| ((flags &&& 0x07) <<< ((gpi % 10) * 3))) % U32))
        37 ((flags &&& 0x18) >>> 3)) 38 (1 <<< (gpi % 32))) 37 0) 38 0 := by
      rw [r8, r7, r6, r5, r4, r3, hpud, hmask]
    have hF : o8.regs (gpi / 10) = (((o.regs (gpi / 10) &&& not32 (7 <<< ((gpi % 10) * 3))) % U32)
        ||| ((flags &&& 7) <<< ((gpi % 10) * 3))) % U32 := by
      rw [hregs, upd_ne _ _ _ _ hw10.2, upd_ne _ _ _ _ hw10.1, upd_ne _ _ _ _ hw10.2,
        upd_ne _ _ _ _ hw10.1, upd_same, hv2]
    have hs : 3 * (gpi % 10) = (gpi % 10) * 3 := Nat.mul_comm _ _
    refine ⟨o8, hcall, ?_, ?_, ?_, ?_⟩
    · rw [hF, hs]
      exact fselGen_field _ _ _ hc (by omega)
    · intro b hb hout
      rw [hF, fselGen_testBit _ _ _ _ hc hb]
      have : ¬ ((gpi % 10) * 3 ≤ b ∧ b < (gpi % 10) * 3 + 3) := by omega
      rw [if_neg this]
    · intro w h1 h2 h3
      rw [hregs, upd_ne _ _ _ _ h3, upd_ne _ _ _ _ h2, upd_ne _ _ _ _ h3, upd_ne _ _ _ _ h2,
        upd_ne _ _ _ _ h1, r2, upd_ne _ _ _ _ h1, r1]
    · have hF4 : o8.regs (gpi / 10)
          = (o2.regs (gpi / 10) ||| ((flags &&& 0x07) <<< ((gpi % 10) * 3))) % U32 := by
        rw [hF, hv2]
      rw [l8, l7, l6, l5, l4, l3, l2, l1, hF4, hpud, hmask]
      simp [List.append_assoc]
  · have hun : o.m_bUnInit = true := by
      unfold ribanRpiInterface.IsInit at hi
      cases hb : o.m_bUnInit
      · rw [hb] at hi
        exact absurd hi (by decide)
      · rfl
    unfold ribanRpiInterface.ConfigureGpi
    rw [if_pos hun]
  · have hu := ribanRpiInterface.anUnavailableGpi_reserved gpi hg
    have hgt : ¬ gpi > ribanRpiInterface.MAX_GPI := by
      show ¬ gpi > 54
      omega
    have h1 : (1 : Nat) ≠ 0 := by decide
    unfold ribanRpiInterface.ConfigureGpi
    by_cases hun : o.m_bUnInit = true
    · rw [if_pos hun]
    · rw [if_neg hun, if_neg hgt]
      simp only [hu, if_pos h1]

/-- Witness of C26: `ConfigureGpi(4, GPI_INPUT_PULLUP)` on a freshly
initialised interface: function code 0, pull mode 2, clock mask `1 << 4`. -/
theorem ConfigureGpi_effect_witness :
    ∃ o1, ribanRpiInterface.ConfigureGpi 4 ribanRpiInterface.GPI_INPUT_PULLUP
        (ribanRpiInterface.create ribanRpiInterface.RRPI_ENABLE_ALL 3 true (fun _ => 0))
          = some (true, o1) ∧
      (o1.regs 0 >>> 12) % 8 = 0 ∧
      o1.log = [.regRead 0, .regWrite 0 0, .regRead 0, .regWrite 0 (o1.regs 0),
          .regWrite 37 2, .delay, .regWrite 38 16, .delay, .regWrite 37 0, .regWrite 38 0] := by
  obtain ⟨o1, h1, h2, -, -, h5⟩ := (ConfigureGpi_effect
    (ribanRpiInterface.create ribanRpiInterface.RRPI_ENABLE_ALL 3 true (fun _ => 0)) 4
    ribanRpiInterface.GPI_INPUT_PULLUP (fun _ => by decide!)).1 (by decide!) (by decide)
    (by decide)
  exact ⟨o1, h1, h2, h5⟩

/-! ## Bounds of the index map -/

/-- C30: in every reachable state at most one slot hosts the native backend
and no two slots host expanders with the same address; the pin count is at
most 144, so a registration writes `gpimap` below 256; every slot has size 0 or
base offset + 3 * size at most 256, and the map loop of `removeGpiDevice`, for
every slot index, stays inside `gpimap`. -/
theorem index_map_bounds (st : State) (h : Reachable st) :
    (∀ j k, j < MAX_GPI_DRIVERS → k < MAX_GPI_DRIVERS →
        (st.gpiDrivers j).type = GPI_DRIVER_RPI → (st.gpiDrivers k).type = GPI_DRIVER_RPI →
        j = k) ∧
      (∀ j k cj ck, j < MAX_GPI_DRIVERS → k < MAX_GPI_DRIVERS →
        (st.gpiDrivers j).type = GPI_DRIVER_MCP23017 →
        (st.gpiDrivers k).type = GPI_DRIVER_MCP23017 →
        (st.gpiDrivers j).config = some cj → (st.gpiDrivers k).config = some ck →
        cj.address = ck.address → j = k) ∧
      getCount st ≤ 144 ∧ getCount st + 32 ≤ MAX_GPI ∧
      (∀ k, k < MAX_GPI_DRIVERS → (st.gpiDrivers k).size = 0 ∨
        (st.gpiDrivers k).offset + 3 * (st.gpiDrivers k).size ≤ MAX_GPI) ∧
      (∀ k, k < MAX_GPI_DRIVERS →
        (shiftMap (st.gpiDrivers k).size
          (add32 (st.gpiDrivers k).offset ((st.gpiDrivers k).size * 2) - (st.gpiDrivers k).offset)
          (st.gpiDrivers k).offset st.gpimap).isSome = true) := by
  obtain ⟨n, inv⟩ := reachable_inv h
  have hc : st.zynGpiCount ≤ 144 := inv.count_le
  have hslot : ∀ k, k < MAX_GPI_DRIVERS → (st.gpiDrivers k).size = 0 ∨
      ((st.gpiDrivers k).offset + (st.gpiDrivers k).size ≤ 144 ∧
        (st.gpiDrivers k).size ≤ 32) := by
    intro k hk
    by_cases hkn : k < n
    · have h1 := inv.offs k hkn
      have h2 := inv.usedSize_eq k hkn
      have h3 := sizeBelow_mono st.gpiDrivers (k + 1) n (by omega)
      simp only [sizeBelow] at h3
      have h4 := inv.cnt
      exact Or.inr ⟨by omega, h2.2⟩
    · exact Or.inl (inv.unused k (by omega) hk).2
  have rpi : ∀ k, k < MAX_GPI_DRIVERS → (st.gpiDrivers k).type = GPI_DRIVER_RPI → k < n :=
    fun k hk ht => inv.lt_of_used hk (by rw [ht]; decide)
  have mcp : ∀ k, k < MAX_GPI_DRIVERS → (st.gpiDrivers k).type = GPI_DRIVER_MCP23017 → k < n :=
    fun k hk ht => inv.lt_of_used hk (by rw [ht]; decide)
  refine ⟨fun j k hj hk tj tk => inv.rpiUniq j k (rpi j hj tj) (rpi k hk tk) tj tk,
    fun j k cj ck hj hk tj tk ej ek ha =>
      inv.mcpUniq j k cj ck (mcp j hj tj) (mcp k hk tk) tj tk ej ek ha,
    hc, ?_, fun k hk => ?_, fun k hk => ?_⟩
  · show st.zynGpiCount + 32 ≤ 256
    omega
  · rcases hslot k hk with h0 | ⟨h1, h2⟩
    · exact Or.inl h0
    · refine Or.inr ?_
      show _ ≤ 256
      omega
  · apply shiftMap_some
    rcases hslot k hk with h0 | ⟨h1, h2⟩
    · left
      rw [h0]
      unfold add32
      have := Nat.mod_le ((st.gpiDrivers k).offset + 0 * 2) U32
      omega
    · right
      have hadd : add32 (st.gpiDrivers k).offset ((st.gpiDrivers k).size * 2)
          = (st.gpiDrivers k).offset + (st.gpiDrivers k).size * 2 := by
        unfold add32
        exact Nat.mod_eq_of_lt (show _ < 4294967296 by omega)
      rw [hadd]
      omega

/-- Witness of C30: two expanders and the native backend, slot 1 removed. -/
theorem index_map_bounds_witness :
    getCount (stateAfter removeMiddleOfThree) ≤ 144 ∧
      (shiftMap ((stateAfter removeMiddleOfThree).gpiDrivers 1).size
        (add32 ((stateAfter removeMiddleOfThree).gpiDrivers 1).offset
            (((stateAfter removeMiddleOfThree).gpiDrivers 1).size * 2)
          - ((stateAfter removeMiddleOfThree).gpiDrivers 1).offset)
        ((stateAfter removeMiddleOfThree).gpiDrivers 1).offset
        (stateAfter removeMiddleOfThree).gpimap).isSome = true :=
  ⟨(index_map_bounds _ (reachable_stateAfter removeMiddleOfThree (by decide!))).2.2.1,
   (index_map_bounds _ (reachable_stateAfter removeMiddleOfThree (by decide!))).2.2.2.2.2 1
     (by decide)⟩

/-! ## After a removal -/

/-- C6: a reachable state in which `removeGpiDevice` on a non-empty slot does
not subtract the slot's size from the pin count, because it does not return.
After eight expanders, `removeGpiDevice(0)` and `removeGpiDevice(7)`, the
layout holds, the count is 112 and slot 6 hosts an expander of 16 pins, but
its pin array is no longer allocated and `removeGpiDevice(6)` frees it a second
time: `resetDriver` left `gpis` of the vacated slot 7 pointing at the array of
slot 6, and the removal of the empty slot 7 freed it. -/
theorem removal_of_used_slot_double_frees :
    (run eightExpandersTwoRemovals init).isSome = true ∧
      Layout (stateAfter eightExpandersTwoRemovals) ∧
      getCount (stateAfter eightExpandersTwoRemovals) = 112 ∧
      ((stateAfter eightExpandersTwoRemovals).gpiDrivers 6).type = GPI_DRIVER_MCP23017 ∧
      ((stateAfter eightExpandersTwoRemovals).gpiDrivers 6).size = 16 ∧
      ((stateAfter eightExpandersTwoRemovals).gpiDrivers 7).gpis
        = ((stateAfter eightExpandersTwoRemovals).gpiDrivers 6).gpis ∧
      ((stateAfter eightExpandersTwoRemovals).heap
        ((stateAfter eightExpandersTwoRemovals).gpiDrivers 6).gpis).isNone = true ∧
      (removeGpiDevice 6 (stateAfter eightExpandersTwoRemovals)).isNone = true := by
  refine ⟨by decide!, ?_, by decide!, by decide!, by decide!, by decide!, by decide!,
    by decide!⟩
  unfold Layout
  decide!

/-- C7: a reachable state in which a removal changes a pin below the removed
backend's base offset.  After an expander, the native backend, a second
expander and `removeGpiDevice(0)`, slot 1 hosts the second expander at base
offset 32, and flat pin 16, which is below 32, resolves to slot 1, element 0,
with `getState(16) = 0`; `removeGpiDevice(1)` returns, leaves `gpimap[16]` as
it was and frees the array: `getState(16)` has no value any more. -/
theorem remove_frees_pin_below_base :
    (run removeFirstOfThree init).isSome = true ∧
      ((stateAfter removeFirstOfThree).gpiDrivers 1).type = GPI_DRIVER_MCP23017 ∧
      ((stateAfter removeFirstOfThree).gpiDrivers 1).offset = 32 ∧
      getCount (stateAfter removeFirstOfThree) = 48 ∧
      (stateAfter removeFirstOfThree).gpimap 16 = { driver := 1, offset := 0 } ∧
      getState 16 (stateAfter removeFirstOfThree) = some 0 ∧
      (removeGpiDevice 1 (stateAfter removeFirstOfThree)).map
        (fun t => (getCount t, t.gpimap 16, getState 16 t))
        = some (32, { driver := 1, offset := 0 }, none) := by
  refine ⟨by decide!, by decide!, by decide!, by decide!, by decide!, by decide!, by decide!⟩

/-- C14: a reachable state with a valid flat pin on which `enableGpi` does not
return: after two expanders and `removeGpiDevice(0)` the pin count is 16 and
flat pin 0 resolves to the empty slot 1, whose pin array is the null pointer;
`enableGpi(0, 1)` and `enableGpi(0, 0)` write through it. -/
theorem enable_faults_after_remove :
    (run removeFirstOfTwo init).isSome = true ∧
      getCount (stateAfter removeFirstOfTwo) = 16 ∧
      (stateAfter removeFirstOfTwo).gpimap 0 = { driver := 1, offset := 4294967280 } ∧
      ((stateAfter removeFirstOfTwo).gpiDrivers 1).type = GPI_DRIVER_NONE ∧
      ((stateAfter removeFirstOfTwo).gpiDrivers 1).gpis = 0 ∧
      (enableGpi 0 1 (stateAfter removeFirstOfTwo)).isNone = true ∧
      (enableGpi 0 0 (stateAfter removeFirstOfTwo)).isNone = true := by
  refine ⟨by decide!, by decide!, by decide!, by decide!, by decide!, by decide!, by decide!⟩

/-- C15: a reachable state in which `enableGpi(p, 1)` changes `isEnabled(q)` of
another valid pin.  After three expanders, the native backend,
`removeGpiDevice(2)` and the registration of the removed expander again, the
pin count is 80 and the flat pins 48 and 64 both resolve to slot 3, element 0;
`isEnabled(64)` is 0, `enableGpi(48, 1)` returns 1, and afterwards
`isEnabled(64)` is 1. -/
theorem enable_flips_aliased_pin :
    (run reAddAfterRemove init).isSome = true ∧
      getCount (stateAfter reAddAfterRemove) = 80 ∧
      (stateAfter reAddAfterRemove).gpimap 48 = { driver := 3, offset := 0 } ∧
      (stateAfter reAddAfterRemove).gpimap 64 = { driver := 3, offset := 0 } ∧
      isEnabled 64 (stateAfter reAddAfterRemove) = some 0 ∧
      (enableGpi 48 1 (stateAfter reAddAfterRemove)).map
        (fun r => (r.1, isEnabled 48 r.2, isEnabled 64 r.2)) = some (1, some 1, some 1) := by
  refine ⟨by decide!, by decide!, by decide!, by decide!, by decide!, by decide!⟩

end RibanGpi
